import Mathlib

/-!
# Restore data processor (pkg/ccl/backupccl/restore_data_processor.go)

A shallow embedding of the restore data processor: the SST opener
(`openSSTs`), the ingestion loop (`processRestoreSpanEntry`) and the inner
loop of a restore worker (`runRestoreWorkers`).

The collaborators of the processor (quota pool, external storage, SST
reader, key rewriter, bulk-writer) are not part of the file; their answers
are taken from an environment `Env`, and every call the processor makes on
them is recorded in the trace of a `World`.
-/

namespace Restore

/-! ## Data model -/

/-- Byte slices (`[]byte`, `roachpb.Key`). -/
abbrev Bytes := List Nat

/-- Go `error` values met by the processor. -/
inductive Err where
  /-- `quotapool.ErrNotEnoughQuota`. -/
  | ErrNotEnoughQuota : Err
  /-- `ctx.Err()` of a cancelled context. -/
  | Canceled : Err
  /-- `errors.New(msg)`. -/
  | New (msg : String) : Err
  /-- An error handed back by a collaborator. -/
  | External (code : Nat) : Err
  /-- `errors.Wrapf(cause, msg)`. -/
  | Wrapf (cause : Err) (msg : String) : Err
deriving DecidableEq, Repr

/-- `errors.Is(err, target)`: `target` is `err` or one of the causes it wraps. -/
def Err.Is : Err → Err → Bool
  | .Wrapf cause msg, target =>
      decide (Err.Wrapf cause msg = target) || Err.Is cause target
  | e, target => decide (e = target)

/-- `hlc.Timestamp`. -/
structure Timestamp where
  WallTime : Int
  Logical : Int
deriving DecidableEq, Repr

/-- `hlc.Timestamp.IsEmpty`. -/
def Timestamp.IsEmpty (t : Timestamp) : Bool :=
  t.WallTime == 0 && t.Logical == 0

/-- `hlc.Timestamp.Less`. -/
def Timestamp.Less (t s : Timestamp) : Bool :=
  decide (t.WallTime < s.WallTime) ||
    (t.WallTime == s.WallTime && decide (t.Logical < s.Logical))

/-- `hlc.Timestamp.LessEq`. -/
def Timestamp.LessEq (t s : Timestamp) : Bool :=
  decide (t.WallTime < s.WallTime) ||
    (t.WallTime == s.WallTime && decide (t.Logical ≤ s.Logical))

/-- `bytes.Compare`: -1, 0 or 1 for the lexicographic order of two byte slices. -/
def Bytes.Compare : Bytes → Bytes → Int
  | [], [] => 0
  | [], _ :: _ => -1
  | _ :: _, [] => 1
  | a :: as, b :: bs =>
      if a < b then -1 else if b < a then 1 else Bytes.Compare as bs

/-- `bytes.HasPrefix`. -/
def Bytes.HasPrefix (s p : Bytes) : Bool :=
  p.isPrefixOf s

/-- `storage.MVCCKey`. -/
structure MVCCKey where
  Key : Bytes
  Timestamp : Timestamp
deriving DecidableEq, Repr

/-- `storage.MVCCKey.IsValue`. -/
def MVCCKey.IsValue (k : MVCCKey) : Bool :=
  !k.Timestamp.IsEmpty

/-- Modelled from the spec: `storage.MVCCKey.Less` is declared outside the
file. The spec reads the loop guard as `iter.key < span.endKey`: keys are
ordered by their bytes; among equal bytes the key without a timestamp comes
first and newer timestamps come before older ones. -/
def MVCCKey.Less (k l : MVCCKey) : Bool :=
  let c := Bytes.Compare k.Key l.Key
  if c ≠ 0 then decide (c < 0)
  else if !k.IsValue then l.IsValue
  else if !l.IsValue then false
  else l.Timestamp.Less k.Timestamp

/-- `roachpb.Span`. -/
structure Span where
  Key : Bytes
  EndKey : Bytes
deriving DecidableEq, Repr

/-- `execinfrapb.RestoreFileSpec`: the directory of a file and its path in it. -/
structure RestoreFileSpec where
  Dir : Nat
  Path : String
deriving DecidableEq, Repr

/-- `execinfrapb.RestoreSpanEntry`. -/
structure RestoreSpanEntry where
  Span : Span
  Files : List RestoreFileSpec
  ProgressIdx : Int
deriving DecidableEq, Repr

/-- `resumeEntry`. -/
structure resumeEntry where
  done : Bool
  idx : Nat
deriving DecidableEq, Repr

/-- `quotapool.IntAlloc`: a reservation handed out by the quota pool. -/
structure IntAlloc where
  id : Nat
  bytes : Nat
deriving DecidableEq, Repr

/-- `cloud.ExternalStorage`: an open storage handle on a directory. -/
structure ExternalStorage where
  id : Nat
  dir : Nat
deriving DecidableEq, Repr

/-- `storageccl.StoreFile`. -/
structure StoreFile where
  Store : ExternalStorage
  FilePath : String
deriving DecidableEq, Repr

/-- The file of the entry a `StoreFile` was made from. -/
def StoreFile.file (sf : StoreFile) : RestoreFileSpec :=
  { Dir := sf.Store.dir, Path := sf.FilePath }

/-- Modelled from the spec: `roachpb.Value` is declared outside the file. A
value carries a checksum (0 while it is not initialised) in front of its
payload bytes. -/
structure Value where
  checksum : Nat
  payload : Bytes
deriving DecidableEq, Repr

/-- `kvpb.BulkOpSummary`, with the counters the processor reports. -/
structure BulkOpSummary where
  DataSize : Int
  Rows : Int
  IndexEntries : Int
deriving DecidableEq, Repr

/-- `backuppb.RowCount`: the summary carried by a progress update. -/
structure RowCount where
  DataSize : Int
  Rows : Int
  IndexEntries : Int
deriving DecidableEq, Repr

/-- `storage.RowCounter`: a summary and the row prefix counted last. -/
structure RowCounter where
  BulkOpSummary : BulkOpSummary
  prev : Bytes
deriving DecidableEq, Repr

/-- A key and value stored in an SST file. -/
structure MVCCKeyValue where
  Key : MVCCKey
  Value : Value
deriving DecidableEq, Repr

/-- One position of an iterator: what `Valid`, `UnsafeKey` and `UnsafeValue`
answer there. -/
structure IterPos where
  validErr : Option Err
  key : MVCCKey
  value : Except Err Value

/-- `execinfrapb.RestoreDataSpec`, the fields the processor reads. -/
structure RestoreDataSpec where
  RestoreTime : Timestamp
  Encryption : Option Nat
  ValidateOnly : Bool
  PKIDs : List Nat
deriving DecidableEq, Repr

/-- `backuppb.RestoreProgress`. -/
structure RestoreProgress where
  Summary : RowCount
  ProgressIdx : Int
  DataSpan : Span
  CompleteUpTo : Timestamp
deriving DecidableEq, Repr

/-! ## Collaborators and the recorded world -/

/-- What the processor does to its collaborators, in the order it does it. -/
inductive Event where
  /-- The quota pool handed out reservation `a`. -/
  | acquired (a : IntAlloc) : Event
  /-- `qp.Release` gave reservation `a` back. -/
  | released (a : IntAlloc) : Event
  /-- `ExternalStorage` opened handle `d`. -/
  | opened (d : ExternalStorage) : Event
  /-- `dir.Close()` on handle `d`. -/
  | closed (d : ExternalStorage) : Event
  /-- `Close` of the iterator over `files`. -/
  | iterClosed (files : List StoreFile) : Event
  /-- `bulk.MakeSSTBatcher(..., disallowShadowingBelow, writeAtBatchTS, ...)`. -/
  | makeSSTBatcher (disallowShadowingBelow : Timestamp) (writeAtBatchTS : Bool) : Event
  /-- `batcher.AddMVCCKey(key, value)`. -/
  | addMVCCKey (key : MVCCKey) (value : Value) : Event
  /-- `batcher.Flush()`. -/
  | flush : Event
  /-- `batcher.Close()`. -/
  | batcherClose : Event
  /-- A progress update sent on `progCh`. -/
  | progress (p : RestoreProgress) : Event
  /-- `qp.IncreaseCapacity` raised the capacity of the pool by `n` bytes. -/
  | increasedCapacity (n : Nat) : Event
deriving DecidableEq, Repr

/-- The answers of the collaborators. The `n`-th call of an operation (counted
from 0 over the life of the world) gets the answer at `n`; `none` is success. -/
structure Env where
  /-- `qp.TryAcquireMaybeIncreaseCapacity`. -/
  TryAcquireMaybeIncreaseCapacity : Nat → Option Err
  /-- `qp.Acquire`, once it stops blocking. -/
  Acquire : Nat → Option Err
  /-- `qp.IncreaseCapacity`. -/
  IncreaseCapacity : Nat → Option Err
  /-- `flowCtx.Cfg.ExternalStorage`. -/
  ExternalStorage : Nat → Option Err
  /-- `storageccl.ExternalSSTReader`. -/
  ExternalSSTReader : Nat → Option Err
  /-- The keys and values held by each backup file. -/
  sst : RestoreFileSpec → List MVCCKeyValue
  /-- `bulk.MakeSSTBatcher`. -/
  MakeSSTBatcher : Nat → Option Err
  /-- `bulk.SSTBatcher.AddMVCCKey`, given the keys added before. -/
  AddMVCCKey : List (MVCCKey × Value) → MVCCKey → Value → Option Err
  /-- `bulk.SSTBatcher.Flush`, given the keys added before. -/
  Flush : List (MVCCKey × Value) → Option Err
  /-- `bulk.SSTBatcher.GetSummary`, given the keys added before. -/
  GetSummary : List (MVCCKey × Value) → BulkOpSummary
  /-- `storage.RowCounter.Count`. -/
  Count : RowCounter → Bytes → Option Err × RowCounter
  /-- The checksum `roachpb.Value` computes over a key and a payload. -/
  computeChecksum : Bytes → Bytes → Nat
  /-- `countRows` of the package. -/
  countRows : BulkOpSummary → List Nat → RowCount
  /-- `keys.TenantPrefix`. -/
  TenantPrefix : Bytes
  /-- Whether `ctx.Done()` wins the `select` of a worker that posts a
  progress update. -/
  ctxDone : Nat → Bool

/-- The calls made so far and their trace. -/
structure World where
  tryCalls : Nat
  acquireCalls : Nat
  storageCalls : Nat
  readerCalls : Nat
  batcherCalls : Nat
  selectCalls : Nat
  increaseCalls : Nat
  nextAlloc : Nat
  nextDir : Nat
  trace : List Event
deriving DecidableEq, Repr

/-- A world in which nothing has happened yet. -/
def World.init : World :=
  { tryCalls := 0, acquireCalls := 0, storageCalls := 0, readerCalls := 0,
    batcherCalls := 0, selectCalls := 0, increaseCalls := 0, nextAlloc := 0, nextDir := 0, trace := [] }

/-- Append an event to the trace. -/
def World.emit (w : World) (e : Event) : World :=
  { w with trace := w.trace ++ [e] }

/-! ## Quota pool and external storage -/

/-- `qp.TryAcquireMaybeIncreaseCapacity(ctx, n)`: a fresh reservation of `n`
bytes, or the error the pool answers with; it never blocks. -/
def World.TryAcquireMaybeIncreaseCapacity (env : Env) (n : Nat) (w : World) :
    Except Err IntAlloc × World :=
  match env.TryAcquireMaybeIncreaseCapacity w.tryCalls with
  | some err => (.error err, { w with tryCalls := w.tryCalls + 1 })
  | none =>
      let alloc : IntAlloc := { id := w.nextAlloc, bytes := n }
      (.ok alloc,
        { w with tryCalls := w.tryCalls + 1, nextAlloc := w.nextAlloc + 1,
                 trace := w.trace ++ [Event.acquired alloc] })

/-- `qp.Acquire(ctx, n)`: a fresh reservation of `n` bytes once the pool has
room, or an error (the context was cancelled, the pool was closed). -/
def World.Acquire (env : Env) (n : Nat) (w : World) : Except Err IntAlloc × World :=
  match env.Acquire w.acquireCalls with
  | some err => (.error err, { w with acquireCalls := w.acquireCalls + 1 })
  | none =>
      let alloc : IntAlloc := { id := w.nextAlloc, bytes := n }
      (.ok alloc,
        { w with acquireCalls := w.acquireCalls + 1, nextAlloc := w.nextAlloc + 1,
                 trace := w.trace ++ [Event.acquired alloc] })

/-- `qp.Release(allocs...)`. -/
def World.Release (allocs : List IntAlloc) (w : World) : World :=
  { w with trace := w.trace ++ allocs.map Event.released }

/-- `qmem.IncreaseCapacity(ctx, n)`: raises the capacity of the pool by `n`
bytes, or answers with an error and leaves the capacity as it is. -/
def World.IncreaseCapacity (env : Env) (n : Nat) (w : World) : Option Err × World :=
  match env.IncreaseCapacity w.increaseCalls with
  | some err => (some err, { w with increaseCalls := w.increaseCalls + 1 })
  | none =>
      (none, { w with increaseCalls := w.increaseCalls + 1,
                      trace := w.trace ++ [Event.increasedCapacity n] })

/-- `rd.flowCtx.Cfg.ExternalStorage(ctx, file.Dir)`: opens a handle on a directory. -/
def World.OpenExternalStorage (env : Env) (dir : Nat) (w : World) :
    Except Err ExternalStorage × World :=
  match env.ExternalStorage w.storageCalls with
  | some err => (.error err, { w with storageCalls := w.storageCalls + 1 })
  | none =>
      let d : ExternalStorage := { id := w.nextDir, dir := dir }
      (.ok d,
        { w with storageCalls := w.storageCalls + 1, nextDir := w.nextDir + 1,
                 trace := w.trace ++ [Event.opened d] })

/-- The loop `for _, dir := range dirs { dir.Close() }`. -/
def World.closeDirs (dirs : List ExternalStorage) (w : World) : World :=
  { w with trace := w.trace ++ dirs.map Event.closed }

/-! ## Iterators -/

/-- `storage.SimpleMVCCIterator` as its user sees it: the files it reads and,
for a seek key, the positions that `SeekGE` and the following `Next` calls
visit until the iterator is exhausted. -/
structure SimpleMVCCIterator where
  files : List StoreFile
  SeekGE : MVCCKey → List IterPos

/-- `storage.ReadAsOfIterator` as `processRestoreSpanEntry` sees it: the
files it reads, its as-of time and, for a seek key, the positions that
`SeekGE` and the following `NextKey` calls visit until `Valid` answers false. -/
structure ReadAsOfIterator where
  files : List StoreFile
  asOf : Timestamp
  SeekGE : MVCCKey → List IterPos

/-- `ReadAsOfIterator.Close`. -/
def ReadAsOfIterator.Close (it : ReadAsOfIterator) (w : World) : World :=
  w.emit (Event.iterClosed it.files)

/-- The order of the stored keys in a merged iterator: `a` is not behind `b`. -/
def mvccLE (a b : MVCCKeyValue) : Prop :=
  b.Key.Less a.Key = false

instance mvccLE.decidable : DecidableRel mvccLE :=
  fun a b => inferInstanceAs (Decidable (b.Key.Less a.Key = false))

/-- The position of an iterator on a stored key that reads without error. -/
def MVCCKeyValue.pos (kv : MVCCKeyValue) : IterPos :=
  { validErr := none, key := kv.Key, value := .ok kv.Value }

/-- The stored keys of the given files, in the order of a merged iterator. -/
def mergedKVs (env : Env) (files : List RestoreFileSpec) : List MVCCKeyValue :=
  List.insertionSort mvccLE (files.flatMap env.sst)

/-- Modelled from the spec: the iterator that `storageccl.ExternalSSTReader`,
which is declared outside the file, builds. It merges the given SST files into
one sorted iterator: the stored keys of all the files in the order of
`MVCCKey.Less`; `SeekGE(k)` lands on the first stored key that is not less
than `k`. -/
def externalSSTIter (env : Env) (storeFiles : List StoreFile) : SimpleMVCCIterator :=
  { files := storeFiles,
    SeekGE := fun k =>
      ((mergedKVs env (storeFiles.map StoreFile.file)).filter
        fun kv => !kv.Key.Less k).map MVCCKeyValue.pos }

/-- `storageccl.ExternalSSTReader(ctx, storeFiles, encryption, iterOpts)`: the
merged iterator over the files, or the error the reader answers with. -/
def ExternalSSTReader (env : Env) (storeFiles : List StoreFile) (w : World) :
    Except Err SimpleMVCCIterator × World :=
  match env.ExternalSSTReader w.readerCalls with
  | some err => (.error err, { w with readerCalls := w.readerCalls + 1 })
  | none => (.ok (externalSSTIter env storeFiles), { w with readerCalls := w.readerCalls + 1 })

/-- Whether the position `p` is shown as of `asOf` among the positions `ps`:
its timestamp is not above `asOf`, and no position of `ps` on the same key with
a timestamp not above `asOf` is more recent. A position whose `Valid` reports
an error is shown as it is. -/
def shownAsOf (asOf : Timestamp) (ps : List IterPos) (p : IterPos) : Bool :=
  p.validErr.isSome ||
    (p.key.Timestamp.LessEq asOf &&
      ps.all fun q =>
        q.validErr.isSome || !(q.key.Key == p.key.Key) || !(q.key.Timestamp.LessEq asOf) ||
          q.key.Timestamp.LessEq p.key.Timestamp)

/-- The positions a read-as-of iterator visits, out of the positions `ps` of
the iterator below it. -/
def readAsOf (asOf : Timestamp) (ps : List IterPos) : List IterPos :=
  ps.filter (shownAsOf asOf ps)

/-- Modelled from the spec: `storage.NewReadAsOfIterator` is declared outside
the file. The iterator shows the keys of `iter` as of `asOf`: no key with a
timestamp above `asOf`, and of every key the most recent version that is left. -/
def NewReadAsOfIterator (iter : SimpleMVCCIterator) (asOf : Timestamp) : ReadAsOfIterator :=
  { files := iter.files, asOf := asOf, SeekGE := fun k => readAsOf asOf (iter.SeekGE k) }

/-! ## The SST opener -/

/-- The closure `cleanup` that `getIter` builds, by the variables it captures. -/
structure cleanupFn where
  readAsOfIter : ReadAsOfIterator
  iterAllocs : List IntAlloc
  dirsToSend : List ExternalStorage

/-- The body of the closure `cleanup`: close the iterator, release the
reservations, close the storage handles. -/
def cleanupFn.run (c : cleanupFn) (w : World) : World :=
  World.closeDirs c.dirsToSend (World.Release c.iterAllocs (c.readAsOfIter.Close w))

/-- `mergedSST`. -/
structure mergedSST where
  entry : RestoreSpanEntry
  iter : ReadAsOfIterator
  cleanup : cleanupFn
  completeUpTo : Timestamp

/-- The files an iterator was opened on, as files of the entry. -/
def mergedSST.files (m : mergedSST) : List RestoreFileSpec :=
  m.iter.files.map StoreFile.file

/-- `sstReaderOverheadBytesPerFile`. -/
def sstReaderOverheadBytesPerFile : Nat := 5 <<< 20

/-- `sstReaderEncryptedOverheadBytesPerFile`. -/
def sstReaderEncryptedOverheadBytesPerFile : Nat := 8 <<< 20

/-- `minWorkerMemReservation`. -/
def minWorkerMemReservation : Nat := 15 <<< 20

/-- `maxConcurrentRestoreWorkers`. -/
def maxConcurrentRestoreWorkers : Nat := 32

/-- The closure `getIter` of `openSSTs`: wraps `iter` in a read-as-of iterator
at the restore time and builds the `mergedSST` whose cleanup closes the
iterator, releases `iterAllocs` and closes `dirsToSend`. The second component
is the new value of the variable `dirs` of `openSSTs`, which `getIter` empties. -/
def getIter (spec : RestoreDataSpec) (entry : RestoreSpanEntry) (iter : SimpleMVCCIterator)
    (dirsToSend : List ExternalStorage) (iterAllocs : List IntAlloc)
    (completeUpTo : Timestamp) : mergedSST × List ExternalStorage :=
  let readAsOfIter := NewReadAsOfIterator iter spec.RestoreTime
  let cleanup : cleanupFn :=
    { readAsOfIter := readAsOfIter, iterAllocs := iterAllocs, dirsToSend := dirsToSend }
  ({ entry := entry, iter := readAsOfIter, cleanup := cleanup, completeUpTo := completeUpTo }, [])

/-- What `openSSTs` returns, next to the variable `dirs` and the world at the
time of the return. -/
abbrev OpenResult := Except Err (mergedSST × resumeEntry) × List ExternalStorage × World

/-- The loop of `openSSTs` over the files from `idx` on (`files` is
`entry.Files[idx:]`) and the code behind it, up to the `return`. -/
def openSSTsLoop (env : Env) (spec : RestoreDataSpec) (entry : RestoreSpanEntry)
    (sstOverheadBytesPerFile : Nat) :
    List RestoreFileSpec → Nat → List StoreFile → List IntAlloc → List ExternalStorage →
      World → OpenResult
  | [], idx, storeFiles, iterAllocs, dirs, w =>
      match ExternalSSTReader env storeFiles w with
      | (.error err, w1) => (.error err, dirs, w1)
      | (.ok iter, w1) =>
          let (mSST, dirs1) := getIter spec entry iter dirs iterAllocs spec.RestoreTime
          (.ok (mSST, { idx := idx, done := true }), dirs1, w1)
  | file :: rest, idx, storeFiles, iterAllocs, dirs, w =>
      -- the tail of the loop body, once the reservation `alloc` is held
      let openFile (alloc : IntAlloc) (w2 : World) : OpenResult :=
        match w2.OpenExternalStorage env file.Dir with
        | (.error err, w3) => (.error err, dirs, w3)
        | (.ok dir, w3) =>
            openSSTsLoop env spec entry sstOverheadBytesPerFile rest (idx + 1)
              (storeFiles ++ [{ Store := dir, FilePath := file.Path }])
              (iterAllocs ++ [alloc]) (dirs ++ [dir]) w3
      match w.TryAcquireMaybeIncreaseCapacity env sstOverheadBytesPerFile with
      | (.ok alloc, w1) => openFile alloc w1
      | (.error err, w1) =>
          if err.Is Err.ErrNotEnoughQuota then
            if storeFiles.length > 0 then
              match ExternalSSTReader env storeFiles w1 with
              | (.error err2, w2) => (.error err2, dirs, w2)
              | (.ok iter, w2) =>
                  let completeUpTo : Timestamp := { WallTime := 0, Logical := 1 }
                  let (mSST, dirs1) := getIter spec entry iter dirs iterAllocs completeUpTo
                  (.ok (mSST, { idx := idx, done := false }), dirs1, w2)
            else
              match w1.Acquire env sstOverheadBytesPerFile with
              | (.error err2, w2) => (.error err2, dirs, w2)
              | (.ok alloc, w2) => openFile alloc w2
          else (.error err, dirs, w1)

/-- The variable `sstOverheadBytesPerFile` of `openSSTs`: what is reserved
for one file. -/
def sstOverheadBytesPerFile (spec : RestoreDataSpec) : Nat :=
  if spec.Encryption.isSome then sstReaderEncryptedOverheadBytesPerFile
  else sstReaderOverheadBytesPerFile

/-- The index `openSSTs` starts from: `resume.idx`, or 0 when `resume` is nil. -/
def startIdx (resume : Option resumeEntry) : Nat :=
  match resume with
  | some r => r.idx
  | none => 0

/-- `restoreDataProcessor.openSSTs`. The deferred function closes whatever is
left in `dirs` when the function returns. -/
def openSSTs (env : Env) (spec : RestoreDataSpec) (entry : RestoreSpanEntry)
    (resume : Option resumeEntry) (w : World) :
    Except Err (mergedSST × resumeEntry) × World :=
  match openSSTsLoop env spec entry (sstOverheadBytesPerFile spec)
      (entry.Files.drop (startIdx resume)) (startIdx resume) [] [] [] w with
  | (res, dirs, w1) => (res, w1.closeDirs dirs)

/-! ## The ingestion loop -/

/-- `KeyRewriter`, as far as the processor uses it: `RewriteKey(key, walltime)`
answers the rewritten key and whether the key matched, or an error. -/
structure KeyRewriter where
  fromSystemTenant : Bool
  RewriteKey : Bytes → Int → Except Err (Bytes × Bool)

/-- Modelled from the spec: `roachpb.Value.ClearChecksum` is declared outside
the file. It clears the checksum of the value. -/
def Value.ClearChecksum (v : Value) : Value :=
  { v with checksum := 0 }

/-- Modelled from the spec: `roachpb.Value.InitChecksum` is declared outside
the file. It computes the checksum of the value against `key`. -/
def Value.InitChecksum (env : Env) (v : Value) (key : Bytes) : Value :=
  { v with checksum := env.computeChecksum key v.payload }

/-- Modelled from the spec: `roachpb.Value.Verify` is declared outside the
file. A value verifies against `key` when its checksum is not initialised or
is the checksum computed against `key`. -/
def Value.Verify (env : Env) (v : Value) (key : Bytes) : Bool :=
  v.checksum == 0 || v.checksum == env.computeChecksum key v.payload

/-- `SSTBatcherExecutor`: the methods of a bulk-writer over its state `β`. -/
structure SSTBatcherExecutor (β : Type) where
  AddMVCCKey : β → MVCCKey → Value → Option Err × β
  Reset : β → β
  Flush : β → Option Err × β
  Close : β → β
  GetSummary : β → BulkOpSummary

/-- `sstBatcherNoop`. -/
structure sstBatcherNoop where
  totalRows : RowCounter
deriving DecidableEq, Repr

/-- `&sstBatcherNoop{}`. -/
def sstBatcherNoop.zero : sstBatcherNoop :=
  { totalRows := { BulkOpSummary := { DataSize := 0, Rows := 0, IndexEntries := 0 }, prev := [] } }

/-- `sstBatcherNoop.AddMVCCKey`. -/
def sstBatcherNoop.AddMVCCKey (env : Env) (b : sstBatcherNoop) (key : MVCCKey) (_value : Value) :
    Option Err × sstBatcherNoop :=
  match env.Count b.totalRows key.Key with
  | (err, totalRows) => (err, { b with totalRows := totalRows })

/-- `sstBatcherNoop.Reset`. -/
def sstBatcherNoop.Reset (b : sstBatcherNoop) : sstBatcherNoop := b

/-- `sstBatcherNoop.Flush`. -/
def sstBatcherNoop.Flush (b : sstBatcherNoop) : Option Err × sstBatcherNoop := (none, b)

/-- `sstBatcherNoop.Close`. -/
def sstBatcherNoop.Close (b : sstBatcherNoop) : sstBatcherNoop := b

/-- `sstBatcherNoop.GetSummary`. -/
def sstBatcherNoop.GetSummary (b : sstBatcherNoop) : BulkOpSummary :=
  b.totalRows.BulkOpSummary

/-- The declaration that `sstBatcherNoop` is an `SSTBatcherExecutor`. -/
def sstBatcherNoop.executor (env : Env) : SSTBatcherExecutor sstBatcherNoop :=
  { AddMVCCKey := sstBatcherNoop.AddMVCCKey env
    Reset := sstBatcherNoop.Reset
    Flush := sstBatcherNoop.Flush
    Close := sstBatcherNoop.Close
    GetSummary := sstBatcherNoop.GetSummary }

/-- The bulk-writer `bulk.SSTBatcher`, which lives outside the file: its
state is the list of the keys added so far, its answers are those of `env`. -/
def SSTBatcher (env : Env) : SSTBatcherExecutor (List (MVCCKey × Value)) :=
  { AddMVCCKey := fun st key value => (env.AddMVCCKey st key value, st ++ [(key, value)])
    Reset := fun _ => []
    Flush := fun st => (env.Flush st, st)
    Close := fun st => st
    GetSummary := fun st => env.GetSummary st }

/-- `bulk.MakeSSTBatcher(ctx, "restore", ..., disallowShadowingBelow, writeAtBatchTS, ...)`. -/
def MakeSSTBatcher (env : Env) (disallowShadowingBelow : Timestamp) (writeAtBatchTS : Bool)
    (w : World) : Except Err (List (MVCCKey × Value)) × World :=
  let w1 := { w with batcherCalls := w.batcherCalls + 1,
                     trace := w.trace ++ [Event.makeSSTBatcher disallowShadowingBelow writeAtBatchTS] }
  match env.MakeSSTBatcher w.batcherCalls with
  | some err => (.error err, w1)
  | none => (.ok [], w1)

/-- The loop `for iter.SeekGE(startKeyMVCC); ; iter.NextKey()` of
`processRestoreSpanEntry` over the positions the iterator visits. The answer
is the error the loop returned with, if any, the state of the batcher and the
world. -/
def ingestLoop {β : Type} (env : Env) (kr : KeyRewriter) (batcher : SSTBatcherExecutor β)
    (endKeyMVCC : MVCCKey) : List IterPos → β → World → Option Err × β × World
  | [], b, w => (none, b, w)
  | p :: ps, b, w =>
      match p.validErr with
      | some err => (some err, b, w)
      | none =>
          if !p.key.Less endKeyMVCC then (none, b, w)
          else
            match p.value with
            | .error err => (some err, b, w)
            | .ok v =>
                match kr.RewriteKey p.key.Key p.key.Timestamp.WallTime with
                | .error err => (some err, b, w)
                | .ok (newKey, ok) =>
                    if !ok then ingestLoop env kr batcher endKeyMVCC ps b w
                    else
                      let key : MVCCKey := { p.key with Key := newKey }
                      let value := (v.ClearChecksum).InitChecksum env key.Key
                      let w1 := w.emit (Event.addMVCCKey key value)
                      match batcher.AddMVCCKey b key value with
                      | (some err, b1) => (some (Err.Wrapf err "adding to batch"), b1, w1)
                      | (none, b1) => ingestLoop env kr batcher endKeyMVCC ps b1 w1

/-- The empty `kvpb.BulkOpSummary` (`var summary kvpb.BulkOpSummary`). -/
def BulkOpSummary.zero : BulkOpSummary :=
  { DataSize := 0, Rows := 0, IndexEntries := 0 }

/-- The part of `processRestoreSpanEntry` from `defer batcher.Close(ctx)` on:
the loop, the flush and the summary, with the deferred close of the batcher. -/
def ingest {β : Type} (env : Env) (kr : KeyRewriter) (batcher : SSTBatcherExecutor β) (b : β)
    (entry : RestoreSpanEntry) (iter : ReadAsOfIterator) (w : World) :
    (BulkOpSummary × Option Err) × World :=
  let startKeyMVCC : MVCCKey := { Key := entry.Span.Key, Timestamp := { WallTime := 0, Logical := 0 } }
  let endKeyMVCC : MVCCKey := { Key := entry.Span.EndKey, Timestamp := { WallTime := 0, Logical := 0 } }
  match ingestLoop env kr batcher endKeyMVCC (iter.SeekGE startKeyMVCC) b w with
  | (some err, _, w1) => ((BulkOpSummary.zero, some err), w1.emit Event.batcherClose)
  | (none, b1, w1) =>
      match batcher.Flush b1 with
      | (some err, _) => ((BulkOpSummary.zero, some err), (w1.emit Event.flush).emit Event.batcherClose)
      | (none, b2) => ((batcher.GetSummary b2, none), (w1.emit Event.flush).emit Event.batcherClose)

/-- The variable `writeAtBatchTS` of `processRestoreSpanEntry`: true, unless
the rewriter is from the system tenant and the span starts or ends in the
tenant prefix. -/
def writeAtBatchTS (env : Env) (kr : KeyRewriter) (entry : RestoreSpanEntry) : Bool :=
  if kr.fromSystemTenant &&
      (Bytes.HasPrefix entry.Span.Key env.TenantPrefix ||
        Bytes.HasPrefix entry.Span.EndKey env.TenantPrefix) then false
  else true

/-- `restoreDataProcessor.processRestoreSpanEntry`. The deferred `sst.cleanup()`
runs last, on every return. -/
def processRestoreSpanEntry (env : Env) (spec : RestoreDataSpec) (kr : KeyRewriter)
    (sst : mergedSST) (w : World) : (BulkOpSummary × Option Err) × World :=
  let entry := sst.entry
  let iter := sst.iter
  let res : (BulkOpSummary × Option Err) × World :=
    if spec.ValidateOnly then
      ingest env kr (sstBatcherNoop.executor env) sstBatcherNoop.zero entry iter w
    else
      let disallowShadowingBelow : Timestamp := { WallTime := 0, Logical := 0 }
      match MakeSSTBatcher env disallowShadowingBelow (writeAtBatchTS env kr entry) w with
      | (.error err, w1) => ((BulkOpSummary.zero, some err), w1)
      | (.ok b, w1) => ingest env kr (SSTBatcher env) b entry iter w1
  (res.1, sst.cleanup.run res.2)

/-- `makeProgressUpdate`. -/
def makeProgressUpdate (env : Env) (summary : BulkOpSummary) (entry : RestoreSpanEntry)
    (pkIDs : List Nat) (completeUpTo : Timestamp) : RestoreProgress :=
  { Summary := env.countRows summary pkIDs
    ProgressIdx := entry.ProgressIdx
    DataSpan := entry.Span
    CompleteUpTo := completeUpTo }

/-! ## The worker -/

/-- What the inner loop of a worker ends with. -/
inductive WorkerResult where
  /-- The loop body ran `fuel` times without reaching `break` or `return`. -/
  | running : WorkerResult
  /-- `return done, err`. -/
  | failed (err : Err) : WorkerResult
  /-- `break`, when `res.done`. -/
  | finished : WorkerResult
deriving DecidableEq, Repr

/-- The inner loop of a worker of `runRestoreWorkers` on one entry: open the
next iterator from the cursor `res`, ingest it, post its progress update, until
the cursor is done. The loop body runs at most `fuel` times. Next to the result
and the world, the answer lists the iterators that `openSSTs` returned with
their cursors, in order. -/
def workerLoop (env : Env) (spec : RestoreDataSpec) (kr : KeyRewriter) (entry : RestoreSpanEntry) :
    Nat → Option resumeEntry → World → WorkerResult × List (mergedSST × resumeEntry) × World
  | 0, _, w => (WorkerResult.running, [], w)
  | fuel + 1, res, w =>
      match openSSTs env spec entry res w with
      | (.error err, w1) => (WorkerResult.failed err, [], w1)
      | (.ok (sstIter, res1), w1) =>
          match processRestoreSpanEntry env spec kr sstIter w1 with
          | ((_, some err), w2) => (WorkerResult.failed err, [(sstIter, res1)], w2)
          | ((summary, none), w2) =>
              let w3 := { w2 with selectCalls := w2.selectCalls + 1 }
              if env.ctxDone w2.selectCalls then
                (WorkerResult.failed Err.Canceled, [(sstIter, res1)], w3)
              else
                let w4 := w3.emit (Event.progress
                  (makeProgressUpdate env summary sstIter.entry spec.PKIDs sstIter.completeUpTo))
                if res1.done then (WorkerResult.finished, [(sstIter, res1)], w4)
                else
                  match workerLoop env spec kr entry fuel (some res1) w4 with
                  | (r, its, w5) => (r, (sstIter, res1) :: its, w5)

/-! ## The start-up reservation -/

/-- The minimum number of workers of `reserveRestoreWorkerMemory`: half the
maximum, and at least 1. -/
def minRestoreWorkers (maxRestoreWorkers : Nat) : Nat :=
  if maxRestoreWorkers / 2 < 1 then 1 else maxRestoreWorkers / 2

/-- The error of `reserveRestoreWorkerMemory`:
`errors.Wrapf(err, "insufficient memory available to run restore with min %d workers", minRestoreWorkers)`. -/
def insufficientMemory (err : Err) (minRestoreWorkers : Nat) : Err :=
  Err.Wrapf err ("insufficient memory available to run restore with min " ++
    toString minRestoreWorkers ++ " workers")

/-- The loop `for worker := 0; worker < maxRestoreWorkers; worker++` of
`reserveRestoreWorkerMemory`, with `remaining = maxRestoreWorkers - worker`
turns left, and the `return` behind it. -/
def reserveLoop (env : Env) (minWorkers : Nat) :
    Nat → Nat → Nat → World → (Nat × Option Err) × World
  | 0, _, numWorkers, w => ((numWorkers, none), w)
  | remaining + 1, worker, numWorkers, w =>
      match w.IncreaseCapacity env minWorkerMemReservation with
      | (some err, w1) =>
          if worker ≥ minWorkers then ((numWorkers, none), w1)
          else ((0, some (insufficientMemory err minWorkers)), w1)
      | (none, w1) => reserveLoop env minWorkers remaining (worker + 1) (numWorkers + 1) w1

/-- `reserveRestoreWorkerMemory`, for the value `maxRestoreWorkers` of the
setting `kv.bulk_io_write.restore_node_concurrency`. -/
def reserveRestoreWorkerMemory (env : Env) (maxRestoreWorkers : Nat) (w : World) :
    (Nat × Option Err) × World :=
  reserveLoop env (minRestoreWorkers maxRestoreWorkers) maxRestoreWorkers 0 0 w

/-! ## The input reader -/

/-- `execinfrapb.ProducerMetadata`: the error it carries, if any, and the
rest of the record. -/
structure ProducerMetadata where
  Err : Option Err
  payload : Nat
deriving DecidableEq, Repr

/-- `tree.Datum`: a `*tree.DBytes`, or a datum of another type. -/
inductive Datum where
  | DBytes (b : Bytes) : Datum
  | DOther (tag : Nat) : Datum
deriving DecidableEq, Repr

/-- `rowenc.EncDatum`, by what `EnsureDecoded(types.Bytes, &alloc)` answers:
an error, or the datum it leaves in the field `Datum`. -/
structure EncDatum where
  EnsureDecoded : Except Err Datum

/-- What `input.Next()` answers before the input is consumed: a metadata
record or a row. -/
inductive InputItem where
  | meta (m : ProducerMetadata) : InputItem
  | row (r : List EncDatum) : InputItem

/-- What `inputReader` sent, on the channel `entries` or on the channel `metaCh`. -/
inductive Sent where
  | entry (e : RestoreSpanEntry) : Sent
  | meta (m : ProducerMetadata) : Sent
deriving DecidableEq, Repr

/-- The collaborators of `inputReader`: `protoutil.Unmarshal` into a
`RestoreSpanEntry`, and whether `ctx.Done()` wins the `n`-th `select` of the
reader (counted from 0). -/
structure ReaderEnv where
  Unmarshal : Bytes → Except Err RestoreSpanEntry
  ctxDone : Nat → Bool

/-- The calls of `input.Next()` and the `select` statements of `inputReader` so
far, and what it sent on its two channels, in the order of the sends. -/
structure ReaderState where
  reads : Nat
  selects : Nat
  sent : List Sent
deriving DecidableEq, Repr

/-- A reader that has done nothing yet. -/
def ReaderState.init : ReaderState := { reads := 0, selects := 0, sent := [] }

/-- The `select` of `inputReader` that sends `x` unless the context is done first. -/
def ReaderState.send (renv : ReaderEnv) (x : Sent) (s : ReaderState) : Option Err × ReaderState :=
  if renv.ctxDone s.selects then (some Err.Canceled, { s with selects := s.selects + 1 })
  else (none, { s with selects := s.selects + 1, sent := s.sent ++ [x] })

/-- `inputReader` on an input that answers `Next` with the items of the list
and then with no row and no metadata. The arguments of the message of
`AssertionFailedf` are left out. -/
def inputReader (renv : ReaderEnv) : List InputItem → ReaderState → Option Err × ReaderState
  | [], s => (none, { s with reads := s.reads + 1 })
  | InputItem.meta m :: rest, s =>
      let s1 := { s with reads := s.reads + 1 }
      match m.Err with
      | some err => (some err, s1)
      | none =>
          match s1.send renv (Sent.meta m) with
          | (some err, s2) => (some err, s2)
          | (none, s2) => inputReader renv rest s2
  | InputItem.row row :: rest, s =>
      let s1 := { s with reads := s.reads + 1 }
      if h : row.length ≠ 2 then
        (some (Err.New "expected input rows to have exactly 2 columns"), s1)
      else
        match (row.get ⟨1, by omega⟩).EnsureDecoded with
        | .error err => (some err, s1)
        | .ok (Datum.DOther _) => (some (Err.New "unexpected datum type"), s1)
        | .ok (Datum.DBytes entryDatumBytes) =>
            match renv.Unmarshal entryDatumBytes with
            | .error err => (some (Err.Wrapf err "un-marshaling restore span entry"), s1)
            | .ok entry =>
                match s1.send renv (Sent.entry entry) with
                | (some err, s2) => (some err, s2)
                | (none, s2) => inputReader renv rest s2

/-! ## The life cycle of the processor -/

/-- The calls `ConsumerClosed` makes on the parts of the processor. -/
inductive CloseCall where
  /-- `cancel()` of the context of the two tasks, in `rd.cancelWorkersAndWait`. -/
  | cancel : CloseCall
  /-- `rd.phaseGroup.Wait()`, in `rd.cancelWorkersAndWait`. -/
  | phaseGroupWait : CloseCall
  /-- `rd.qp.Close(rd.Ctx())`. -/
  | qpClose : CloseCall
  /-- `rd.aggTimer.Stop()`. -/
  | aggTimerStop : CloseCall
  /-- `rd.InternalClose()`. -/
  | InternalClose : CloseCall
deriving DecidableEq, Repr

/-- `restoreDataProcessor`, by what `ConsumerClosed` reads and does: the flag
`Closed` of the embedded `ProcessorBase`, whether `Start` has set the func
`cancelWorkersAndWait`, and the calls made so far. -/
structure restoreDataProcessor where
  Closed : Bool
  cancelWorkersAndWait : Bool
  calls : List CloseCall
deriving DecidableEq, Repr

/-- `restoreDataProcessor.ConsumerClosed`. What `InternalClose` of the embedded
`ProcessorBase` does to the processor is the parameter `InternalClose`; the
answer is `none` when the func `cancelWorkersAndWait` is called while it is nil. -/
def ConsumerClosed (InternalClose : restoreDataProcessor → restoreDataProcessor)
    (rd : restoreDataProcessor) : Option restoreDataProcessor :=
  if rd.Closed then some rd
  else if !rd.cancelWorkersAndWait then none
  else
    let rd1 := { rd with calls := rd.calls ++ [CloseCall.cancel, CloseCall.phaseGroupWait] }
    let rd2 := { rd1 with calls := rd1.calls ++ [CloseCall.qpClose] }
    let rd3 := { rd2 with calls := rd2.calls ++ [CloseCall.aggTimerStop] }
    some (InternalClose { rd3 with calls := rd3.calls ++ [CloseCall.InternalClose] })

/-- The function `min` of the file. -/
def min (a b : Int) : Int :=
  if a < b then a else b

/-- The default value handed to `util.ConstantWithMetamorphicTestRange` for
`defaultNumWorkers`, by the answer of `runtime.GOMAXPROCS(0)`; it is the value
of `defaultNumWorkers` outside metamorphic testing. -/
def defaultNumWorkers (GOMAXPROCS : Int) : Int :=
  let restoreWorkerCores := GOMAXPROCS - 1
  let restoreWorkerCores := if restoreWorkerCores < 1 then 1 else restoreWorkerCores
  min 4 restoreWorkerCores

/-! ## The status of the clusters (`roachprod/cloud/gc.go`) -/

/-- `time.Hour`, in nanoseconds; a `time.Time` is the number of nanoseconds
since a fixed instant. -/
def Hour : Int := 3600 * 1000000000

/-- `cloud.Cluster`, by what `status` reads of it: its name, its creation time
and the answers of its methods `ExpiresAt()` and `IsEmptyCluster()`. -/
structure Cluster where
  Name : Bytes
  CreatedAt : Int
  ExpiresAt : Int
  IsEmptyCluster : Bool
deriving DecidableEq, Repr

/-- `status`. -/
structure status where
  good : List Cluster
  warn : List Cluster
  destroy : List Cluster
deriving DecidableEq, Repr

/-- `status.add`. -/
def status.add (s : status) (c : Cluster) (now : Int) : status :=
  let exp := c.ExpiresAt
  if c.IsEmptyCluster then
    if now > c.CreatedAt + Hour then { s with destroy := s.destroy ++ [c] }
    else { s with good := s.good ++ [c] }
  else if exp > now then
    if exp < now + 2 * Hour then { s with warn := s.warn ++ [c] }
    else { s with good := s.good ++ [c] }
  else { s with destroy := s.destroy ++ [c] }

/-- The order of Go strings, byte by byte. -/
def bytesLE (a b : Bytes) : Prop := Bytes.Compare a b ≤ 0

instance bytesLE.decidable : DecidableRel bytesLE :=
  fun a b => inferInstanceAs (Decidable (Bytes.Compare a b ≤ 0))

/-- `sort.Strings`. -/
def sortStrings (data : List Bytes) : List Bytes :=
  data.insertionSort bytesLE

/-- The initial state of `fnv.New32a()`. -/
def fnvOffset32 : Nat := 2166136261

/-- `Write` of the 32-bit FNV-1a hash: for each byte, xor it into the state
and multiply by the prime 16777619, in 32 bits. -/
def fnvWrite (hash : Nat) (p : Bytes) : Nat :=
  p.foldl (fun h c => ((h ^^^ (c % 256)) * 16777619) % 2 ^ 32) hash

/-- `Sum(nil)` of the 32-bit hash: its four bytes, the highest first. -/
def fnvSum (hash : Nat) : Bytes :=
  [hash / 2 ^ 24 % 256, hash / 2 ^ 16 % 256, hash / 2 ^ 8 % 256, hash % 256]

/-- The `n`-th character of the alphabet of `base64.StdEncoding`. -/
def base64Char (n : Nat) : String :=
  (("ABCDEFGHIJKLMNOPQRSTUVWXYZabcdefghijklmnopqrstuvwxyz0123456789+/".toList.drop n).take
    1).asString

/-- `base64.StdEncoding.EncodeToString`. -/
def EncodeToString : Bytes → String
  | [] => ""
  | [a] => base64Char (a / 4) ++ base64Char (a % 4 * 16) ++ "=="
  | [a, b] =>
      base64Char (a / 4) ++ base64Char (a % 4 * 16 + b / 16) ++ base64Char (b % 16 * 4) ++ "="
  | a :: b :: c :: rest =>
      base64Char (a / 4) ++ base64Char (a % 4 * 16 + b / 16) ++
        base64Char (b % 16 * 4 + c / 64) ++ base64Char (c % 64) ++ EncodeToString rest

/-- One turn of the loop of `notificationHash` over the three lists: write the
index of the list, then the strings `Name ExpiresAt` of its clusters, sorted.
How a `time.Time` prints is the parameter `formatTime`. -/
def hashList (formatTime : Int → Bytes) (hash : Nat) (i : Nat) (list : List Cluster) : Nat :=
  let hash := fnvWrite hash [i % 256]
  let data := list.map fun c => c.Name ++ [32] ++ formatTime c.ExpiresAt
  let data := sortStrings data
  data.foldl (fun h d => fnvWrite h d) hash

/-- `status.notificationHash`. -/
def status.notificationHash (formatTime : Int → Bytes) (s : status) : String :=
  let hash := fnvOffset32
  let hash := hashList formatTime hash 0 s.good
  let hash := hashList formatTime hash 1 s.warn
  let hash := hashList formatTime hash 2 s.destroy
  EncodeToString (fnvSum hash)

/-! ## Auxiliary definitions of the proofs -/

/-- The world after the loop body of `openSSTs` ran once with a reservation
granted at the first attempt and the storage opened. -/
def World.afterTry (n dir : Nat) (w : World) : World :=
  { w with tryCalls := w.tryCalls + 1, nextAlloc := w.nextAlloc + 1,
           storageCalls := w.storageCalls + 1, nextDir := w.nextDir + 1,
           trace := w.trace ++ [Event.acquired { id := w.nextAlloc, bytes := n },
                                Event.opened { id := w.nextDir, dir := dir }] }

/-- The world after the loop body of `openSSTs` ran once with the first
attempt refused, the reservation granted by `Acquire` and the storage opened. -/
def World.afterAcquire (n dir : Nat) (w : World) : World :=
  { w with tryCalls := w.tryCalls + 1, acquireCalls := w.acquireCalls + 1,
           nextAlloc := w.nextAlloc + 1,
           storageCalls := w.storageCalls + 1, nextDir := w.nextDir + 1,
           trace := w.trace ++ [Event.acquired { id := w.nextAlloc, bytes := n },
                                Event.opened { id := w.nextDir, dir := dir }] }

/-- What the specification has the ingestion loop hand to the bulk-writer for
the position `p`: the key rewritten with the key bytes and the wall time of
`p`, under the timestamp of `p`, and the value of `p` with its checksum cleared
and computed against the rewritten key; nothing when the rewriter does not
match (or the iterator or the rewriter fails there). -/
def rewritten (env : Env) (kr : KeyRewriter) (p : IterPos) : Option (MVCCKey × Value) :=
  match p.validErr, p.value with
  | none, .ok v =>
      match kr.RewriteKey p.key.Key p.key.Timestamp.WallTime with
      | .ok (newKey, true) =>
          some ({ Key := newKey, Timestamp := p.key.Timestamp },
            (v.ClearChecksum).InitChecksum env newKey)
      | _ => none
  | _, _ => none

/-- What the specification has the ingestion loop submit out of the positions
`ps` an iterator visits: the positions up to, but not including, the first one
whose key is not less than the end key, each rewritten, keeping the matched
ones, in the order of the iteration. -/
def expectedSubmissions (env : Env) (kr : KeyRewriter) (endKey : Bytes)
    (ps : List IterPos) : List (MVCCKey × Value) :=
  (ps.takeWhile fun p => decide (Bytes.Compare p.key.Key endKey < 0)).filterMap (rewritten env kr)

/-- The `AddMVCCKey` events of a list of submissions. -/
def addEvents (subs : List (MVCCKey × Value)) : List Event :=
  subs.map fun kv => Event.addMVCCKey kv.1 kv.2

/-- The events of a run of the closure `cleanup`. -/
def cleanupEvents (c : cleanupFn) : List Event :=
  Event.iterClosed c.readAsOfIter.files ::
    (c.iterAllocs.map Event.released ++ c.dirsToSend.map Event.closed)

/-- The events `processRestoreSpanEntry` starts with: the construction of the
bulk-writer, unless the restore only validates. -/
def batcherEvents (env : Env) (spec : RestoreDataSpec) (kr : KeyRewriter)
    (entry : RestoreSpanEntry) : List Event :=
  if spec.ValidateOnly then []
  else [Event.makeSSTBatcher { WallTime := 0, Logical := 0 } (writeAtBatchTS env kr entry)]

/-- The positions `processRestoreSpanEntry` iterates over: what the iterator
visits from `SeekGE(startKeyMVCC)` on. -/
def mergedSST.positions (sst : mergedSST) : List IterPos :=
  sst.iter.SeekGE { Key := sst.entry.Span.Key, Timestamp := { WallTime := 0, Logical := 0 } }

/-- The positions that the iterator `getIter` builds over `files` visits from
`SeekGE(startKeyMVCC)` on: the merged stored keys of the files from the start
key of the span on, as of the restore time. -/
def asOfPositions (env : Env) (spec : RestoreDataSpec) (entry : RestoreSpanEntry)
    (files : List RestoreFileSpec) : List IterPos :=
  readAsOf spec.RestoreTime
    (((mergedKVs env files).filter fun kv =>
      !kv.Key.Less { Key := entry.Span.Key, Timestamp := { WallTime := 0, Logical := 0 } }).map
      MVCCKeyValue.pos)

/-- What processing one iterator merged over `files` submits to the
bulk-writer for the entry. -/
def passSubmissions (env : Env) (spec : RestoreDataSpec) (kr : KeyRewriter)
    (entry : RestoreSpanEntry) (files : List RestoreFileSpec) : List (MVCCKey × Value) :=
  expectedSubmissions env kr entry.Span.EndKey (asOfPositions env spec entry files)

/-- No key is stored in the files of two different groups: a stored key of the
groups that has the key bytes of a stored key of a group is stored in this group. -/
def keysApart (env : Env) (groups : List (List RestoreFileSpec)) : Prop :=
  ∀ g ∈ groups, ∀ kv ∈ g.flatMap env.sst, ∀ kv2 ∈ groups.flatten.flatMap env.sst,
    kv2.Key.Key = kv.Key.Key → kv2 ∈ g.flatMap env.sst

/-- The positions on the stored keys of `files` from the start key of the span
on, in the order of the files. -/
def storedPositions (env : Env) (entry : RestoreSpanEntry) (files : List RestoreFileSpec) :
    List IterPos :=
  ((files.flatMap env.sst).filter fun kv =>
    !kv.Key.Less { Key := entry.Span.Key, Timestamp := { WallTime := 0, Logical := 0 } }).map
    MVCCKeyValue.pos

/-- What is submitted out of the positions `qs` when they are shown as of the
restore time among the positions `among`: the positions shown, in front of the
end key of the span, rewritten. -/
def shownIn (env : Env) (spec : RestoreDataSpec) (kr : KeyRewriter) (entry : RestoreSpanEntry)
    (among qs : List IterPos) : List (MVCCKey × Value) :=
  ((qs.filter (shownAsOf spec.RestoreTime among)).filter fun p =>
    decide (Bytes.Compare p.key.Key entry.Span.EndKey < 0)).filterMap (rewritten env kr)

/-- The progress updates posted on `progCh`, in the order of a trace. -/
def progressUpdates : List Event → List RestoreProgress
  | [] => []
  | Event.progress p :: es => p :: progressUpdates es
  | _ :: es => progressUpdates es

/-- The keys and values handed to `AddMVCCKey`, in the order of a trace. -/
def submissions : List Event → List (MVCCKey × Value)
  | [] => []
  | Event.addMVCCKey key value :: es => (key, value) :: submissions es
  | _ :: es => submissions es

/-- The events a world `w1` has recorded after the world `w` it comes from. -/
def World.since (w1 w : World) : List Event :=
  w1.trace.drop w.trace.length

/-- The world after `k` calls of `IncreaseCapacity(minWorkerMemReservation)`
that the pool granted. -/
def World.increased (k : Nat) (w : World) : World :=
  { w with increaseCalls := w.increaseCalls + k,
           trace := w.trace ++ List.replicate k (Event.increasedCapacity minWorkerMemReservation) }

/-- The world after `k` granted calls of `IncreaseCapacity` and one refused. -/
def World.increasedThenRefused (k : Nat) (w : World) : World :=
  { w with increaseCalls := w.increaseCalls + k + 1,
           trace := w.trace ++ List.replicate k (Event.increasedCapacity minWorkerMemReservation) }

/-- The state of a batcher after the submissions `subs` were added to it. -/
def batcherAfter {β : Type} (batcher : SSTBatcherExecutor β) (b : β)
    (subs : List (MVCCKey × Value)) : β :=
  subs.foldl (fun b kv => (batcher.AddMVCCKey b kv.1 kv.2).2) b

/-- The row counter after `Count` was called on the keys `ks`, one after the
other. -/
def countKeys (env : Env) : List Bytes → RowCounter → RowCounter
  | [], rc => rc
  | k :: ks, rc => countKeys env ks (env.Count rc k).2

/-- The summary `processRestoreSpanEntry` returns for an iterator when no step
fails: the summary of the counter of the stub after the submitted keys were
counted when the restore only validates, the summary of the bulk-writer after
the submissions otherwise. -/
def iterSummary (env : Env) (spec : RestoreDataSpec) (kr : KeyRewriter) (sst : mergedSST) :
    BulkOpSummary :=
  if spec.ValidateOnly then
    (countKeys env ((expectedSubmissions env kr sst.entry.Span.EndKey sst.positions).map
      fun kv => kv.1.Key) sstBatcherNoop.zero.totalRows).BulkOpSummary
  else env.GetSummary (expectedSubmissions env kr sst.entry.Span.EndKey sst.positions)

/-- The progress update the worker posts for an iterator of the entry that
was processed without error. -/
def iterProgress (env : Env) (spec : RestoreDataSpec) (kr : KeyRewriter)
    (entry : RestoreSpanEntry) (x : mergedSST × resumeEntry) : RestoreProgress :=
  makeProgressUpdate env (iterSummary env spec kr x.1) entry spec.PKIDs x.1.completeUpTo

/-- The events of an error-free run of a worker on an entry, iterator by
iterator: the events of `pres` of opening and ingesting the iterator, the
cleanup of the iterator, the progress update of the iterator. -/
def workerTrace (env : Env) (spec : RestoreDataSpec) (kr : KeyRewriter)
    (entry : RestoreSpanEntry) : List (List Event) → List (mergedSST × resumeEntry) → List Event
  | pre :: pres, x :: xs =>
      pre ++ cleanupEvents x.1.cleanup ++ [Event.progress (iterProgress env spec kr entry x)] ++
        workerTrace env spec kr entry pres xs
  | _, _ => []

/-- The storage handles opened, in the order of a trace. -/
def openedHandles : List Event → List ExternalStorage
  | [] => []
  | Event.opened d :: es => d :: openedHandles es
  | _ :: es => openedHandles es

/-- The storage handles closed, in the order of a trace; a handle closed twice
is listed twice. -/
def closedHandles : List Event → List ExternalStorage
  | [] => []
  | Event.closed d :: es => d :: closedHandles es
  | _ :: es => closedHandles es

/-- The reservations the quota pool handed out, in the order of a trace. -/
def acquiredAllocs : List Event → List IntAlloc
  | [] => []
  | Event.acquired a :: es => a :: acquiredAllocs es
  | _ :: es => acquiredAllocs es

/-- The reservations given back to the quota pool, in the order of a trace; a
reservation released twice is listed twice. -/
def releasedAllocs : List Event → List IntAlloc
  | [] => []
  | Event.released a :: es => a :: releasedAllocs es
  | _ :: es => releasedAllocs es

/-- The iterators closed, by the files they were opened on, in the order of a
trace; an iterator closed twice is listed twice. -/
def closedIters : List Event → List (List StoreFile)
  | [] => []
  | Event.iterClosed fs :: es => fs :: closedIters es
  | _ :: es => closedIters es

/-- The span entry the second column of a row of two columns decodes to, if
it does: the column decodes to bytes and the bytes un-marshal to an entry. -/
def entryOf (renv : ReaderEnv) : InputItem → Option RestoreSpanEntry
  | InputItem.row [_, d] =>
      match d.EnsureDecoded with
      | .ok (Datum.DBytes b) => (renv.Unmarshal b).toOption
      | _ => none
  | _ => none

/-- The items the specification has `inputReader` fail at: a metadata record
that carries an error, a row whose number of columns is not 2, a row whose
second column does not decode to a span entry. -/
def badItem (renv : ReaderEnv) : InputItem → Bool
  | InputItem.meta m => m.Err.isSome
  | InputItem.row r => decide (r.length ≠ 2) || (entryOf renv (InputItem.row r)).isNone

/-- What the specification has `inputReader` forward for an item: the decoded
span entry of a row, the record of a metadata record without error. -/
def forwarded (renv : ReaderEnv) : InputItem → Option Sent
  | InputItem.meta m => if m.Err.isSome then none else some (Sent.meta m)
  | InputItem.row r => (entryOf renv (InputItem.row r)).map Sent.entry

/-- The span entries sent on the channel `entries`, in the order of the sends. -/
def sentEntries : List Sent → List RestoreSpanEntry
  | [] => []
  | Sent.entry e :: xs => e :: sentEntries xs
  | _ :: xs => sentEntries xs

/-- The metadata records sent on the channel `metaCh`, in the order of the sends. -/
def sentMetas : List Sent → List ProducerMetadata
  | [] => []
  | Sent.meta m :: xs => m :: sentMetas xs
  | _ :: xs => sentMetas xs

/-- The span entries of the rows of an input, in input order. -/
def inputEntries (renv : ReaderEnv) (items : List InputItem) : List RestoreSpanEntry :=
  items.filterMap (entryOf renv)

/-- The metadata records of an input, in input order. -/
def inputMetas : List InputItem → List ProducerMetadata
  | [] => []
  | InputItem.meta m :: xs => m :: inputMetas xs
  | _ :: xs => inputMetas xs

/-- The capacity a trace added to the quota pool: the sum of the granted
increases. -/
def reservedCapacity : List Event → Nat
  | [] => 0
  | Event.increasedCapacity n :: es => n + reservedCapacity es
  | _ :: es => reservedCapacity es

/-- What `notificationHash` reads of a cluster: its name and its expiry time. -/
def Cluster.key (c : Cluster) : Bytes × Int := (c.Name, c.ExpiresAt)

/-! ## Sample inputs -/

def demoEnv : Env :=
  { TryAcquireMaybeIncreaseCapacity := fun n => if n % 2 = 1 then some Err.ErrNotEnoughQuota else none
    Acquire := fun _ => none
    IncreaseCapacity := fun _ => none
    ExternalStorage := fun _ => none
    ExternalSSTReader := fun _ => none
    sst := fun f =>
      if f.Dir = 0 then [⟨⟨[1], ⟨1, 0⟩⟩, ⟨0, [7]⟩⟩]
      else [⟨⟨[1], ⟨2, 0⟩⟩, ⟨0, [8]⟩⟩]
    MakeSSTBatcher := fun _ => none
    AddMVCCKey := fun _ _ _ => none
    Flush := fun _ => none
    GetSummary := fun st => ⟨0, st.length, 0⟩
    Count := fun rc _ => (none, rc)
    computeChecksum := fun k p => k.sum + p.sum + 1
    countRows := fun s _ => ⟨s.DataSize, s.Rows, s.IndexEntries⟩
    TenantPrefix := [254]
    ctxDone := fun _ => false }

def demoSpec : RestoreDataSpec :=
  { RestoreTime := ⟨100, 0⟩, Encryption := none, ValidateOnly := false, PKIDs := [] }

def demoEntry : RestoreSpanEntry :=
  { Span := ⟨[0], [9]⟩, Files := [⟨0, "a"⟩, ⟨1, "b"⟩, ⟨2, "c"⟩], ProgressIdx := 5 }

def grantEnv : Env := { demoEnv with TryAcquireMaybeIncreaseCapacity := fun _ => none }

def demoKr : KeyRewriter :=
  { fromSystemTenant := false, RewriteKey := fun k _ => .ok (k, true) }

/-- A restore whose restore time is the sentinel of the partial iterators. -/
def sentinelSpec : RestoreDataSpec :=
  { RestoreTime := ⟨0, 1⟩, Encryption := none, ValidateOnly := false, PKIDs := [] }

/-- Collaborators that grant every reservation and fail to open the storage. -/
def storageFailEnv : Env :=
  { demoEnv with TryAcquireMaybeIncreaseCapacity := fun _ => none
                 ExternalStorage := fun _ => some (Err.External 1) }

/-- An iterator that holds six keys, the last one behind the span of `demoEntry`. -/
def demoIter : ReadAsOfIterator :=
  { files := []
    asOf := ⟨100, 0⟩
    SeekGE := fun k =>
      ([[1], [2], [3], [4], [5], [12]].map fun b : Bytes =>
        ({ validErr := none, key := ⟨b, ⟨7, 0⟩⟩, value := .ok ⟨3, b⟩ } : IterPos)).filter
        fun p => !p.key.Less k }

/-- The iterator `demoIter` as a `mergedSST` of `demoEntry`. -/
def demoSST : mergedSST :=
  { entry := demoEntry, iter := demoIter,
    cleanup := { readAsOfIter := demoIter, iterAllocs := [], dirsToSend := [] },
    completeUpTo := ⟨100, 0⟩ }

/-- A rewriter that matches the keys with an odd first byte and moves them by 20. -/
def oddKr : KeyRewriter :=
  { fromSystemTenant := false
    RewriteKey := fun k _ => .ok (k.map (· + 20), decide (k.head?.getD 0 % 2 = 1)) }

/-- Collaborators whose files hold the key `[1]` at the wall times 200 and 50
and the key `[2]` at the wall time 60. -/
def asOfEnv : Env :=
  { grantEnv with
    sst := fun f =>
      if f.Dir = 0 then
        [⟨⟨[1], ⟨200, 0⟩⟩, ⟨0, [7]⟩⟩, ⟨⟨[1], ⟨50, 0⟩⟩, ⟨0, [8]⟩⟩, ⟨⟨[2], ⟨60, 0⟩⟩, ⟨0, [9]⟩⟩]
      else [] }

/-- An entry of two files that store the key `[1]` at the wall times 1 and 2. -/
def layeredEntry : RestoreSpanEntry :=
  { Span := ⟨[0], [9]⟩, Files := [⟨0, "a"⟩, ⟨1, "b"⟩], ProgressIdx := 6 }

/-- Collaborators whose pool grants the first capacity increase only. -/
def oneWorkerEnv : Env :=
  { demoEnv with IncreaseCapacity := fun n => if n = 0 then none else some (Err.External 2) }

/-- Collaborators whose pool grants the first three capacity increases only. -/
def threeWorkerEnv : Env :=
  { demoEnv with IncreaseCapacity := fun n => if n < 3 then none else some (Err.External 2) }

/-- A rewriter of the system tenant that leaves keys as they are. -/
def systemKr : KeyRewriter :=
  { fromSystemTenant := true, RewriteKey := fun k _ => .ok (k, true) }

/-- The iterator `demoIter` as a `mergedSST` of an entry whose span starts in
the tenant prefix. -/
def tenantSST : mergedSST :=
  { demoSST with entry := { demoEntry with Span := ⟨[254, 5], [254, 6]⟩ } }

/-- A restore that only validates. -/
def validateSpec : RestoreDataSpec :=
  { RestoreTime := ⟨100, 0⟩, Encryption := none, ValidateOnly := true, PKIDs := [] }

/-- Collaborators whose row counter counts one row for every key. -/
def countEnv : Env :=
  { demoEnv with
    Count := fun rc k =>
      (none, { BulkOpSummary := { rc.BulkOpSummary with Rows := rc.BulkOpSummary.Rows + 1 },
               prev := k }) }

/-- Collaborators whose context is done when the worker posts an update. -/
def cancelEnv : Env :=
  { grantEnv with ctxDone := fun _ => true }

/-- Collaborators that grant every reservation and open every storage, and
whose reader of the opened files fails. -/
def readerFailEnv : Env :=
  { grantEnv with ExternalSSTReader := fun _ => some (Err.External 3) }

/-- The world after `k` runs of the cleanup of the iterator a call of
`openSSTs` returned, from the world of the return on; the world of the return
when the call returned an error. -/
def cleanupRuns (k : Nat) (r : Except Err (mergedSST × resumeEntry) × World) : World :=
  match r.1 with
  | .ok x => (x.1.cleanup.run)^[k] r.2
  | .error _ => r.2

/-- A reader whose bytes `[k]` un-marshal to an entry without files of
progress index `k`, whose other bytes do not un-marshal, and whose context is
never done. -/
def demoReaderEnv : ReaderEnv :=
  { Unmarshal := fun b =>
      match b with
      | [k] => .ok { Span := ⟨[0], [9]⟩, Files := [], ProgressIdx := k }
      | _ => .error (Err.External 7)
    ctxDone := fun _ => false }

/-- The reader `demoReaderEnv` with a context that is done at every `select`. -/
def cancelReaderEnv : ReaderEnv := { demoReaderEnv with ctxDone := fun _ => true }

/-- A row of two columns whose second column decodes to the bytes `b`. -/
def rowOf (b : Bytes) : InputItem :=
  InputItem.row [{ EnsureDecoded := .ok (Datum.DOther 0) }, { EnsureDecoded := .ok (Datum.DBytes b) }]

/-- An input of two rows with a metadata record between them. -/
def demoInput : List InputItem :=
  [rowOf [1], InputItem.meta { Err := none, payload := 4 }, rowOf [2]]

/-- An input whose third item is a metadata record that carries an error. -/
def failingInput : List InputItem :=
  [rowOf [1], InputItem.meta { Err := none, payload := 4 },
   InputItem.meta { Err := some (Err.External 9), payload := 5 }, rowOf [2]]

/-- An `InternalClose` that sets the flag `Closed`. -/
def demoInternalClose (rd : restoreDataProcessor) : restoreDataProcessor :=
  { rd with Closed := true }

/-- A processor after `Start`, not closed yet. -/
def startedProcessor : restoreDataProcessor :=
  { Closed := false, cancelWorkersAndWait := true, calls := [] }

/-- A cluster with VMs that expires three hours after the instant 0. -/
def demoCluster : Cluster :=
  { Name := [97], CreatedAt := 0, ExpiresAt := 3 * Hour, IsEmptyCluster := false }

/-- A cluster with VMs that expires five hours after the instant 0. -/
def otherCluster : Cluster :=
  { Name := [98], CreatedAt := 0, ExpiresAt := 5 * Hour, IsEmptyCluster := false }

/-- A status without clusters. -/
def emptyStatus : status := { good := [], warn := [], destroy := [] }

/-- A way to print a time: its hours, as one byte. -/
def demoFormatTime (t : Int) : Bytes := [(t / Hour).toNat % 256]

/-- A rewriter that fails at the key `[3]` and leaves the other keys as they are. -/
def failKr : KeyRewriter :=
  { fromSystemTenant := false
    RewriteKey := fun k _ => if k = [3] then .error (Err.External 4) else .ok (k, true) }

/-! ## The SST opener: single calls -/

/-- One turn of the loop of `openSSTs` when the reservation is granted at the first
attempt and the storage opens. -/
theorem openSSTsLoop_try (env : Env) (spec : RestoreDataSpec) (entry : RestoreSpanEntry) (n : Nat)
    (file : RestoreFileSpec) (rest : List RestoreFileSpec) (idx : Nat) (storeFiles : List StoreFile)
    (iterAllocs : List IntAlloc) (dirs : List ExternalStorage) (w : World)
    (htry : env.TryAcquireMaybeIncreaseCapacity w.tryCalls = none)
    (hopen : env.ExternalStorage w.storageCalls = none) :
    openSSTsLoop env spec entry n (file :: rest) idx storeFiles iterAllocs dirs w =
      openSSTsLoop env spec entry n rest (idx + 1)
        (storeFiles ++ [{ Store := { id := w.nextDir, dir := file.Dir }, FilePath := file.Path }])
        (iterAllocs ++ [{ id := w.nextAlloc, bytes := n }])
        (dirs ++ [{ id := w.nextDir, dir := file.Dir }]) (w.afterTry n file.Dir) := by
  simp [openSSTsLoop, World.TryAcquireMaybeIncreaseCapacity, World.OpenExternalStorage, htry, hopen,
    World.afterTry]

/-- One turn of the loop of `openSSTs` when the first attempt is refused, nothing is
queued yet, the blocking `Acquire` is granted and the storage opens. -/
theorem openSSTsLoop_acquire (env : Env) (spec : RestoreDataSpec) (entry : RestoreSpanEntry) (n : Nat)
    (file : RestoreFileSpec) (rest : List RestoreFileSpec) (idx : Nat)
    (iterAllocs : List IntAlloc) (dirs : List ExternalStorage) (w : World)
    (htry : env.TryAcquireMaybeIncreaseCapacity w.tryCalls = some Err.ErrNotEnoughQuota)
    (hacq : env.Acquire w.acquireCalls = none)
    (hopen : env.ExternalStorage w.storageCalls = none) :
    openSSTsLoop env spec entry n (file :: rest) idx [] iterAllocs dirs w =
      openSSTsLoop env spec entry n rest (idx + 1)
        [{ Store := { id := w.nextDir, dir := file.Dir }, FilePath := file.Path }]
        (iterAllocs ++ [{ id := w.nextAlloc, bytes := n }])
        (dirs ++ [{ id := w.nextDir, dir := file.Dir }]) (w.afterAcquire n file.Dir) := by
  simp [openSSTsLoop, World.TryAcquireMaybeIncreaseCapacity, World.OpenExternalStorage, htry, hopen,
    World.afterAcquire, World.Acquire, hacq, Err.Is]



/-- The loop of `openSSTs` over a run of files `pre` whose reservations are all
granted at the first attempt and whose storages all open: the files are queued in
order and the loop goes on with the files behind them. -/
theorem openSSTsLoop_granted (env : Env) (spec : RestoreDataSpec) (entry : RestoreSpanEntry) (n : Nat)
    (pre rest : List RestoreFileSpec) :
    ∀ (idx : Nat) (storeFiles : List StoreFile) (iterAllocs : List IntAlloc)
      (dirs : List ExternalStorage) (w : World),
      (∀ j, j < pre.length → env.TryAcquireMaybeIncreaseCapacity (w.tryCalls + j) = none) →
      (∀ j, j < pre.length → env.ExternalStorage (w.storageCalls + j) = none) →
      ∃ (sf : List StoreFile) (al : List IntAlloc) (dl : List ExternalStorage) (w1 : World),
        openSSTsLoop env spec entry n (pre ++ rest) idx storeFiles iterAllocs dirs w =
          openSSTsLoop env spec entry n rest (idx + pre.length) (storeFiles ++ sf)
            (iterAllocs ++ al) (dirs ++ dl) w1 ∧
        sf.map StoreFile.file = pre ∧
        w1.tryCalls = w.tryCalls + pre.length ∧
        w1.storageCalls = w.storageCalls + pre.length ∧
        w1.readerCalls = w.readerCalls ∧
        w1.acquireCalls = w.acquireCalls := by
  induction pre with
  | nil =>
      intro idx storeFiles iterAllocs dirs w _ _
      exact ⟨[], [], [], w, by simp⟩
  | cons f fs ih =>
      intro idx storeFiles iterAllocs dirs w htry hopen
      have h0 := htry 0 (by simp)
      have o0 := hopen 0 (by simp)
      simp only [Nat.add_zero] at h0 o0
      obtain ⟨sf, al, dl, w1, hrun, hsf, h1, h2, h3, h4⟩ :=
        ih (idx + 1)
          (storeFiles ++ [{ Store := { id := w.nextDir, dir := f.Dir }, FilePath := f.Path }])
          (iterAllocs ++ [{ id := w.nextAlloc, bytes := n }])
          (dirs ++ [{ id := w.nextDir, dir := f.Dir }]) (w.afterTry n f.Dir)
          (fun j hj => by
            have := htry (j + 1) (by simpa using hj)
            simpa [World.afterTry, Nat.add_assoc, Nat.add_comm 1 j] using this)
          (fun j hj => by
            have := hopen (j + 1) (by simpa using hj)
            simpa [World.afterTry, Nat.add_assoc, Nat.add_comm 1 j] using this)
      refine ⟨{ Store := { id := w.nextDir, dir := f.Dir }, FilePath := f.Path } :: sf,
        { id := w.nextAlloc, bytes := n } :: al, { id := w.nextDir, dir := f.Dir } :: dl, w1, ?_,
        ?_, ?_, ?_, ?_, ?_⟩
      · rw [List.cons_append, openSSTsLoop_try env spec entry n f (fs ++ rest) idx storeFiles
          iterAllocs dirs w h0 o0, hrun]
        simp [Nat.add_assoc, Nat.add_comm 1 fs.length]
      · simp [hsf, StoreFile.file]
      · simp [h1, World.afterTry]; omega
      · simp [h2, World.afterTry]; omega
      · simp [h3, World.afterTry]
      · simp [h4, World.afterTry]

/-- The loop of `openSSTs` at the end of the files: the reader is built over
the queued files and the full iterator is returned. -/
theorem openSSTsLoop_nil (env : Env) (spec : RestoreDataSpec) (entry : RestoreSpanEntry) (n : Nat)
    (idx : Nat) (storeFiles : List StoreFile) (iterAllocs : List IntAlloc)
    (dirs : List ExternalStorage) (w : World)
    (hread : env.ExternalSSTReader w.readerCalls = none) :
    ∃ (m : mergedSST),
      openSSTsLoop env spec entry n [] idx storeFiles iterAllocs dirs w =
        (.ok (m, { idx := idx, done := true }), [], { w with readerCalls := w.readerCalls + 1 }) ∧
      m.entry = entry ∧ m.iter.files = storeFiles ∧ m.iter.asOf = spec.RestoreTime ∧
      m.completeUpTo = spec.RestoreTime := by
  simp [openSSTsLoop, ExternalSSTReader, hread, getIter, NewReadAsOfIterator, externalSSTIter]

/-- The loop of `openSSTs` at a file whose reservation is refused while files
are queued: the partial iterator over the queued files is returned. -/
theorem openSSTsLoop_refused (env : Env) (spec : RestoreDataSpec) (entry : RestoreSpanEntry) (n : Nat)
    (file : RestoreFileSpec) (rest : List RestoreFileSpec)
    (idx : Nat) (storeFiles : List StoreFile) (iterAllocs : List IntAlloc)
    (dirs : List ExternalStorage) (w : World)
    (hne : storeFiles ≠ [])
    (htry : env.TryAcquireMaybeIncreaseCapacity w.tryCalls = some Err.ErrNotEnoughQuota)
    (hread : env.ExternalSSTReader w.readerCalls = none) :
    ∃ (m : mergedSST),
      openSSTsLoop env spec entry n (file :: rest) idx storeFiles iterAllocs dirs w =
        (.ok (m, { idx := idx, done := false }), [],
          { w with tryCalls := w.tryCalls + 1, readerCalls := w.readerCalls + 1 }) ∧
      m.entry = entry ∧ m.iter.files = storeFiles ∧ m.iter.asOf = spec.RestoreTime ∧
      m.completeUpTo = { WallTime := 0, Logical := 1 } := by
  have hlen : 0 < storeFiles.length := List.length_pos.mpr hne
  simp [openSSTsLoop, World.TryAcquireMaybeIncreaseCapacity, htry, Err.Is, hlen, ExternalSSTReader,
    hread, getIter, NewReadAsOfIterator, externalSSTIter]




/-- The first file of a call of `openSSTs`: its reservation is granted at the
first attempt or, nothing being queued yet, by the blocking `Acquire`. -/
theorem openSSTsLoop_first (env : Env) (spec : RestoreDataSpec) (entry : RestoreSpanEntry) (n : Nat)
    (file : RestoreFileSpec) (rest : List RestoreFileSpec) (idx : Nat) (w : World)
    (hfirst : env.TryAcquireMaybeIncreaseCapacity w.tryCalls = none ∨
      (env.TryAcquireMaybeIncreaseCapacity w.tryCalls = some Err.ErrNotEnoughQuota ∧
        env.Acquire w.acquireCalls = none))
    (hopen : env.ExternalStorage w.storageCalls = none) :
    ∃ (sf : StoreFile) (al : List IntAlloc) (dl : List ExternalStorage) (w1 : World),
      openSSTsLoop env spec entry n (file :: rest) idx [] [] [] w =
        openSSTsLoop env spec entry n rest (idx + 1) [sf] al dl w1 ∧
      sf.file = file ∧
      w1.tryCalls = w.tryCalls + 1 ∧
      w1.storageCalls = w.storageCalls + 1 ∧
      w1.readerCalls = w.readerCalls := by
  rcases hfirst with htry | ⟨htry, hacq⟩
  · exact ⟨{ Store := { id := w.nextDir, dir := file.Dir }, FilePath := file.Path },
      [{ id := w.nextAlloc, bytes := n }], [{ id := w.nextDir, dir := file.Dir }],
      w.afterTry n file.Dir,
      by simpa using openSSTsLoop_try env spec entry n file rest idx [] [] [] w htry hopen,
      rfl, rfl, rfl, rfl⟩
  · exact ⟨{ Store := { id := w.nextDir, dir := file.Dir }, FilePath := file.Path },
      [{ id := w.nextAlloc, bytes := n }], [{ id := w.nextDir, dir := file.Dir }],
      w.afterAcquire n file.Dir,
      by simpa using openSSTsLoop_acquire env spec entry n file rest idx [] [] w htry hacq hopen,
      rfl, rfl, rfl, rfl⟩

/-- C1: when, in one call of `openSSTs` that starts at index `s`, the quota
attempts for the files `s..i-1` succeed and the attempt for file `i` answers
`ErrNotEnoughQuota` (`s < i < len(entry.Files)`, storage opens and the reader
construction succeeding), the call returns an iterator over exactly
`entry.Files[s..i)` in file order, with `completeUpTo` the sentinel
`{WallTime 0, Logical 1}`, and the cursor `{idx = i, done = false}`. -/
theorem openSSTs_partial_iterator (env : Env) (spec : RestoreDataSpec) (entry : RestoreSpanEntry)
    (resume : Option resumeEntry) (w : World) (s i : Nat)
    (hs : s = startIdx resume) (hsi : s < i) (hi : i < entry.Files.length)
    (hfirst : env.TryAcquireMaybeIncreaseCapacity w.tryCalls = none ∨
      (env.TryAcquireMaybeIncreaseCapacity w.tryCalls = some Err.ErrNotEnoughQuota ∧
        env.Acquire w.acquireCalls = none))
    (hrest : ∀ j, 0 < j → j < i - s → env.TryAcquireMaybeIncreaseCapacity (w.tryCalls + j) = none)
    (hstop : env.TryAcquireMaybeIncreaseCapacity (w.tryCalls + (i - s)) = some Err.ErrNotEnoughQuota)
    (hopen : ∀ j, j < i - s → env.ExternalStorage (w.storageCalls + j) = none)
    (hread : env.ExternalSSTReader w.readerCalls = none) :
    ∃ (m : mergedSST),
      (openSSTs env spec entry resume w).1 = .ok (m, { idx := i, done := false }) ∧
      m.iter.files.map StoreFile.file = (entry.Files.drop s).take (i - s) ∧
      m.completeUpTo = { WallTime := 0, Logical := 1 } ∧
      m.entry = entry ∧ m.iter.asOf = spec.RestoreTime := by
  -- split the files from `s` on into the first file, the granted files and the refused one
  have hlen : (entry.Files.drop s).length = entry.Files.length - s := List.length_drop _ _
  obtain ⟨f0, tl, hL⟩ : ∃ f0 tl, entry.Files.drop s = f0 :: tl := by
    cases hd : entry.Files.drop s with
    | nil => rw [hd] at hlen; simp at hlen; omega
    | cons a l => exact ⟨a, l, rfl⟩
  have htl : tl.length = entry.Files.length - s - 1 := by
    have := congrArg List.length hL
    simp [hlen] at this; omega
  obtain ⟨fi, rest, hsplit⟩ : ∃ fi rest, tl.drop (i - s - 1) = fi :: rest := by
    cases hd : tl.drop (i - s - 1) with
    | nil =>
        have := congrArg List.length hd
        simp [htl] at this; omega
    | cons a l => exact ⟨a, l, rfl⟩
  have htl2 : tl = tl.take (i - s - 1) ++ fi :: rest := by
    rw [← hsplit, List.take_append_drop]
  have hprelen : (tl.take (i - s - 1)).length = i - s - 1 := by
    rw [List.length_take, htl]; omega
  obtain ⟨sf0, al0, dl0, w1, hrun1, hsf0, ht1, ho1, hr1⟩ :=
    openSSTsLoop_first env spec entry
      (sstOverheadBytesPerFile spec) f0 tl s w hfirst (by simpa using hopen 0 (by omega))
  obtain ⟨sf, al, dl, w2, hrun2, hsf, ht2, ho2, hr2, _⟩ :=
    openSSTsLoop_granted env spec entry
      (sstOverheadBytesPerFile spec) (tl.take (i - s - 1)) (fi :: rest) (s + 1) [sf0] al0 dl0 w1
      (fun j hj => by
        rw [ht1, Nat.add_assoc]
        exact hrest (1 + j) (by omega) (by rw [hprelen] at hj; omega))
      (fun j hj => by
        rw [ho1, Nat.add_assoc]
        exact hopen (1 + j) (by rw [hprelen] at hj; omega))
  obtain ⟨m, hrun3, hentry, hfiles, hasOf, hcomplete⟩ :=
    openSSTsLoop_refused env spec entry
      (sstOverheadBytesPerFile spec) fi rest (s + 1 + (tl.take (i - s - 1)).length)
      ([sf0] ++ sf) (al0 ++ al) (dl0 ++ dl) w2 (by simp)
      (by rw [ht2, ht1, hprelen]; rw [show w.tryCalls + 1 + (i - s - 1) = w.tryCalls + (i - s) by omega]
          exact hstop)
      (by rw [hr2, hr1]; exact hread)
  have hidx : s + 1 + (tl.take (i - s - 1)).length = i := by rw [hprelen]; omega
  refine ⟨m, ?_, ?_, hcomplete, hentry, hasOf⟩
  · unfold openSSTs
    rw [← hs, hL, hrun1, htl2, hrun2, hrun3, hidx]
  · rw [hfiles, hL]
    have : i - s = (i - s - 1) + 1 := by omega
    rw [this, List.take_succ_cons]
    simp [hsf0, hsf]



/-- C2: when every quota attempt for the files `s..n-1` of an entry with `n` files
succeeds (`s <= n`, storage opens and the reader construction succeeding),
`openSSTs` returns an iterator over exactly `entry.Files[s..n)` in file order with
`completeUpTo = RestoreTime` and the cursor `{idx = n, done = true}`; for an entry
without files the call only builds the reader: no reservation is acquired and no
storage handle is opened. -/
theorem openSSTs_full_iterator (env : Env) (spec : RestoreDataSpec) (entry : RestoreSpanEntry)
    (resume : Option resumeEntry) (w : World) (s : Nat)
    (hs : s = startIdx resume) (hsn : s ≤ entry.Files.length)
    (hfirst : s < entry.Files.length →
      (env.TryAcquireMaybeIncreaseCapacity w.tryCalls = none ∨
        (env.TryAcquireMaybeIncreaseCapacity w.tryCalls = some Err.ErrNotEnoughQuota ∧
          env.Acquire w.acquireCalls = none)))
    (hrest : ∀ j, 0 < j → j < entry.Files.length - s →
      env.TryAcquireMaybeIncreaseCapacity (w.tryCalls + j) = none)
    (hopen : ∀ j, j < entry.Files.length - s → env.ExternalStorage (w.storageCalls + j) = none)
    (hread : env.ExternalSSTReader w.readerCalls = none) :
    (∃ (m : mergedSST),
      (openSSTs env spec entry resume w).1 =
        .ok (m, { idx := entry.Files.length, done := true }) ∧
      m.iter.files.map StoreFile.file = entry.Files.drop s ∧
      m.completeUpTo = spec.RestoreTime ∧
      m.entry = entry ∧ m.iter.asOf = spec.RestoreTime) ∧
    (entry.Files = [] →
      (openSSTs env spec entry resume w).2 = { w with readerCalls := w.readerCalls + 1 }) := by
  have hlen : (entry.Files.drop s).length = entry.Files.length - s := List.length_drop _ _
  constructor
  · cases hL : entry.Files.drop s with
    | nil =>
        have hsn2 : s = entry.Files.length := by
          rw [hL] at hlen; simp at hlen; omega
        obtain ⟨m, hrun, hentry, hfiles, hasOf, hcomplete⟩ :=
          openSSTsLoop_nil env spec entry (sstOverheadBytesPerFile spec) s [] [] [] w hread
        refine ⟨m, ?_, ?_, hcomplete, hentry, hasOf⟩
        · unfold openSSTs
          rw [← hs, hL, hrun, ← hsn2]
        · rw [hfiles]; rfl
    | cons f0 tl =>
        have htl : tl.length + 1 = entry.Files.length - s := by
          rw [hL] at hlen; simpa using hlen
        obtain ⟨sf0, al0, dl0, w1, hrun1, hsf0, ht1, ho1, hr1⟩ :=
          openSSTsLoop_first env spec entry (sstOverheadBytesPerFile spec) f0 tl s w
            (hfirst (by omega)) (by simpa using hopen 0 (by omega))
        obtain ⟨sf, al, dl, w2, hrun2, hsf, _, _, hr2, _⟩ :=
          openSSTsLoop_granted env spec entry (sstOverheadBytesPerFile spec) tl [] (s + 1)
            [sf0] al0 dl0 w1
            (fun j hj => by
              rw [ht1, Nat.add_assoc]
              exact hrest (1 + j) (by omega) (by omega))
            (fun j hj => by
              rw [ho1, Nat.add_assoc]
              exact hopen (1 + j) (by omega))
        obtain ⟨m, hrun3, hentry, hfiles, hasOf, hcomplete⟩ :=
          openSSTsLoop_nil env spec entry (sstOverheadBytesPerFile spec) (s + 1 + tl.length)
            ([sf0] ++ sf) (al0 ++ al) (dl0 ++ dl) w2 (by rw [hr2, hr1]; exact hread)
        have hidx : s + 1 + tl.length = entry.Files.length := by omega
        refine ⟨m, ?_, ?_, hcomplete, hentry, hasOf⟩
        · unfold openSSTs
          rw [← hs, hL, hrun1]
          rw [List.append_nil] at hrun2
          rw [hrun2, hrun3, hidx]
        · rw [hfiles]; simp [hsf0, hsf]
  · intro hnil
    have hL : entry.Files.drop (startIdx resume) = [] := by rw [hnil]; simp
    unfold openSSTs
    rw [hL]
    simp [openSSTsLoop, ExternalSSTReader, hread, getIter, World.closeDirs]

/-- C1 at a sample entry of three files: the second reservation is refused and the
call returns the iterator over the first file. -/
theorem openSSTs_partial_iterator_witness :
    ∃ (m : mergedSST),
      (openSSTs demoEnv demoSpec demoEntry none World.init).1 =
        .ok (m, { idx := 1, done := false }) ∧
      m.iter.files.map StoreFile.file = (demoEntry.Files.drop 0).take (1 - 0) ∧
      m.completeUpTo = { WallTime := 0, Logical := 1 } ∧
      m.entry = demoEntry ∧ m.iter.asOf = demoSpec.RestoreTime :=
  openSSTs_partial_iterator demoEnv demoSpec demoEntry none World.init 0 1 rfl (by decide)
    (by decide) (Or.inl rfl) (fun j h1 h2 => by omega) rfl
    (fun j hj => rfl) rfl

/-- C2 at a sample entry of three files, resumed at index 1 with every
reservation granted. -/
theorem openSSTs_full_iterator_witness :
    (∃ (m : mergedSST),
      (openSSTs grantEnv demoSpec demoEntry (some ⟨false, 1⟩) World.init).1 =
        .ok (m, { idx := demoEntry.Files.length, done := true }) ∧
      m.iter.files.map StoreFile.file = demoEntry.Files.drop 1 ∧
      m.completeUpTo = demoSpec.RestoreTime ∧
      m.entry = demoEntry ∧ m.iter.asOf = demoSpec.RestoreTime) ∧
    (demoEntry.Files = [] →
      (openSSTs grantEnv demoSpec demoEntry (some ⟨false, 1⟩) World.init).2 =
        { World.init with readerCalls := World.init.readerCalls + 1 }) :=
  openSSTs_full_iterator grantEnv demoSpec demoEntry (some ⟨false, 1⟩) World.init 1 rfl (by decide)
    (fun _ => Or.inl rfl) (fun j _ _ => rfl) (fun j _ => rfl) rfl

/-! ## The SST opener: every call, and the worker that resumes it -/

/-- The loop of `openSSTs` at the end of the files, whatever the reader answers. -/
theorem openSSTsLoop_nil_cases (env : Env) (spec : RestoreDataSpec) (entry : RestoreSpanEntry)
    (n idx : Nat) (storeFiles : List StoreFile) (iterAllocs : List IntAlloc)
    (dirs : List ExternalStorage) (w : World) :
    (∃ err w1, openSSTsLoop env spec entry n [] idx storeFiles iterAllocs dirs w =
        (.error err, dirs, w1) ∧ w1.trace = w.trace ∧ w1.nextDir = w.nextDir) ∨
    (∃ w1, openSSTsLoop env spec entry n [] idx storeFiles iterAllocs dirs w =
        (.ok ((getIter spec entry (externalSSTIter env storeFiles) dirs iterAllocs
          spec.RestoreTime).1, { idx := idx, done := true }), [], w1) ∧
        w1.trace = w.trace ∧ w1.nextDir = w.nextDir) := by
  cases hr : env.ExternalSSTReader w.readerCalls with
  | some err =>
      left
      exact ⟨err, { w with readerCalls := w.readerCalls + 1 },
        by simp [openSSTsLoop, ExternalSSTReader, hr], rfl, rfl⟩
  | none =>
      right
      exact ⟨{ w with readerCalls := w.readerCalls + 1 },
        by simp [openSSTsLoop, ExternalSSTReader, hr, getIter], rfl, rfl⟩

/-- One turn of the loop of `openSSTs`, whatever the collaborators answer: the
call returns an error and leaves `dirs` to the deferred close, or it returns the
partial iterator over the queued files, or it queues the file and goes on. -/
theorem openSSTsLoop_cons_cases (env : Env) (spec : RestoreDataSpec) (entry : RestoreSpanEntry)
    (n : Nat) (f : RestoreFileSpec) (fs : List RestoreFileSpec) (idx : Nat)
    (storeFiles : List StoreFile) (iterAllocs : List IntAlloc)
    (dirs : List ExternalStorage) (w : World) :
    (∃ err w1, openSSTsLoop env spec entry n (f :: fs) idx storeFiles iterAllocs dirs w =
        (.error err, dirs, w1) ∧
        (w1.trace = w.trace ∨ ∃ a, w1.trace = w.trace ++ [Event.acquired a] ∧ a.bytes = n) ∧
        w1.nextDir = w.nextDir) ∨
    (∃ w1, openSSTsLoop env spec entry n (f :: fs) idx storeFiles iterAllocs dirs w =
        (.ok ((getIter spec entry (externalSSTIter env storeFiles) dirs iterAllocs
          { WallTime := 0, Logical := 1 }).1, { idx := idx, done := false }), [], w1) ∧
        w1.trace = w.trace ∧ 0 < storeFiles.length ∧ w1.nextDir = w.nextDir) ∨
    (∃ a d w1, openSSTsLoop env spec entry n (f :: fs) idx storeFiles iterAllocs dirs w =
        openSSTsLoop env spec entry n fs (idx + 1)
          (storeFiles ++ [{ Store := d, FilePath := f.Path }]) (iterAllocs ++ [a])
          (dirs ++ [d]) w1 ∧
        w1.trace = w.trace ++ [Event.acquired a, Event.opened d] ∧ d.dir = f.Dir ∧
        d.id = w.nextDir ∧ w1.nextDir = w.nextDir + 1 ∧ a.bytes = n) := by
  cases htry : env.TryAcquireMaybeIncreaseCapacity w.tryCalls with
  | none =>
      cases hopen : env.ExternalStorage w.storageCalls with
      | some err =>
          left
          exact ⟨err,
            { w with tryCalls := w.tryCalls + 1, nextAlloc := w.nextAlloc + 1,
                     storageCalls := w.storageCalls + 1,
                     trace := w.trace ++ [Event.acquired { id := w.nextAlloc, bytes := n }] }, by
            simp [openSSTsLoop, World.TryAcquireMaybeIncreaseCapacity,
              World.OpenExternalStorage, htry, hopen], Or.inr ⟨_, rfl, rfl⟩, rfl⟩
      | none =>
          right; right
          exact ⟨{ id := w.nextAlloc, bytes := n }, { id := w.nextDir, dir := f.Dir },
            w.afterTry n f.Dir,
            openSSTsLoop_try env spec entry n f fs idx storeFiles iterAllocs dirs w htry hopen,
            by simp [World.afterTry], rfl, rfl, rfl, rfl⟩
  | some err =>
      by_cases hIs : err.Is Err.ErrNotEnoughQuota = true
      · by_cases hlen : 0 < storeFiles.length
        · cases hr : env.ExternalSSTReader w.readerCalls with
          | some err2 =>
              left
              exact ⟨err2, { w with tryCalls := w.tryCalls + 1, readerCalls := w.readerCalls + 1 }, by
                simp [openSSTsLoop, World.TryAcquireMaybeIncreaseCapacity, htry, hIs, hlen,
                  ExternalSSTReader, hr], Or.inl rfl, rfl⟩
          | none =>
              right; left
              exact ⟨{ w with tryCalls := w.tryCalls + 1, readerCalls := w.readerCalls + 1 }, by
                simp [openSSTsLoop, World.TryAcquireMaybeIncreaseCapacity, htry, hIs, hlen,
                  ExternalSSTReader, hr, getIter], rfl, hlen, rfl⟩
        · cases hacq : env.Acquire w.acquireCalls with
          | some err2 =>
              left
              exact ⟨err2, { w with tryCalls := w.tryCalls + 1, acquireCalls := w.acquireCalls + 1 }, by
                simp [openSSTsLoop, World.TryAcquireMaybeIncreaseCapacity, htry, hIs, hlen,
                  World.Acquire, hacq], Or.inl rfl, rfl⟩
          | none =>
              cases hopen : env.ExternalStorage w.storageCalls with
              | some err3 =>
                  left
                  exact ⟨err3,
                    { w with tryCalls := w.tryCalls + 1, acquireCalls := w.acquireCalls + 1,
                             nextAlloc := w.nextAlloc + 1, storageCalls := w.storageCalls + 1,
                             trace := w.trace ++ [Event.acquired { id := w.nextAlloc, bytes := n }] }, by
                    simp [openSSTsLoop, World.TryAcquireMaybeIncreaseCapacity, htry, hIs, hlen,
                      World.Acquire, hacq, World.OpenExternalStorage, hopen], Or.inr ⟨_, rfl, rfl⟩, rfl⟩
              | none =>
                  right; right
                  exact ⟨{ id := w.nextAlloc, bytes := n }, { id := w.nextDir, dir := f.Dir },
                    w.afterAcquire n f.Dir, by
                    simp [openSSTsLoop, World.TryAcquireMaybeIncreaseCapacity, htry, hIs, hlen,
                      World.Acquire, hacq, World.OpenExternalStorage, hopen, World.afterAcquire],
                    by simp [World.afterAcquire], rfl, rfl, rfl, rfl⟩
      · left
        exact ⟨err, { w with tryCalls := w.tryCalls + 1 }, by
          simp [openSSTsLoop, World.TryAcquireMaybeIncreaseCapacity, htry, hIs], Or.inl rfl, rfl⟩

/-- Whatever the collaborators answer, an iterator returned by the loop of
`openSSTs` covers the files queued before and the next `k` files, the cursor
stands `k` files further, a cursor that is done stands at the end of the files,
and a cursor that is not done has at least one file queued before it. -/
theorem openSSTsLoop_ok (env : Env) (spec : RestoreDataSpec) (entry : RestoreSpanEntry) (n : Nat)
    (files : List RestoreFileSpec) :
    ∀ (idx : Nat) (storeFiles : List StoreFile) (iterAllocs : List IntAlloc)
      (dirs : List ExternalStorage) (w : World) (m : mergedSST) (res : resumeEntry)
      (dirs1 : List ExternalStorage) (w1 : World),
      openSSTsLoop env spec entry n files idx storeFiles iterAllocs dirs w =
        (.ok (m, res), dirs1, w1) →
      ∃ k, k ≤ files.length ∧ res.idx = idx + k ∧
        m.iter.files.map StoreFile.file = storeFiles.map StoreFile.file ++ files.take k ∧
        m.entry = entry ∧
        m.iter = NewReadAsOfIterator (externalSSTIter env m.iter.files) spec.RestoreTime ∧
        (res.done = true → k = files.length ∧ m.completeUpTo = spec.RestoreTime) ∧
        (res.done = false → k < files.length ∧ 0 < storeFiles.length + k ∧
          m.completeUpTo = { WallTime := 0, Logical := 1 }) := by
  induction files with
  | nil =>
      intro idx storeFiles iterAllocs dirs w m res dirs1 w1 h
      rcases openSSTsLoop_nil_cases env spec entry n idx storeFiles iterAllocs dirs w with
        ⟨err, w2, hrun, -⟩ | ⟨w2, hrun, -⟩
      · rw [hrun] at h; simp at h
      · rw [hrun] at h
        simp only [Prod.mk.injEq, Except.ok.injEq] at h
        obtain ⟨⟨hm, hres⟩, -, -⟩ := h
        subst hm hres
        exact ⟨0, by simp, by simp, by simp [getIter, NewReadAsOfIterator, externalSSTIter], rfl,
          rfl, fun _ => ⟨rfl, rfl⟩, fun hd => by simp at hd⟩
  | cons f fs ih =>
      intro idx storeFiles iterAllocs dirs w m res dirs1 w1 h
      rcases openSSTsLoop_cons_cases env spec entry n f fs idx storeFiles iterAllocs dirs w with
        ⟨err, w2, hrun, -⟩ | ⟨w2, hrun, -, hlen, -⟩ | ⟨a, d, w2, hrun, -, hd, -⟩
      · rw [hrun] at h; simp at h
      · rw [hrun] at h
        simp only [Prod.mk.injEq, Except.ok.injEq] at h
        obtain ⟨⟨hm, hres⟩, -, -⟩ := h
        subst hm hres
        exact ⟨0, by simp, by simp, by simp [getIter, NewReadAsOfIterator, externalSSTIter], rfl,
          rfl, fun hd => by simp at hd, fun _ => ⟨by simp, by simpa using hlen, rfl⟩⟩
      · rw [hrun] at h
        obtain ⟨k, hk, hidx, hfiles, hentry, hasOf, hdone, hnot⟩ :=
          ih (idx + 1) _ _ _ w2 m res dirs1 w1 h
        refine ⟨k + 1, by simpa using hk, by omega, ?_, hentry, hasOf, ?_, ?_⟩
        · rw [hfiles]; simp [StoreFile.file, hd]
        · intro hdn
          exact ⟨by simpa using (hdone hdn).1, (hdone hdn).2⟩
        · intro hdn
          obtain ⟨h1, h2, h3⟩ := hnot hdn
          exact ⟨by simpa using h1, by simp at h2; omega, h3⟩

/-- Whatever the collaborators answer, an iterator returned by `openSSTs` covers
the `k` files from the start index on and the cursor stands behind them; a cursor
that is done stands at the end of the files and comes with the restore time, a
cursor that is not done has moved by at least one file and comes with the
sentinel. -/
theorem openSSTs_ok (env : Env) (spec : RestoreDataSpec) (entry : RestoreSpanEntry)
    (resume : Option resumeEntry) (w : World) (m : mergedSST) (res : resumeEntry)
    (h : (openSSTs env spec entry resume w).1 = .ok (m, res)) :
    ∃ k, k ≤ entry.Files.length - startIdx resume ∧ res.idx = startIdx resume + k ∧
      m.iter.files.map StoreFile.file = (entry.Files.drop (startIdx resume)).take k ∧
      m.entry = entry ∧
      m.iter = NewReadAsOfIterator (externalSSTIter env m.iter.files) spec.RestoreTime ∧
      (res.done = true →
        k = entry.Files.length - startIdx resume ∧ m.completeUpTo = spec.RestoreTime) ∧
      (res.done = false → k < entry.Files.length - startIdx resume ∧ 0 < k ∧
        m.completeUpTo = { WallTime := 0, Logical := 1 }) := by
  unfold openSSTs at h
  rcases hrun : openSSTsLoop env spec entry (sstOverheadBytesPerFile spec)
      (entry.Files.drop (startIdx resume)) (startIdx resume) [] [] [] w with ⟨r, dirs1, w1⟩
  rw [hrun] at h
  simp only at h
  subst h
  obtain ⟨k, hk, hidx, hfiles, hentry, hasOf, hdone, hnot⟩ :=
    openSSTsLoop_ok env spec entry _ _ _ _ _ _ _ m res dirs1 w1 hrun
  rw [List.length_drop] at hk hdone hnot
  exact ⟨k, hk, hidx, by simpa using hfiles, hentry, hasOf, hdone,
    fun hd => ⟨(hnot hd).1, by simpa using (hnot hd).2.1, (hnot hd).2.2⟩⟩

/-- The inner loop of a worker leaves `running` within one turn more than the
number of files behind the cursor. -/
theorem workerLoop_terminates (env : Env) (spec : RestoreDataSpec) (kr : KeyRewriter)
    (entry : RestoreSpanEntry) :
    ∀ (fuel : Nat) (resume : Option resumeEntry) (w : World),
      entry.Files.length - startIdx resume < fuel →
      (workerLoop env spec kr entry fuel resume w).1 ≠ WorkerResult.running := by
  intro fuel
  induction fuel with
  | zero => intro resume w h; omega
  | succ fuel ih =>
      intro resume w hfuel
      unfold workerLoop
      rcases hopen : openSSTs env spec entry resume w with ⟨r, w1⟩
      cases r with
      | error err => simp
      | ok p =>
          obtain ⟨sstIter, res1⟩ := p
          dsimp only
          rcases hproc : processRestoreSpanEntry env spec kr sstIter w1 with ⟨⟨summary, e⟩, w2⟩
          cases e with
          | some err => simp
          | none =>
              simp only
              by_cases hctx : env.ctxDone w2.selectCalls = true
              · simp [hctx]
              · by_cases hdone : res1.done = true
                · simp [hctx, hdone]
                · simp only [hctx, hdone, if_false, Bool.false_eq_true]
                  obtain ⟨k, -, hidx, -, -, -, -, hnot⟩ :=
                    openSSTs_ok env spec entry resume w sstIter res1 (by rw [hopen])
                  obtain ⟨h1, h2, -⟩ := hnot (by simpa using hdone)
                  exact ih (some res1) _ (by simp only [startIdx]; omega)

/-- The iterators opened by a run of the inner loop of a worker that reaches its
`break` cover, one after the other, the files behind the cursor the run
started from. -/
theorem workerLoop_files (env : Env) (spec : RestoreDataSpec) (kr : KeyRewriter)
    (entry : RestoreSpanEntry) :
    ∀ (fuel : Nat) (resume : Option resumeEntry) (w : World),
      (workerLoop env spec kr entry fuel resume w).1 = WorkerResult.finished →
      (workerLoop env spec kr entry fuel resume w).2.1.flatMap (fun x => x.1.files) =
        entry.Files.drop (startIdx resume) := by
  intro fuel
  induction fuel with
  | zero => intro resume w h; simp [workerLoop] at h
  | succ fuel ih =>
      intro resume w
      unfold workerLoop
      rcases hopen : openSSTs env spec entry resume w with ⟨r, w1⟩
      cases r with
      | error err => simp
      | ok p =>
          obtain ⟨sstIter, res1⟩ := p
          obtain ⟨k, hk, hidx, hfiles, -, -, hdn, hnot⟩ :=
            openSSTs_ok env spec entry resume w sstIter res1 (by rw [hopen])
          dsimp only
          rcases hproc : processRestoreSpanEntry env spec kr sstIter w1 with ⟨⟨summary, e⟩, w2⟩
          cases e with
          | some err => simp
          | none =>
              simp only
              by_cases hctx : env.ctxDone w2.selectCalls = true
              · simp [hctx]
              · by_cases hdone : res1.done = true
                · simp only [hctx, hdone, if_true, if_false, Bool.false_eq_true]
                  intro _
                  have hk2 := (hdn hdone).1
                  simp only [List.flatMap_cons, List.flatMap_nil, List.append_nil,
                    mergedSST.files, hfiles]
                  rw [List.take_of_length_le]
                  rw [List.length_drop]; omega
                · simp only [hctx, hdone, if_false, Bool.false_eq_true]
                  intro hfin
                  have := ih (some res1) _ hfin
                  simp only [List.flatMap_cons, mergedSST.files, hfiles]
                  simp only [mergedSST.files] at this
                  rw [this]
                  simp only [startIdx, hidx]
                  rw [← List.drop_drop, List.take_append_drop]

/-! ## Traces -/

theorem progressUpdates_append (es fs : List Event) :
    progressUpdates (es ++ fs) = progressUpdates es ++ progressUpdates fs := by
  induction es with
  | nil => rfl
  | cons e es ih => cases e <;> simp [progressUpdates, ih]

theorem submissions_append (es fs : List Event) :
    submissions (es ++ fs) = submissions es ++ submissions fs := by
  induction es with
  | nil => rfl
  | cons e es ih => cases e <;> simp [submissions, ih]

/-- Events that are no progress updates add nothing to the posted updates. -/
theorem progressUpdates_eq_nil (es : List Event) (h : ∀ e ∈ es, ∀ p, e ≠ Event.progress p) :
    progressUpdates es = [] := by
  induction es with
  | nil => rfl
  | cons e es ih =>
      have := h e (by simp)
      cases e <;> simp_all [progressUpdates]

/-- Events that are no `AddMVCCKey` add nothing to the submissions. -/
theorem submissions_eq_nil (es : List Event) (h : ∀ e ∈ es, ∀ k v, e ≠ Event.addMVCCKey k v) :
    submissions es = [] := by
  induction es with
  | nil => rfl
  | cons e es ih =>
      have := h e (by simp)
      cases e <;> simp_all [submissions]

/-- The loop of `openSSTs` only adds events a property `P` of reservations and
opened handles holds for. -/
theorem openSSTsLoop_trace (P : Event → Prop) (hacq : ∀ a, P (Event.acquired a))
    (hopn : ∀ d, P (Event.opened d))
    (env : Env) (spec : RestoreDataSpec) (entry : RestoreSpanEntry) (n : Nat)
    (files : List RestoreFileSpec) :
    ∀ (idx : Nat) (storeFiles : List StoreFile) (iterAllocs : List IntAlloc)
      (dirs : List ExternalStorage) (w : World),
      ∃ evs, (openSSTsLoop env spec entry n files idx storeFiles iterAllocs dirs w).2.2.trace =
        w.trace ++ evs ∧ ∀ e ∈ evs, P e := by
  induction files with
  | nil =>
      intro idx storeFiles iterAllocs dirs w
      rcases openSSTsLoop_nil_cases env spec entry n idx storeFiles iterAllocs dirs w with
        ⟨err, w2, hrun, ht, -⟩ | ⟨w2, hrun, ht, -⟩ <;>
      exact ⟨[], by rw [hrun]; simp [ht], by simp⟩
  | cons f fs ih =>
      intro idx storeFiles iterAllocs dirs w
      rcases openSSTsLoop_cons_cases env spec entry n f fs idx storeFiles iterAllocs dirs w with
        ⟨err, w2, hrun, ht | ⟨a, ht, -⟩, -⟩ | ⟨w2, hrun, ht, -⟩ | ⟨a, d, w2, hrun, ht, -⟩
      · exact ⟨[], by rw [hrun]; simp [ht], by simp⟩
      · exact ⟨[Event.acquired a], by rw [hrun]; simp [ht], by simp [hacq]⟩
      · exact ⟨[], by rw [hrun]; simp [ht], by simp⟩
      · obtain ⟨evs, h1, h2⟩ := ih (idx + 1) (storeFiles ++ [{ Store := d, FilePath := f.Path }])
          (iterAllocs ++ [a]) (dirs ++ [d]) w2
        refine ⟨[Event.acquired a, Event.opened d] ++ evs, by rw [hrun, h1, ht]; simp, ?_⟩
        intro e he
        simp only [List.cons_append, List.nil_append, List.mem_cons] at he
        rcases he with rfl | rfl | he
        · exact hacq _
        · exact hopn _
        · exact h2 e he

/-- A call of `openSSTs` only adds events a property `P` of reservations,
opened handles and closed handles holds for. -/
theorem openSSTs_trace (P : Event → Prop) (hacq : ∀ a, P (Event.acquired a))
    (hopn : ∀ d, P (Event.opened d)) (hcls : ∀ d, P (Event.closed d))
    (env : Env) (spec : RestoreDataSpec) (entry : RestoreSpanEntry)
    (resume : Option resumeEntry) (w : World) :
    ∃ evs, (openSSTs env spec entry resume w).2.trace = w.trace ++ evs ∧ ∀ e ∈ evs, P e := by
  obtain ⟨evs, h1, h2⟩ := openSSTsLoop_trace P hacq hopn env spec entry
    (sstOverheadBytesPerFile spec) (entry.Files.drop (startIdx resume)) (startIdx resume) [] [] [] w
  unfold openSSTs
  rcases hrun : openSSTsLoop env spec entry (sstOverheadBytesPerFile spec)
      (entry.Files.drop (startIdx resume)) (startIdx resume) [] [] [] w with ⟨r, dirs1, w1⟩
  rw [hrun] at h1
  simp only at h1
  refine ⟨evs ++ dirs1.map Event.closed, by simp [World.closeDirs, h1], ?_⟩
  intro e he
  rcases List.mem_append.mp he with he | he
  · exact h2 e he
  · obtain ⟨d, -, rfl⟩ := List.mem_map.mp he
    exact hcls d

/-- Against a key without timestamp, `MVCCKey.Less` compares the key bytes. -/
theorem MVCCKey.Less_noTimestamp (k : MVCCKey) (b : Bytes) :
    k.Less { Key := b, Timestamp := { WallTime := 0, Logical := 0 } } =
      decide (Bytes.Compare k.Key b < 0) := by
  unfold MVCCKey.Less
  by_cases hc : Bytes.Compare k.Key b = 0
  · simp [hc, MVCCKey.IsValue, Timestamp.IsEmpty]
  · simp [hc]

theorem submissions_addEvents (subs : List (MVCCKey × Value)) :
    submissions (addEvents subs) = subs := by
  induction subs with
  | nil => rfl
  | cons x xs ih => simp_all [addEvents, submissions]

/-- The loop of `processRestoreSpanEntry`, whatever the collaborators answer:
it only calls `AddMVCCKey`, on a prefix of the submissions expected of the
positions, and on all of them when it ends without error. -/
theorem ingestLoop_trace {β : Type} (env : Env) (kr : KeyRewriter) (batcher : SSTBatcherExecutor β)
    (endKey : Bytes) (ps : List IterPos) :
    ∀ (b : β) (w : World),
      ∃ subs,
        (ingestLoop env kr batcher { Key := endKey, Timestamp := { WallTime := 0, Logical := 0 } }
          ps b w).2.2 = { w with trace := w.trace ++ addEvents subs } ∧
        subs <+: expectedSubmissions env kr endKey ps ∧
        ((ingestLoop env kr batcher { Key := endKey, Timestamp := { WallTime := 0, Logical := 0 } }
          ps b w).1 = none → subs = expectedSubmissions env kr endKey ps) := by
  induction ps with
  | nil =>
      intro b w
      exact ⟨[], by simp [ingestLoop, addEvents], by simp, by simp [expectedSubmissions]⟩
  | cons p ps ih =>
      intro b w
      unfold ingestLoop
      cases hv : p.validErr with
      | some err => exact ⟨[], by simp [addEvents], by simp, by simp⟩
      | none =>
          simp only [MVCCKey.Less_noTimestamp]
          by_cases hless : Bytes.Compare p.key.Key endKey < 0
          · simp only [hless, decide_True, Bool.not_true, Bool.false_eq_true, if_false]
            cases hval : p.value with
            | error err =>
                exact ⟨[], by simp [addEvents], by simp, by simp⟩
            | ok v =>
                cases hrw : kr.RewriteKey p.key.Key p.key.Timestamp.WallTime with
                | error err => exact ⟨[], by simp [addEvents], by simp, by simp⟩
                | ok r =>
                    obtain ⟨newKey, ok⟩ := r
                    cases ok with
                    | false =>
                        obtain ⟨subs, h1, h2, h3⟩ := ih b w
                        refine ⟨subs, by simpa using h1, ?_, ?_⟩
                        · simpa [expectedSubmissions, List.takeWhile_cons, hless, rewritten, hv, hval,
                            hrw] using h2
                        · simpa [expectedSubmissions, List.takeWhile_cons, hless, rewritten, hv, hval,
                            hrw] using h3
                    | true =>
                        simp only [Bool.not_true, Bool.false_eq_true, if_false]
                        have hexp : expectedSubmissions env kr endKey (p :: ps) =
                            ({ Key := newKey, Timestamp := p.key.Timestamp },
                              (v.ClearChecksum).InitChecksum env newKey) ::
                              expectedSubmissions env kr endKey ps := by
                          simp [expectedSubmissions, List.takeWhile_cons, hless, rewritten, hv, hval,
                            hrw]
                        rcases hadd : batcher.AddMVCCKey b
                            { Key := newKey, Timestamp := p.key.Timestamp }
                            ((v.ClearChecksum).InitChecksum env newKey) with ⟨e, b1⟩
                        cases e with
                        | some err =>
                            refine ⟨[({ Key := newKey, Timestamp := p.key.Timestamp },
                              (v.ClearChecksum).InitChecksum env newKey)], ?_, ?_, ?_⟩
                            · simp [World.emit, addEvents]
                            · rw [hexp]; simp [List.prefix_cons_inj]
                            · simp
                        | none =>
                            obtain ⟨subs, h1, h2, h3⟩ := ih b1
                              (w.emit (Event.addMVCCKey { Key := newKey, Timestamp := p.key.Timestamp }
                                ((v.ClearChecksum).InitChecksum env newKey)))
                            refine ⟨({ Key := newKey, Timestamp := p.key.Timestamp },
                              (v.ClearChecksum).InitChecksum env newKey) :: subs, ?_, ?_, ?_⟩
                            · simp only [h1]
                              simp [World.emit, addEvents]
                            · rw [hexp]; simpa [List.prefix_cons_inj] using h2
                            · intro hn
                              rw [hexp, h3 hn]
          · simp only [hless, decide_False, Bool.not_false, if_true]
            exact ⟨[], by simp [addEvents], by simp,
              by simp [expectedSubmissions, List.takeWhile_cons, hless]⟩

/-- The part of `processRestoreSpanEntry` behind the construction of the
batcher, whatever the collaborators answer: the submissions are a prefix of the
expected ones, followed by the flush (when the loop ended without error) and the
close of the batcher; without error all the expected submissions are made and
flushed. -/
theorem ingest_trace {β : Type} (env : Env) (kr : KeyRewriter) (batcher : SSTBatcherExecutor β)
    (b : β) (entry : RestoreSpanEntry) (iter : ReadAsOfIterator) (w : World) :
    ∃ subs closing,
      (ingest env kr batcher b entry iter w).2 =
        { w with trace := w.trace ++ (addEvents subs ++ closing) } ∧
      subs <+: expectedSubmissions env kr entry.Span.EndKey
        (iter.SeekGE { Key := entry.Span.Key, Timestamp := { WallTime := 0, Logical := 0 } }) ∧
      (closing = [Event.batcherClose] ∨ closing = [Event.flush, Event.batcherClose]) ∧
      ((ingest env kr batcher b entry iter w).1.2 = none →
        subs = expectedSubmissions env kr entry.Span.EndKey
          (iter.SeekGE { Key := entry.Span.Key, Timestamp := { WallTime := 0, Logical := 0 } }) ∧
        closing = [Event.flush, Event.batcherClose]) := by
  obtain ⟨subs, h1, h2, h3⟩ := ingestLoop_trace env kr batcher entry.Span.EndKey
    (iter.SeekGE { Key := entry.Span.Key, Timestamp := { WallTime := 0, Logical := 0 } }) b w
  rcases hloop : ingestLoop env kr batcher
      { Key := entry.Span.EndKey, Timestamp := { WallTime := 0, Logical := 0 } }
      (iter.SeekGE { Key := entry.Span.Key, Timestamp := { WallTime := 0, Logical := 0 } }) b w
    with ⟨e, b1, w1⟩
  rw [hloop] at h1 h3
  simp only at h1 h3
  subst h1
  simp only [ingest, hloop]
  cases e with
  | some err =>
      exact ⟨subs, [Event.batcherClose], by simp [World.emit], h2, Or.inl rfl, by simp⟩
  | none =>
      simp only []
      rcases hflush : batcher.Flush b1 with ⟨e2, b2⟩
      cases e2 with
      | some err =>
          exact ⟨subs, [Event.flush, Event.batcherClose], by simp [World.emit], h2, Or.inr rfl,
            by simp⟩
      | none =>
          exact ⟨subs, [Event.flush, Event.batcherClose], by simp [World.emit], h2, Or.inr rfl,
            fun _ => ⟨h3 rfl, rfl⟩⟩

/-- The trace of `processRestoreSpanEntry`, whatever the collaborators answer:
the construction of the batcher, a prefix of the expected submissions, the
closing calls on the batcher, and the cleanup of the iterator; without error
all the expected submissions are made, followed by one flush. -/
theorem processRestoreSpanEntry_trace (env : Env) (spec : RestoreDataSpec) (kr : KeyRewriter)
    (sst : mergedSST) (w : World) :
    ∃ subs closing,
      (processRestoreSpanEntry env spec kr sst w).2.trace =
        w.trace ++ (batcherEvents env spec kr sst.entry ++ (addEvents subs ++ closing) ++
          cleanupEvents sst.cleanup) ∧
      subs <+: expectedSubmissions env kr sst.entry.Span.EndKey sst.positions ∧
      (closing = [] ∨ closing = [Event.batcherClose] ∨
        closing = [Event.flush, Event.batcherClose]) ∧
      ((processRestoreSpanEntry env spec kr sst w).1.2 = none →
        subs = expectedSubmissions env kr sst.entry.Span.EndKey sst.positions ∧
        closing = [Event.flush, Event.batcherClose]) := by
  unfold processRestoreSpanEntry
  by_cases hv : spec.ValidateOnly = true
  · obtain ⟨subs, closing, h1, h2, h3, h4⟩ :=
      ingest_trace env kr (sstBatcherNoop.executor env) sstBatcherNoop.zero sst.entry sst.iter w
    refine ⟨subs, closing, ?_, h2, Or.inr h3, ?_⟩
    · simp only [hv, if_true, h1]
      simp [cleanupFn.run, World.closeDirs, World.Release, ReadAsOfIterator.Close, World.emit,
        batcherEvents, hv, cleanupEvents]
    · simpa only [hv, if_true] using h4
  · simp only [hv, if_false, Bool.false_eq_true]
    cases hmk : env.MakeSSTBatcher w.batcherCalls with
    | some err =>
        refine ⟨[], [], ?_, by simp, Or.inl rfl, ?_⟩
        · simp [MakeSSTBatcher, hmk, cleanupFn.run, World.closeDirs, World.Release,
            ReadAsOfIterator.Close, World.emit, batcherEvents, hv, cleanupEvents, addEvents]
        · simp [MakeSSTBatcher, hmk]
    | none =>
        obtain ⟨subs, closing, h1, h2, h3, h4⟩ :=
          ingest_trace env kr (SSTBatcher env) [] sst.entry sst.iter
            { w with batcherCalls := w.batcherCalls + 1,
                     trace := w.trace ++ [Event.makeSSTBatcher { WallTime := 0, Logical := 0 }
                       (writeAtBatchTS env kr sst.entry)] }
        refine ⟨subs, closing, ?_, h2, Or.inr h3, ?_⟩
        · simp only [MakeSSTBatcher, hmk, h1]
          simp [cleanupFn.run, World.closeDirs, World.Release, ReadAsOfIterator.Close, World.emit,
            batcherEvents, hv, cleanupEvents]
        · simpa only [MakeSSTBatcher, hmk] using h4

/-! ## Progress updates -/

/-- A call of `openSSTs` posts no progress update. -/
theorem openSSTs_progress (env : Env) (spec : RestoreDataSpec) (entry : RestoreSpanEntry)
    (resume : Option resumeEntry) (w : World) :
    progressUpdates (openSSTs env spec entry resume w).2.trace = progressUpdates w.trace := by
  obtain ⟨evs, h1, h2⟩ := openSSTs_trace (fun e => ∀ p, e ≠ Event.progress p)
    (by intro a p; simp) (by intro a p; simp) (by intro a p; simp) env spec entry resume w
  rw [h1, progressUpdates_append, progressUpdates_eq_nil evs h2, List.append_nil]

/-- A call of `processRestoreSpanEntry` posts no progress update. -/
theorem processRestoreSpanEntry_progress (env : Env) (spec : RestoreDataSpec) (kr : KeyRewriter)
    (sst : mergedSST) (w : World) :
    progressUpdates (processRestoreSpanEntry env spec kr sst w).2.trace =
      progressUpdates w.trace := by
  obtain ⟨subs, closing, h1, -, h3, -⟩ := processRestoreSpanEntry_trace env spec kr sst w
  rw [h1, progressUpdates_append]
  have : progressUpdates (batcherEvents env spec kr sst.entry ++ (addEvents subs ++ closing) ++
      cleanupEvents sst.cleanup) = [] := by
    apply progressUpdates_eq_nil
    intro e he p
    simp only [List.mem_append, batcherEvents, addEvents, cleanupEvents, List.mem_map,
      List.mem_cons] at he
    rcases he with (he | he | he) | he
    · split at he <;> simp at he
      subst he; simp
    · obtain ⟨kv, -, rfl⟩ := he; simp
    · rcases h3 with rfl | rfl | rfl <;> simp at he
      · subst he; simp
      · rcases he with rfl | rfl <;> simp
    · rcases he with rfl | ⟨a, -, rfl⟩ | ⟨d, -, rfl⟩ <;> simp
  rw [this, List.append_nil]

/-- The progress updates of a run of the inner loop of a worker that reaches
its `break`: one update for each iterator opened, in order, with the
`completeUpTo` of the iterator; the iterators before the last one carry the
sentinel, the last one carries the restore time. -/
theorem workerLoop_progress (env : Env) (spec : RestoreDataSpec) (kr : KeyRewriter)
    (entry : RestoreSpanEntry) :
    ∀ (fuel : Nat) (resume : Option resumeEntry) (w : World),
      (workerLoop env spec kr entry fuel resume w).1 = WorkerResult.finished →
      ∃ (early : List RestoreProgress) (last : RestoreProgress),
        progressUpdates (workerLoop env spec kr entry fuel resume w).2.2.trace =
          progressUpdates w.trace ++ (early ++ [last]) ∧
        (∀ p ∈ early, p.CompleteUpTo = { WallTime := 0, Logical := 1 }) ∧
        last.CompleteUpTo = spec.RestoreTime ∧
        (workerLoop env spec kr entry fuel resume w).2.1.length = early.length + 1 := by
  intro fuel
  induction fuel with
  | zero => intro resume w h; simp [workerLoop] at h
  | succ fuel ih =>
      intro resume w
      unfold workerLoop
      have hfr1 := openSSTs_progress env spec entry resume w
      rcases hopen : openSSTs env spec entry resume w with ⟨r, w1⟩
      rw [hopen] at hfr1
      cases r with
      | error err => simp
      | ok p =>
          obtain ⟨sstIter, res1⟩ := p
          obtain ⟨k, -, -, -, -, -, hdn, hnot⟩ :=
            openSSTs_ok env spec entry resume w sstIter res1 (by rw [hopen])
          dsimp only
          have hfr2 := processRestoreSpanEntry_progress env spec kr sstIter w1
          rcases hproc : processRestoreSpanEntry env spec kr sstIter w1 with ⟨⟨summary, e⟩, w2⟩
          rw [hproc] at hfr2
          simp only at hfr1 hfr2
          cases e with
          | some err => simp
          | none =>
              simp only
              by_cases hctx : env.ctxDone w2.selectCalls = true
              · simp [hctx]
              · by_cases hdone : res1.done = true
                · simp only [hctx, hdone, if_true, if_false, Bool.false_eq_true]
                  intro _
                  refine ⟨[], makeProgressUpdate env summary sstIter.entry spec.PKIDs
                    sstIter.completeUpTo, ?_, by simp, ?_, by simp⟩
                  · simp [World.emit, progressUpdates_append, progressUpdates, hfr2, hfr1]
                  · simp [makeProgressUpdate, (hdn hdone).2]
                · simp only [hctx, hdone, if_false, Bool.false_eq_true]
                  intro hfin
                  obtain ⟨early, last, h1, h2, h3, h4⟩ := ih (some res1) _ hfin
                  refine ⟨makeProgressUpdate env summary sstIter.entry spec.PKIDs
                    sstIter.completeUpTo :: early, last, ?_, ?_, h3, ?_⟩
                  · rw [h1]
                    simp [World.emit, progressUpdates_append, progressUpdates, hfr2, hfr1]
                  · intro p hp
                    rcases List.mem_cons.mp hp with rfl | hp
                    · simp [makeProgressUpdate, (hnot (by simpa using hdone)).2.2]
                    · exact h2 p hp
                  · simp [h4]

/-! ## Coverage of the files and the terminal progress update -/

/-- C3: in an error-free run of the inner loop of a worker on an entry, which
calls `openSSTs` first without a cursor and then with the cursor of the call
before, up to the first cursor that is done, the file lists of the successive
iterators concatenate to exactly `entry.Files`: every file is covered by exactly
one iterator, without overlap and without gap. The loop ends within
`len(entry.Files) + 1` turns. -/
theorem worker_iterators_cover_files (env : Env) (spec : RestoreDataSpec) (kr : KeyRewriter)
    (entry : RestoreSpanEntry) (fuel : Nat) (w : World) :
    (entry.Files.length < fuel →
      (workerLoop env spec kr entry fuel none w).1 ≠ WorkerResult.running) ∧
    ((workerLoop env spec kr entry fuel none w).1 = WorkerResult.finished →
      (workerLoop env spec kr entry fuel none w).2.1.flatMap (fun x => x.1.files) =
        entry.Files) := by
  constructor
  · intro hfuel
    exact workerLoop_terminates env spec kr entry fuel none w (by simpa [startIdx] using hfuel)
  · intro h
    simpa [startIdx] using workerLoop_files env spec kr entry fuel none w h

/-- C3 at a sample entry of three files that the quota pool splits into three
iterators. -/
theorem worker_iterators_cover_files_witness :
    (workerLoop demoEnv demoSpec demoKr demoEntry 4 none World.init).1 ≠ WorkerResult.running ∧
    (workerLoop demoEnv demoSpec demoKr demoEntry 4 none World.init).2.1.flatMap
      (fun x => x.1.files) = demoEntry.Files :=
  ⟨(worker_iterators_cover_files demoEnv demoSpec demoKr demoEntry 4 World.init).1 (by decide),
    (worker_iterators_cover_files demoEnv demoSpec demoKr demoEntry 4 World.init).2 (by decide)⟩

/-- C4, as amended: when the restore time is not the sentinel
`{WallTime 0, Logical 1}`, the progress updates an error-free run of a worker
posts for an entry are some updates that carry the sentinel, hence not the
restore time, followed by one last update that carries the restore time; there
is one update for each iterator, and the iterators together cover every file of
the entry. -/
theorem progress_terminal_update (env : Env) (spec : RestoreDataSpec) (kr : KeyRewriter)
    (entry : RestoreSpanEntry) (fuel : Nat) (w : World)
    (hRT : spec.RestoreTime ≠ { WallTime := 0, Logical := 1 })
    (h : (workerLoop env spec kr entry fuel none w).1 = WorkerResult.finished) :
    ∃ (early : List RestoreProgress) (last : RestoreProgress),
      progressUpdates (workerLoop env spec kr entry fuel none w).2.2.trace =
        progressUpdates w.trace ++ (early ++ [last]) ∧
      last.CompleteUpTo = spec.RestoreTime ∧
      (∀ p ∈ early, p.CompleteUpTo ≠ spec.RestoreTime) ∧
      ((early ++ [last]).filter fun p => decide (p.CompleteUpTo = spec.RestoreTime)).length = 1 ∧
      (workerLoop env spec kr entry fuel none w).2.1.length = early.length + 1 ∧
      (workerLoop env spec kr entry fuel none w).2.1.flatMap (fun x => x.1.files) =
        entry.Files := by
  obtain ⟨early, last, h1, h2, h3, h4⟩ := workerLoop_progress env spec kr entry fuel none w h
  have hne : ∀ p ∈ early, p.CompleteUpTo ≠ spec.RestoreTime := by
    intro p hp heq
    exact hRT (heq ▸ h2 p hp)
  refine ⟨early, last, h1, h3, hne, ?_, h4, ?_⟩
  · have : early.filter (fun p => decide (p.CompleteUpTo = spec.RestoreTime)) = [] := by
      rw [List.filter_eq_nil_iff]
      intro p hp
      simpa using hne p hp
    simp [List.filter_append, this, h3]
  · simpa [startIdx] using workerLoop_files env spec kr entry fuel none w h

/-- C4 as amended, at a sample entry of three files that the quota pool splits
into three iterators, restored as of wall time 100. -/
theorem progress_terminal_update_witness :
    ∃ (early : List RestoreProgress) (last : RestoreProgress),
      progressUpdates (workerLoop demoEnv demoSpec demoKr demoEntry 4 none World.init).2.2.trace =
        progressUpdates World.init.trace ++ (early ++ [last]) ∧
      last.CompleteUpTo = demoSpec.RestoreTime ∧
      (∀ p ∈ early, p.CompleteUpTo ≠ demoSpec.RestoreTime) ∧
      ((early ++ [last]).filter
        fun p => decide (p.CompleteUpTo = demoSpec.RestoreTime)).length = 1 ∧
      (workerLoop demoEnv demoSpec demoKr demoEntry 4 none World.init).2.1.length =
        early.length + 1 ∧
      (workerLoop demoEnv demoSpec demoKr demoEntry 4 none World.init).2.1.flatMap
        (fun x => x.1.files) = demoEntry.Files :=
  progress_terminal_update demoEnv demoSpec demoKr demoEntry 4 World.init (by decide) (by decide)

/-- C4 fails when the restore time is the sentinel: for a restore as of
`{WallTime 0, Logical 1}`, the error-free run on the sample entry of three files,
split into three iterators, posts three updates that carry the restore time. -/
theorem progress_terminal_update_counterexample :
    (workerLoop demoEnv sentinelSpec demoKr demoEntry 4 none World.init).1 =
      WorkerResult.finished ∧
    ((progressUpdates (workerLoop demoEnv sentinelSpec demoKr demoEntry 4 none
        World.init).2.2.trace).filter
      fun p => decide (p.CompleteUpTo = sentinelSpec.RestoreTime)).length = 3 := by
  decide

/-! ## The ingestion loop -/

/-- An expected submission comes from a position in front of the end key. -/
theorem mem_expectedSubmissions (env : Env) (kr : KeyRewriter) (endKey : Bytes)
    (ps : List IterPos) (kv : MVCCKey × Value)
    (h : kv ∈ expectedSubmissions env kr endKey ps) :
    ∃ p ∈ ps, Bytes.Compare p.key.Key endKey < 0 ∧ rewritten env kr p = some kv := by
  unfold expectedSubmissions at h
  obtain ⟨p, hp, hr⟩ := List.mem_filterMap.mp h
  have hmem : p ∈ ps := (List.takeWhile_sublist _).subset hp
  have := List.mem_takeWhile_imp hp
  exact ⟨p, hmem, by simpa using this, hr⟩

/-- What a rewritten position is made of. -/
theorem rewritten_eq_some (env : Env) (kr : KeyRewriter) (p : IterPos) (kv : MVCCKey × Value)
    (h : rewritten env kr p = some kv) :
    p.validErr = none ∧ ∃ v, p.value = .ok v ∧
      kr.RewriteKey p.key.Key p.key.Timestamp.WallTime = .ok (kv.1.Key, true) ∧
      kv.1.Timestamp = p.key.Timestamp ∧
      kv.2 = (v.ClearChecksum).InitChecksum env kv.1.Key := by
  unfold rewritten at h
  split at h
  · rename_i v hv hval
    split at h
    · rename_i newKey hrw
      simp only [Option.some.injEq] at h
      subst h
      exact ⟨hv, v, hval, hrw, rfl, rfl⟩
    · simp at h
  · simp at h

/-- The submissions of a call of `processRestoreSpanEntry` are a prefix of the
expected ones, and all of them when the call returns no error. -/
theorem processRestoreSpanEntry_submissions (env : Env) (spec : RestoreDataSpec)
    (kr : KeyRewriter) (sst : mergedSST) (w : World) :
    submissions ((processRestoreSpanEntry env spec kr sst w).2.since w) <+:
      expectedSubmissions env kr sst.entry.Span.EndKey sst.positions ∧
    ((processRestoreSpanEntry env spec kr sst w).1.2 = none →
      submissions ((processRestoreSpanEntry env spec kr sst w).2.since w) =
        expectedSubmissions env kr sst.entry.Span.EndKey sst.positions) := by
  obtain ⟨subs, closing, h1, h2, h3, h4⟩ := processRestoreSpanEntry_trace env spec kr sst w
  have hs : submissions ((processRestoreSpanEntry env spec kr sst w).2.since w) = subs := by
    unfold World.since
    rw [h1, List.drop_left]
    simp only [submissions_append, submissions_addEvents]
    have e1 : submissions (batcherEvents env spec kr sst.entry) = [] := by
      unfold batcherEvents; split <;> rfl
    have e2 : submissions closing = [] := by
      rcases h3 with rfl | rfl | rfl <;> rfl
    have e3 : submissions (cleanupEvents sst.cleanup) = [] := by
      apply submissions_eq_nil
      intro e he k v
      simp only [cleanupEvents, List.mem_cons, List.mem_append, List.mem_map] at he
      rcases he with rfl | ⟨a, -, rfl⟩ | ⟨d, -, rfl⟩ <;> simp
    simp [e1, e2, e3]
  rw [hs]
  exact ⟨h2, fun hn => (h4 hn).1⟩

/-- `bytes.Compare` with its arguments exchanged. -/
theorem Bytes.Compare_swap (a : Bytes) : ∀ b : Bytes, Bytes.Compare b a = -Bytes.Compare a b := by
  induction a with
  | nil => intro b; cases b <;> simp [Bytes.Compare]
  | cons x xs ih =>
      intro b
      cases b with
      | nil => simp [Bytes.Compare]
      | cons y ys =>
          simp only [Bytes.Compare]
          by_cases h1 : x < y
          · have h2 : ¬ y < x := by omega
            simp [h1, h2]
          · by_cases h2 : y < x
            · simp [h1, h2]
            · simp [h1, h2, ih ys]

/-- `hlc.Timestamp`: a timestamp that is at most `s` is not greater than `s`. -/
theorem Timestamp.not_Less_of_LessEq (t s : Timestamp) (h : t.LessEq s = true) :
    s.Less t = false := by
  simp only [Timestamp.LessEq, Timestamp.Less, Bool.or_eq_true, Bool.and_eq_true,
    decide_eq_true_eq, beq_iff_eq, Bool.or_eq_false_iff, Bool.and_eq_false_iff,
    decide_eq_false_iff_not] at *
  constructor
  · omega
  · by_cases hw : s.WallTime = t.WallTime
    · right; omega
    · left; simpa using hw

/-- C5 fails on an error path: with every reservation granted and the storage
failing to open, `openSSTs` on the sample entry returns an error, and the
reservation acquired for the first file is never released. -/
theorem openSSTs_error_keeps_reservation :
    (∃ err, (openSSTs storageFailEnv demoSpec demoEntry none World.init).1 = .error err) ∧
    (openSSTs storageFailEnv demoSpec demoEntry none World.init).2.trace =
      [Event.acquired { id := 0, bytes := 5 * 2 ^ 20 }] :=
  ⟨⟨Err.External 1, rfl⟩, by decide⟩

/-- C6: when `processRestoreSpanEntry` returns no error, what it does to the
bulk-writer is exactly: one `AddMVCCKey` for each key the iterator yields from
`SeekGE(span.Key)` on, advanced with `NextKey`, up to but not including the first
key that is not less than `span.EndKey`, rewritten with its key bytes and wall
time, for the keys the rewriter matches only, in the order of the iteration;
then one `Flush`, and the close of the writer. Nothing else is recorded but the
construction of the writer before and the cleanup of the iterator after. -/
theorem processRestoreSpanEntry_submits (env : Env) (spec : RestoreDataSpec)
    (kr : KeyRewriter) (sst : mergedSST) (w : World)
    (h : (processRestoreSpanEntry env spec kr sst w).1.2 = none) :
    (processRestoreSpanEntry env spec kr sst w).2.trace =
      w.trace ++ (batcherEvents env spec kr sst.entry ++
        (addEvents (expectedSubmissions env kr sst.entry.Span.EndKey sst.positions) ++
          [Event.flush, Event.batcherClose]) ++
        cleanupEvents sst.cleanup) := by
  obtain ⟨subs, closing, h1, -, -, h4⟩ := processRestoreSpanEntry_trace env spec kr sst w
  obtain ⟨rfl, rfl⟩ := h4 h
  exact h1

/-- C6 at a sample iterator of six keys, five of them in the span, with a
rewriter that matches three of these: three submissions, one flush. -/
theorem processRestoreSpanEntry_submits_witness :
    (processRestoreSpanEntry demoEnv demoSpec oddKr demoSST World.init).2.trace =
      World.init.trace ++ (batcherEvents demoEnv demoSpec oddKr demoSST.entry ++
        (addEvents (expectedSubmissions demoEnv oddKr demoSST.entry.Span.EndKey
            demoSST.positions) ++
          [Event.flush, Event.batcherClose]) ++
        cleanupEvents demoSST.cleanup) :=
  processRestoreSpanEntry_submits demoEnv demoSpec oddKr demoSST World.init (by decide)

/-- C7, as amended: every key `processRestoreSpanEntry` submits is the rewrite of
a key `k` the iterator yielded with `k < span.EndKey`, and with `span.Key <= k`
when the iterator yields no key less than the key it was asked to seek; the
submitted key is the rewritten one and is not bound to the span. -/
theorem submitted_key_source_in_span (env : Env) (spec : RestoreDataSpec)
    (kr : KeyRewriter) (sst : mergedSST) (w : World) (kv : MVCCKey × Value)
    (h : kv ∈ submissions ((processRestoreSpanEntry env spec kr sst w).2.since w)) :
    ∃ p ∈ sst.positions,
      kr.RewriteKey p.key.Key p.key.Timestamp.WallTime = .ok (kv.1.Key, true) ∧
      Bytes.Compare p.key.Key sst.entry.Span.EndKey < 0 ∧
      ((∀ q ∈ sst.positions,
          q.key.Less { Key := sst.entry.Span.Key, Timestamp := { WallTime := 0, Logical := 0 } } =
            false) →
        Bytes.Compare sst.entry.Span.Key p.key.Key ≤ 0) := by
  have hmem := (processRestoreSpanEntry_submissions env spec kr sst w).1.subset h
  obtain ⟨p, hp, hlt, hr⟩ := mem_expectedSubmissions env kr _ _ kv hmem
  obtain ⟨-, v, -, hrw, -, -⟩ := rewritten_eq_some env kr p kv hr
  refine ⟨p, hp, hrw, hlt, ?_⟩
  intro hge
  have := hge p hp
  rw [MVCCKey.Less_noTimestamp] at this
  have h2 : ¬ Bytes.Compare p.key.Key sst.entry.Span.Key < 0 := by simpa using this
  rw [Bytes.Compare_swap] at h2
  omega

/-- C7 as amended, at the sample iterator: the submitted key `[21]` is the
rewrite of the key `[1]` of the span. -/
theorem submitted_key_source_in_span_witness :
    ∃ p ∈ demoSST.positions,
      oddKr.RewriteKey p.key.Key p.key.Timestamp.WallTime = .ok ([21], true) ∧
      Bytes.Compare p.key.Key demoSST.entry.Span.EndKey < 0 ∧
      ((∀ q ∈ demoSST.positions,
          q.key.Less
            { Key := demoSST.entry.Span.Key, Timestamp := { WallTime := 0, Logical := 0 } } =
            false) →
        Bytes.Compare demoSST.entry.Span.Key p.key.Key ≤ 0) :=
  submitted_key_source_in_span demoEnv demoSpec oddKr demoSST World.init
    (⟨[21], ⟨7, 0⟩⟩, ⟨23, [1]⟩) (by decide)

/-- C7 fails for the submitted keys themselves: on the sample iterator, whose
span is `[[0], [9])`, the rewriter moves the keys of the span behind the span,
and the submitted keys are not less than `span.EndKey`. -/
theorem submitted_key_source_in_span_counterexample :
    (processRestoreSpanEntry demoEnv demoSpec oddKr demoSST World.init).1.2 = none ∧
    ¬ ∀ kv ∈ submissions
        ((processRestoreSpanEntry demoEnv demoSpec oddKr demoSST World.init).2.since World.init),
      Bytes.Compare demoSST.entry.Span.Key kv.1.Key ≤ 0 ∧
        Bytes.Compare kv.1.Key demoSST.entry.Span.EndKey < 0 := by
  decide

/-- A position without error that a read-as-of iterator shows has a timestamp
not above the as-of time, and is a position of the iterator below. -/
theorem mem_readAsOf (asOf : Timestamp) (ps : List IterPos) (p : IterPos)
    (h : p ∈ readAsOf asOf ps) (hv : p.validErr = none) :
    p ∈ ps ∧ p.key.Timestamp.LessEq asOf = true := by
  unfold readAsOf at h
  obtain ⟨hmem, hshown⟩ := List.mem_filter.mp h
  refine ⟨hmem, ?_⟩
  simp only [shownAsOf, hv, Option.isSome_none, Bool.false_or, Bool.and_eq_true] at hshown
  exact hshown.1

/-- C8: for an iterator built by `getIter` of `openSSTs`, which reads the
merged files as of `RestoreTime`, every key `processRestoreSpanEntry` submits
has a timestamp that is not greater than `RestoreTime`; it is the timestamp of
the key of the iterator below that it was rewritten from, since rewriting
replaces the key bytes only. -/
theorem submitted_timestamp_bounded (env : Env) (spec : RestoreDataSpec) (kr : KeyRewriter)
    (entry : RestoreSpanEntry) (iter : SimpleMVCCIterator) (dirsToSend : List ExternalStorage)
    (iterAllocs : List IntAlloc) (completeUpTo : Timestamp) (w : World) (kv : MVCCKey × Value)
    (h : kv ∈ submissions ((processRestoreSpanEntry env spec kr
      (getIter spec entry iter dirsToSend iterAllocs completeUpTo).1 w).2.since w)) :
    kv.1.Timestamp.LessEq spec.RestoreTime = true ∧
    spec.RestoreTime.Less kv.1.Timestamp = false ∧
    ∃ p ∈ iter.SeekGE { Key := entry.Span.Key, Timestamp := { WallTime := 0, Logical := 0 } },
      kr.RewriteKey p.key.Key p.key.Timestamp.WallTime = .ok (kv.1.Key, true) ∧
      kv.1.Timestamp = p.key.Timestamp := by
  have hmem := (processRestoreSpanEntry_submissions env spec kr _ w).1.subset h
  obtain ⟨p, hp, -, hr⟩ := mem_expectedSubmissions env kr _ _ kv hmem
  obtain ⟨hv, v, -, hrw, hts, -⟩ := rewritten_eq_some env kr p kv hr
  have hp2 : p ∈ readAsOf spec.RestoreTime
      (iter.SeekGE { Key := entry.Span.Key, Timestamp := { WallTime := 0, Logical := 0 } }) := hp
  obtain ⟨hsrc, hle⟩ := mem_readAsOf _ _ p hp2 hv
  rw [← hts] at hle
  exact ⟨hle, Timestamp.not_Less_of_LessEq _ _ hle, p, hsrc, hrw, hts⟩

/-- C8 at a sample file that holds the key `[1]` at the wall times 200 and 50,
restored as of wall time 100: the version at 50 is submitted. -/
theorem submitted_timestamp_bounded_witness :
    (⟨50, 0⟩ : Timestamp).LessEq demoSpec.RestoreTime = true ∧
    demoSpec.RestoreTime.Less ⟨50, 0⟩ = false ∧
    ∃ p ∈ (externalSSTIter asOfEnv [⟨⟨0, 0⟩, "a"⟩]).SeekGE
        { Key := demoEntry.Span.Key, Timestamp := { WallTime := 0, Logical := 0 } },
      demoKr.RewriteKey p.key.Key p.key.Timestamp.WallTime = .ok ([1], true) ∧
      (⟨50, 0⟩ : Timestamp) = p.key.Timestamp :=
  submitted_timestamp_bounded asOfEnv demoSpec demoKr demoEntry
    (externalSSTIter asOfEnv [⟨⟨0, 0⟩, "a"⟩]) [] [] ⟨100, 0⟩ World.init
    (⟨[1], ⟨50, 0⟩⟩, ⟨10, [8]⟩) (by decide)

/-- C9, as amended: the value `processRestoreSpanEntry` submits for a matched
key is the source value with its checksum cleared and computed against the
rewritten key: its payload is the payload of the source value, and it verifies
against the submitted key. It verifies against the source key exactly when the
checksum computed against the rewritten key is 0 or is the checksum computed
against the source key. -/
theorem submitted_value_checksum (env : Env) (spec : RestoreDataSpec)
    (kr : KeyRewriter) (sst : mergedSST) (w : World) (kv : MVCCKey × Value)
    (h : kv ∈ submissions ((processRestoreSpanEntry env spec kr sst w).2.since w)) :
    ∃ p ∈ sst.positions, ∃ v,
      p.value = .ok v ∧
      kr.RewriteKey p.key.Key p.key.Timestamp.WallTime = .ok (kv.1.Key, true) ∧
      kv.2 = (v.ClearChecksum).InitChecksum env kv.1.Key ∧
      kv.2.payload = v.payload ∧
      kv.2.Verify env kv.1.Key = true ∧
      (kv.2.Verify env p.key.Key = true ↔
        (env.computeChecksum kv.1.Key v.payload = 0 ∨
          env.computeChecksum kv.1.Key v.payload = env.computeChecksum p.key.Key v.payload)) := by
  have hmem := (processRestoreSpanEntry_submissions env spec kr sst w).1.subset h
  obtain ⟨p, hp, -, hr⟩ := mem_expectedSubmissions env kr _ _ kv hmem
  obtain ⟨-, v, hval, hrw, -, hkv⟩ := rewritten_eq_some env kr p kv hr
  refine ⟨p, hp, v, hval, hrw, hkv, ?_, ?_, ?_⟩
  · rw [hkv]; rfl
  · rw [hkv]; simp [Value.Verify, Value.InitChecksum, Value.ClearChecksum]
  · rw [hkv]; simp [Value.Verify, Value.InitChecksum, Value.ClearChecksum]

/-- C9 as amended, at the sample iterator: the value submitted under the
rewritten key `[21]`. -/
theorem submitted_value_checksum_witness :
    ∃ p ∈ demoSST.positions, ∃ v,
      p.value = .ok v ∧
      oddKr.RewriteKey p.key.Key p.key.Timestamp.WallTime = .ok ([21], true) ∧
      (⟨23, [1]⟩ : Value) = (v.ClearChecksum).InitChecksum demoEnv [21] ∧
      (⟨23, [1]⟩ : Value).payload = v.payload ∧
      (⟨23, [1]⟩ : Value).Verify demoEnv [21] = true ∧
      ((⟨23, [1]⟩ : Value).Verify demoEnv p.key.Key = true ↔
        (demoEnv.computeChecksum [21] v.payload = 0 ∨
          demoEnv.computeChecksum [21] v.payload = demoEnv.computeChecksum p.key.Key v.payload)) :=
  submitted_value_checksum demoEnv demoSpec oddKr demoSST World.init
    (⟨[21], ⟨7, 0⟩⟩, ⟨23, [1]⟩) (by decide)

/-- C9 fails for a rewriter that leaves keys as they are: on the sample
iterator every submitted value comes from a matched source key and verifies
against that source key. -/
theorem submitted_value_checksum_counterexample :
    submissions
        ((processRestoreSpanEntry demoEnv demoSpec demoKr demoSST World.init).2.since
          World.init) ≠ [] ∧
    ∀ kv ∈ submissions
        ((processRestoreSpanEntry demoEnv demoSpec demoKr demoSST World.init).2.since World.init),
      ∃ p ∈ demoSST.positions,
        rewritten demoEnv demoKr p = some kv ∧ kv.2.Verify demoEnv p.key.Key = true := by
  decide

/-! ## The order of the merged iterator -/

/-- `bytes.Compare` answers -1, 0 or 1. -/
theorem Bytes.Compare_range (a : Bytes) :
    ∀ b : Bytes, Bytes.Compare a b = -1 ∨ Bytes.Compare a b = 0 ∨ Bytes.Compare a b = 1 := by
  induction a with
  | nil => intro b; cases b <;> simp [Bytes.Compare]
  | cons x xs ih =>
      intro b
      cases b with
      | nil => simp [Bytes.Compare]
      | cons y ys =>
          simp only [Bytes.Compare]
          split
          · simp
          · split
            · simp
            · exact ih ys

/-- `bytes.Compare` answers 0 on equal slices only. -/
theorem Bytes.Compare_eq_zero (a : Bytes) : ∀ b : Bytes, Bytes.Compare a b = 0 → a = b := by
  induction a with
  | nil => intro b h; cases b <;> simp_all [Bytes.Compare]
  | cons x xs ih =>
      intro b h
      cases b with
      | nil => simp [Bytes.Compare] at h
      | cons y ys =>
          simp only [Bytes.Compare] at h
          split at h
          · simp at h
          · split at h
            · simp at h
            · have := ih ys h
              have hxy : x = y := by omega
              rw [this, hxy]

/-- The order of `bytes.Compare` is transitive. -/
theorem Bytes.Compare_lt_trans (a : Bytes) :
    ∀ b c : Bytes, Bytes.Compare a b < 0 → Bytes.Compare b c < 0 → Bytes.Compare a c < 0 := by
  induction a with
  | nil =>
      intro b c h1 h2
      cases b with
      | nil => simp [Bytes.Compare] at h1
      | cons y ys =>
          cases c with
          | nil => simp [Bytes.Compare] at h2
          | cons z zs => simp [Bytes.Compare]
  | cons x xs ih =>
      intro b c h1 h2
      cases b with
      | nil => simp [Bytes.Compare] at h1
      | cons y ys =>
          cases c with
          | nil => simp [Bytes.Compare] at h2
          | cons z zs =>
              simp only [Bytes.Compare] at h1 h2 ⊢
              by_cases hxy : x < y
              · by_cases hyz : y < z
                · have : x < z := by omega
                  simp [this]
                · by_cases hzy : z < y
                  · simp [hyz, hzy] at h2
                  · have : x < z := by omega
                    simp [this]
              · by_cases hyx : y < x
                · simp [hxy, hyx] at h1
                · simp only [hxy, hyx, if_false] at h1
                  have hxy2 : x = y := by omega
                  subst hxy2
                  by_cases hxz : x < z
                  · simp [hxz]
                  · by_cases hzx : z < x
                    · simp [hxz, hzx] at h2
                    · simp only [hxz, hzx, if_false] at h2 ⊢
                      exact ih ys zs h1 h2

/-- A key that is not behind a key in front of `c` is in front of `c`. -/
theorem Bytes.Compare_le_lt_trans (a b c : Bytes) (h1 : Bytes.Compare a b ≤ 0)
    (h2 : Bytes.Compare b c < 0) : Bytes.Compare a c < 0 := by
  rcases Bytes.Compare_range a b with h | h | h
  · exact Bytes.Compare_lt_trans a b c (by omega) h2
  · rw [Bytes.Compare_eq_zero a b h]; exact h2
  · omega

/-- `MVCCKey.Less` by cases: the bytes decide, and among equal bytes the
timestamps do. -/
theorem MVCCKey.Less_iff_bytes (k l : MVCCKey) :
    k.Less l = true ↔
      Bytes.Compare k.Key l.Key < 0 ∨
        (Bytes.Compare k.Key l.Key = 0 ∧
          ((k.Timestamp.IsEmpty = true ∧ l.Timestamp.IsEmpty = false) ∨
            (k.Timestamp.IsEmpty = false ∧ l.Timestamp.IsEmpty = false ∧
              l.Timestamp.Less k.Timestamp = true))) := by
  unfold MVCCKey.Less
  by_cases hc : Bytes.Compare k.Key l.Key = 0
  · simp only [hc, ne_eq, not_true_eq_false, if_false, MVCCKey.IsValue, Bool.not_not,
      lt_self_iff_false, true_and, false_or]
    cases hk : k.Timestamp.IsEmpty <;> cases hl : l.Timestamp.IsEmpty <;> simp
  · simp only [ne_eq, hc, not_false_eq_true, if_true, decide_eq_true_eq, false_and, or_false]

theorem Timestamp.IsEmpty_iff (t : Timestamp) :
    t.IsEmpty = true ↔ t.WallTime = 0 ∧ t.Logical = 0 := by
  simp [Timestamp.IsEmpty]

theorem Timestamp.Less_iff_wall (t s : Timestamp) :
    t.Less s = true ↔ t.WallTime < s.WallTime ∨ (t.WallTime = s.WallTime ∧ t.Logical < s.Logical) := by
  simp [Timestamp.Less]

/-- `MVCCKey.Less` never holds both ways. -/
theorem MVCCKey.Less_asymm (k l : MVCCKey) (h1 : k.Less l = true) : l.Less k = false := by
  by_contra h2
  have h2 : l.Less k = true := by simpa using h2
  rw [MVCCKey.Less_iff_bytes] at h1 h2
  have hs := Bytes.Compare_swap k.Key l.Key
  rcases h1 with h1 | ⟨h1, t1⟩ <;> rcases h2 with h2 | ⟨h2, t2⟩
  · omega
  · omega
  · omega
  · simp only [← Bool.not_eq_true, Timestamp.IsEmpty_iff, Timestamp.Less_iff_wall] at t1 t2
    omega

/-- The order of the merged iterator is total. -/
theorem mvccLE_total (a b : MVCCKeyValue) : mvccLE a b ∨ mvccLE b a := by
  unfold mvccLE
  by_cases h : b.Key.Less a.Key = true
  · right; exact MVCCKey.Less_asymm _ _ h
  · left; simpa using h

/-- The order of the merged iterator is transitive. -/
theorem mvccLE_trans (a b c : MVCCKeyValue) (h1 : mvccLE a b) (h2 : mvccLE b c) : mvccLE a c := by
  unfold mvccLE at *
  by_contra h3
  have h3 : c.Key.Less a.Key = true := by simpa using h3
  have n1 : ¬ b.Key.Less a.Key = true := by simp [h1]
  have n2 : ¬ c.Key.Less b.Key = true := by simp [h2]
  rw [MVCCKey.Less_iff_bytes] at h3 n1 n2
  have s1 := Bytes.Compare_swap b.Key.Key c.Key.Key
  have s2 := Bytes.Compare_swap a.Key.Key b.Key.Key
  have hcb : 0 ≤ Bytes.Compare c.Key.Key b.Key.Key := by
    by_contra hlt; exact n2 (Or.inl (by omega))
  have hba : 0 ≤ Bytes.Compare b.Key.Key a.Key.Key := by
    by_contra hlt; exact n1 (Or.inl (by omega))
  rcases h3 with h3 | ⟨h3, t3⟩
  · have := Bytes.Compare_le_lt_trans b.Key.Key c.Key.Key a.Key.Key (by omega) h3
    omega
  · have hca := Bytes.Compare_eq_zero _ _ h3
    rw [hca] at hcb s1
    have hz : Bytes.Compare b.Key.Key a.Key.Key = 0 := by omega
    have hz2 : Bytes.Compare c.Key.Key b.Key.Key = 0 := by rw [hca]; omega
    have m1 : ¬ ((b.Key.Timestamp.IsEmpty = true ∧ a.Key.Timestamp.IsEmpty = false) ∨
        (b.Key.Timestamp.IsEmpty = false ∧ a.Key.Timestamp.IsEmpty = false ∧
          a.Key.Timestamp.Less b.Key.Timestamp = true)) := fun h => n1 (Or.inr ⟨hz, h⟩)
    have m2 : ¬ ((c.Key.Timestamp.IsEmpty = true ∧ b.Key.Timestamp.IsEmpty = false) ∨
        (c.Key.Timestamp.IsEmpty = false ∧ b.Key.Timestamp.IsEmpty = false ∧
          b.Key.Timestamp.Less c.Key.Timestamp = true)) := fun h => n2 (Or.inr ⟨hz2, h⟩)
    simp only [← Bool.not_eq_true, Timestamp.IsEmpty_iff, Timestamp.Less_iff_wall] at t3 m1 m2
    omega

/-- The stored keys of a merged iterator are in the order of their bytes. -/
theorem mergedKVs_sorted (env : Env) (files : List RestoreFileSpec) :
    (mergedKVs env files).Pairwise fun a b => Bytes.Compare a.Key.Key b.Key.Key ≤ 0 := by
  have h := @List.sorted_insertionSort _ mvccLE _ ⟨mvccLE_total⟩ ⟨mvccLE_trans⟩
    (files.flatMap env.sst)
  refine List.Pairwise.imp ?_ h
  intro a b hab
  unfold mvccLE at hab
  have n1 : ¬ b.Key.Less a.Key = true := by simp [hab]
  rw [MVCCKey.Less_iff_bytes] at n1
  have s := Bytes.Compare_swap a.Key.Key b.Key.Key
  by_contra hgt
  exact n1 (Or.inl (by omega))

/-- The stored keys of a merged iterator are the stored keys of its files. -/
theorem mergedKVs_perm (env : Env) (files : List RestoreFileSpec) :
    (mergedKVs env files).Perm (files.flatMap env.sst) :=
  List.perm_insertionSort _ _

/-! ## One pass and split passes -/

/-- On a list in an order that `p` is closed downwards in, `takeWhile p` keeps
what `filter p` keeps. -/
theorem takeWhile_eq_filter_of_pairwise {α : Type} (R : α → α → Prop) (p : α → Bool)
    (hmono : ∀ a b, R a b → p b = true → p a = true) :
    ∀ l : List α, l.Pairwise R → l.takeWhile p = l.filter p := by
  intro l
  induction l with
  | nil => intro _; rfl
  | cons a l ih =>
      intro h
      obtain ⟨h1, h2⟩ := List.pairwise_cons.mp h
      by_cases hp : p a = true
      · simp [List.takeWhile_cons, List.filter_cons, hp, ih h2]
      · have hnil : l.filter p = [] := by
          rw [List.filter_eq_nil_iff]
          intro b hb hpb
          exact hp (hmono a b (h1 b hb) hpb)
        simp [List.takeWhile_cons, List.filter_cons, hp, hnil]

/-- A filter by a stronger property keeps a sublist. -/
theorem filter_sublist_filter_of_imp {α : Type} (p q : α → Bool) :
    ∀ l : List α, (∀ x ∈ l, p x = true → q x = true) → (l.filter p).Sublist (l.filter q) := by
  intro l
  induction l with
  | nil => intro _; simp
  | cons a l ih =>
      intro h
      have ih2 := ih (fun x hx => h x (List.mem_cons_of_mem _ hx))
      by_cases hp : p a = true
      · have hq := h a (List.mem_cons_self _ _) hp
        simp only [List.filter_cons, hp, hq, if_true]
        exact ih2.cons₂ a
      · by_cases hq : q a = true
        · simp only [List.filter_cons, hp, hq, if_true, if_false, Bool.false_eq_true]
          exact ih2.cons a
        · simp only [List.filter_cons, hp, hq, if_false, Bool.false_eq_true]
          exact ih2

/-- What a read-as-of iterator shows of a position depends on the positions of
the iterator below, not on their order. -/
theorem shownAsOf_perm (asOf : Timestamp) (l1 l2 : List IterPos) (h : l1.Perm l2)
    (p : IterPos) : shownAsOf asOf l1 p = shownAsOf asOf l2 p := by
  unfold shownAsOf
  congr 2
  rw [Bool.eq_iff_iff]
  simp only [List.all_eq_true]
  constructor
  · intro hall q hq; exact hall q (h.mem_iff.mpr hq)
  · intro hall q hq; exact hall q (h.mem_iff.mp hq)

/-- A position shown among more positions is shown among fewer. -/
theorem shownAsOf_of_subset (asOf : Timestamp) (l1 l2 : List IterPos) (h : l1 ⊆ l2)
    (p : IterPos) (hs : shownAsOf asOf l2 p = true) : shownAsOf asOf l1 p = true := by
  unfold shownAsOf at *
  simp only [Bool.or_eq_true, Bool.and_eq_true, List.all_eq_true] at *
  rcases hs with hs | ⟨h1, h2⟩
  · exact Or.inl hs
  · exact Or.inr ⟨h1, fun q hq => h2 q (h hq)⟩

/-- What one pass over the files `g` submits is, up to the order, what is
shown of the stored positions of `g` among themselves. -/
theorem passSubmissions_perm (env : Env) (spec : RestoreDataSpec) (kr : KeyRewriter)
    (entry : RestoreSpanEntry) (g : List RestoreFileSpec) :
    (passSubmissions env spec kr entry g).Perm
      (shownIn env spec kr entry (storedPositions env entry g) (storedPositions env entry g)) := by
  have hperm : (((mergedKVs env g).filter fun kv =>
      !kv.Key.Less { Key := entry.Span.Key, Timestamp := { WallTime := 0, Logical := 0 } }).map
      MVCCKeyValue.pos).Perm (storedPositions env entry g) :=
    ((mergedKVs_perm env g).filter _).map _
  have hsorted : (asOfPositions env spec entry g).Pairwise
      fun p q => Bytes.Compare p.key.Key q.key.Key ≤ 0 := by
    unfold asOfPositions readAsOf
    apply List.Pairwise.filter
    rw [List.pairwise_map]
    exact List.Pairwise.filter _ (mergedKVs_sorted env g)
  unfold passSubmissions expectedSubmissions
  rw [takeWhile_eq_filter_of_pairwise _ _
    (fun a b hab hb => by
      simp only [decide_eq_true_eq] at hb ⊢
      exact Bytes.Compare_le_lt_trans _ _ _ hab hb) _ hsorted]
  unfold shownIn asOfPositions readAsOf
  apply List.Perm.filterMap
  apply List.Perm.filter
  rw [List.filter_congr (fun p _ => shownAsOf_perm spec.RestoreTime _ _ hperm p)]
  exact hperm.filter _

/-- The stored positions of groups of files taken together. -/
theorem storedPositions_flatten (env : Env) (entry : RestoreSpanEntry)
    (groups : List (List RestoreFileSpec)) :
    storedPositions env entry groups.flatten = groups.flatMap (storedPositions env entry) := by
  induction groups with
  | nil => rfl
  | cons g gs ih =>
      rw [List.flatten_cons, List.flatMap_cons, ← ih]
      simp [storedPositions, List.flatMap_append]

/-- What is shown of the groups among more positions is a sublist of what is
shown of each group among its own positions. -/
theorem shownIn_sublist (env : Env) (spec : RestoreDataSpec) (kr : KeyRewriter)
    (entry : RestoreSpanEntry) (among : List IterPos) (groups : List (List RestoreFileSpec))
    (h : ∀ g ∈ groups, storedPositions env entry g ⊆ among) :
    (shownIn env spec kr entry among (groups.flatMap (storedPositions env entry))).Sublist
      (groups.flatMap fun g =>
        shownIn env spec kr entry (storedPositions env entry g) (storedPositions env entry g)) := by
  induction groups with
  | nil => simp [shownIn]
  | cons g gs ih =>
      have ih2 := ih (fun g2 hg2 => h g2 (List.mem_cons_of_mem _ hg2))
      have hg := h g (List.mem_cons_self _ _)
      simp only [List.flatMap_cons]
      have : shownIn env spec kr entry among
          (storedPositions env entry g ++ gs.flatMap (storedPositions env entry)) =
          shownIn env spec kr entry among (storedPositions env entry g) ++
            shownIn env spec kr entry among (gs.flatMap (storedPositions env entry)) := by
        simp [shownIn, List.filter_append, List.filterMap_append]
      rw [this]
      refine List.Sublist.append ?_ ih2
      unfold shownIn
      apply List.Sublist.filterMap
      apply List.Sublist.filter
      exact filter_sublist_filter_of_imp _ _ _
        (fun p _ hp => shownAsOf_of_subset spec.RestoreTime _ _ hg p hp)

/-- When what is shown of each group among its own positions is shown among
the positions `among` too, nothing more is shown of the groups one by one. -/
theorem shownIn_eq (env : Env) (spec : RestoreDataSpec) (kr : KeyRewriter)
    (entry : RestoreSpanEntry) (among : List IterPos) (groups : List (List RestoreFileSpec))
    (h : ∀ g ∈ groups, ∀ p ∈ storedPositions env entry g,
      shownAsOf spec.RestoreTime among p = shownAsOf spec.RestoreTime (storedPositions env entry g) p) :
    shownIn env spec kr entry among (groups.flatMap (storedPositions env entry)) =
      groups.flatMap fun g =>
        shownIn env spec kr entry (storedPositions env entry g) (storedPositions env entry g) := by
  induction groups with
  | nil => simp [shownIn]
  | cons g gs ih =>
      have ih2 := ih (fun g2 hg2 => h g2 (List.mem_cons_of_mem _ hg2))
      have hg := h g (List.mem_cons_self _ _)
      simp only [List.flatMap_cons]
      have : shownIn env spec kr entry among
          (storedPositions env entry g ++ gs.flatMap (storedPositions env entry)) =
          shownIn env spec kr entry among (storedPositions env entry g) ++
            shownIn env spec kr entry among (gs.flatMap (storedPositions env entry)) := by
        simp [shownIn, List.filter_append, List.filterMap_append]
      rw [this, ih2]
      congr 1
      unfold shownIn
      rw [List.filter_congr hg]

theorem storedPositions_subset_flatten (env : Env) (entry : RestoreSpanEntry)
    (groups : List (List RestoreFileSpec)) (g : List RestoreFileSpec) (hg : g ∈ groups) :
    storedPositions env entry g ⊆ storedPositions env entry groups.flatten := by
  rw [storedPositions_flatten]
  intro p hp
  exact List.mem_flatMap.mpr ⟨g, hg, hp⟩

/-- When no key is stored in two groups, a position of a group is shown among
the positions of all the groups exactly when it is shown among the positions of
its group. -/
theorem shownAsOf_keysApart (env : Env) (spec : RestoreDataSpec) (entry : RestoreSpanEntry)
    (groups : List (List RestoreFileSpec)) (hapart : keysApart env groups)
    (g : List RestoreFileSpec) (hg : g ∈ groups) (p : IterPos)
    (hp : p ∈ storedPositions env entry g) :
    shownAsOf spec.RestoreTime (storedPositions env entry groups.flatten) p =
      shownAsOf spec.RestoreTime (storedPositions env entry g) p := by
  rw [Bool.eq_iff_iff]
  constructor
  · exact shownAsOf_of_subset _ _ _ (storedPositions_subset_flatten env entry groups g hg) p
  · intro hs
    unfold shownAsOf at *
    simp only [Bool.or_eq_true, Bool.and_eq_true, List.all_eq_true] at *
    rcases hs with hs | ⟨h1, h2⟩
    · exact Or.inl hs
    · refine Or.inr ⟨h1, ?_⟩
      intro q hq
      by_cases hk : q.key.Key = p.key.Key
      · apply h2 q
        -- `q` is a position of the group of `p`
        simp only [storedPositions, List.mem_map, List.mem_filter] at hp hq ⊢
        obtain ⟨kv, ⟨hkv, -⟩, rfl⟩ := hp
        obtain ⟨kv2, ⟨hkv2, hge2⟩, rfl⟩ := hq
        exact ⟨kv2, ⟨hapart g hg kv hkv kv2 hkv2 hk, hge2⟩, rfl⟩
      · left; left; right
        simpa using hk

/-- What one pass over all the files of groups of files submits is submitted by
the passes over the groups, one pass for each group; when no key is stored in
two groups, the passes over the groups submit nothing more. -/
theorem passSubmissions_split (env : Env) (spec : RestoreDataSpec) (kr : KeyRewriter)
    (entry : RestoreSpanEntry) (groups : List (List RestoreFileSpec)) :
    (passSubmissions env spec kr entry groups.flatten).Subperm
      (groups.flatMap (passSubmissions env spec kr entry)) ∧
    (keysApart env groups →
      (passSubmissions env spec kr entry groups.flatten).Perm
        (groups.flatMap (passSubmissions env spec kr entry))) := by
  have hgroups : (groups.flatMap fun g =>
      shownIn env spec kr entry (storedPositions env entry g) (storedPositions env entry g)).Perm
      (groups.flatMap (passSubmissions env spec kr entry)) :=
    List.Perm.flatMap_left _ (fun g _ => (passSubmissions_perm env spec kr entry g).symm)
  have hall := passSubmissions_perm env spec kr entry groups.flatten
  constructor
  · have hsub := shownIn_sublist env spec kr entry (storedPositions env entry groups.flatten)
      groups (fun g hg => storedPositions_subset_flatten env entry groups g hg)
    rw [← storedPositions_flatten] at hsub
    exact (hall.subperm.trans hsub.subperm).trans hgroups.subperm
  · intro hapart
    have heq := shownIn_eq env spec kr entry (storedPositions env entry groups.flatten) groups
      (fun g hg p hp => shownAsOf_keysApart env spec entry groups hapart g hg p hp)
    rw [← storedPositions_flatten] at heq
    rw [heq] at hall
    exact hall.trans hgroups

/-- A call of `openSSTs` submits nothing to the bulk-writer. -/
theorem openSSTs_submissions (env : Env) (spec : RestoreDataSpec) (entry : RestoreSpanEntry)
    (resume : Option resumeEntry) (w : World) :
    submissions (openSSTs env spec entry resume w).2.trace = submissions w.trace := by
  obtain ⟨evs, h1, h2⟩ := openSSTs_trace (fun e => ∀ k v, e ≠ Event.addMVCCKey k v)
    (by intro a k v; simp) (by intro a k v; simp) (by intro a k v; simp) env spec entry resume w
  rw [h1, submissions_append, submissions_eq_nil evs h2, List.append_nil]

/-- A call of `processRestoreSpanEntry` that returns no error submits the
expected submissions of its iterator. -/
theorem processRestoreSpanEntry_submissions_trace (env : Env) (spec : RestoreDataSpec)
    (kr : KeyRewriter) (sst : mergedSST) (w : World)
    (h : (processRestoreSpanEntry env spec kr sst w).1.2 = none) :
    submissions (processRestoreSpanEntry env spec kr sst w).2.trace =
      submissions w.trace ++ expectedSubmissions env kr sst.entry.Span.EndKey sst.positions := by
  have hs := (processRestoreSpanEntry_submissions env spec kr sst w).2 h
  obtain ⟨subs, closing, h1, -, -, -⟩ := processRestoreSpanEntry_trace env spec kr sst w
  rw [← hs]
  unfold World.since
  rw [h1, List.drop_left, submissions_append]

/-- The positions of an iterator returned by `openSSTs`. -/
theorem openSSTs_positions (env : Env) (spec : RestoreDataSpec) (entry : RestoreSpanEntry)
    (resume : Option resumeEntry) (w : World) (m : mergedSST) (res : resumeEntry)
    (h : (openSSTs env spec entry resume w).1 = .ok (m, res)) :
    m.entry = entry ∧ m.positions = asOfPositions env spec entry m.files := by
  obtain ⟨k, -, -, -, hentry, hiter, -, -⟩ := openSSTs_ok env spec entry resume w m res h
  refine ⟨hentry, ?_⟩
  unfold mergedSST.positions
  rw [hiter, hentry]
  rfl

/-- The submissions of a run of the inner loop of a worker that reaches its
`break`: one pass for each iterator opened, over the files of the iterator. -/
theorem workerLoop_submissions (env : Env) (spec : RestoreDataSpec) (kr : KeyRewriter)
    (entry : RestoreSpanEntry) :
    ∀ (fuel : Nat) (resume : Option resumeEntry) (w : World),
      (workerLoop env spec kr entry fuel resume w).1 = WorkerResult.finished →
      submissions (workerLoop env spec kr entry fuel resume w).2.2.trace =
        submissions w.trace ++
          (workerLoop env spec kr entry fuel resume w).2.1.flatMap
            (fun x => passSubmissions env spec kr entry x.1.files) := by
  intro fuel
  induction fuel with
  | zero => intro resume w h; simp [workerLoop] at h
  | succ fuel ih =>
      intro resume w
      unfold workerLoop
      have hfr1 := openSSTs_submissions env spec entry resume w
      rcases hopen : openSSTs env spec entry resume w with ⟨r, w1⟩
      rw [hopen] at hfr1
      cases r with
      | error err => simp
      | ok p =>
          obtain ⟨sstIter, res1⟩ := p
          obtain ⟨hentry, hpos⟩ :=
            openSSTs_positions env spec entry resume w sstIter res1 (by rw [hopen])
          dsimp only
          have hfr2 := processRestoreSpanEntry_submissions_trace env spec kr sstIter w1
          rcases hproc : processRestoreSpanEntry env spec kr sstIter w1 with ⟨⟨summary, e⟩, w2⟩
          rw [hproc] at hfr2
          simp only at hfr1 hfr2
          cases e with
          | some err => simp
          | none =>
              have hfr3 := hfr2 rfl
              rw [hentry, hpos, hfr1] at hfr3
              simp only
              by_cases hctx : env.ctxDone w2.selectCalls = true
              · simp [hctx]
              · by_cases hdone : res1.done = true
                · simp only [hctx, hdone, if_true, if_false, Bool.false_eq_true]
                  intro _
                  simp [World.emit, submissions_append, submissions, hfr3, passSubmissions]
                · simp only [hctx, hdone, if_false, Bool.false_eq_true]
                  intro hfin
                  rw [ih (some res1) _ hfin]
                  simp [World.emit, submissions_append, submissions, hfr3, passSubmissions]

/-- C10, as amended: in an error-free run of a worker on an entry, whatever
the number of partial iterators the quota pool splits the entry into, every key
and value that processing a single iterator merged over all the files of the
entry submits is submitted over the partial iterators (as multisets, the single
pass is included in the split run); the two multisets are equal when no key is
stored in the files of two different partial iterators. -/
theorem split_submissions (env : Env) (spec : RestoreDataSpec) (kr : KeyRewriter)
    (entry : RestoreSpanEntry) (fuel : Nat) (w : World)
    (h : (workerLoop env spec kr entry fuel none w).1 = WorkerResult.finished) :
    ∃ split : List (MVCCKey × Value),
      submissions (workerLoop env spec kr entry fuel none w).2.2.trace =
        submissions w.trace ++ split ∧
      (passSubmissions env spec kr entry entry.Files : Multiset (MVCCKey × Value)) ≤ split ∧
      (keysApart env ((workerLoop env spec kr entry fuel none w).2.1.map fun x => x.1.files) →
        (passSubmissions env spec kr entry entry.Files : Multiset (MVCCKey × Value)) = split) := by
  have hfiles : (workerLoop env spec kr entry fuel none w).2.1.flatMap (fun x => x.1.files) =
      entry.Files := by
    simpa [startIdx] using workerLoop_files env spec kr entry fuel none w h
  have hsub := workerLoop_submissions env spec kr entry fuel none w h
  have hsplit := passSubmissions_split env spec kr entry
    ((workerLoop env spec kr entry fuel none w).2.1.map fun x => x.1.files)
  have hflat : ((workerLoop env spec kr entry fuel none w).2.1.map fun x => x.1.files).flatten =
      entry.Files := by
    rw [← hfiles, List.flatMap_def]
  rw [hflat, List.flatMap_map] at hsplit
  refine ⟨_, hsub, ?_, ?_⟩
  · exact Multiset.coe_le.mpr hsplit.1
  · intro hapart
    exact Multiset.coe_eq_coe.mpr (hsplit.2 hapart)

/-- C10 as amended, at the sample entry of three files that the quota pool
splits into three iterators. -/
theorem split_submissions_witness :
    ∃ split : List (MVCCKey × Value),
      submissions (workerLoop demoEnv demoSpec demoKr demoEntry 4 none World.init).2.2.trace =
        submissions World.init.trace ++ split ∧
      (passSubmissions demoEnv demoSpec demoKr demoEntry demoEntry.Files :
        Multiset (MVCCKey × Value)) ≤ split ∧
      (keysApart demoEnv
          ((workerLoop demoEnv demoSpec demoKr demoEntry 4 none World.init).2.1.map
            fun x => x.1.files) →
        (passSubmissions demoEnv demoSpec demoKr demoEntry demoEntry.Files :
          Multiset (MVCCKey × Value)) = split) :=
  split_submissions demoEnv demoSpec demoKr demoEntry 4 World.init (by decide)

/-- C10 fails when a key is stored in two files that end up in different
partial iterators: for the entry of two files that store the key `[1]` at the
wall times 1 and 2, restored as of wall time 100, the single iterator over both
files submits the newest version only, and the two partial iterators submit both
versions. -/
theorem split_submissions_counterexample :
    ((workerLoop grantEnv demoSpec demoKr layeredEntry 3 none World.init).1 =
        WorkerResult.finished ∧
      (workerLoop grantEnv demoSpec demoKr layeredEntry 3 none World.init).2.1.length = 1 ∧
      submissions (workerLoop grantEnv demoSpec demoKr layeredEntry 3 none World.init).2.2.trace =
        [(⟨[1], ⟨2, 0⟩⟩, ⟨10, [8]⟩)]) ∧
    ((workerLoop demoEnv demoSpec demoKr layeredEntry 3 none World.init).1 =
        WorkerResult.finished ∧
      (workerLoop demoEnv demoSpec demoKr layeredEntry 3 none World.init).2.1.length = 2 ∧
      submissions (workerLoop demoEnv demoSpec demoKr layeredEntry 3 none World.init).2.2.trace =
        [(⟨[1], ⟨1, 0⟩⟩, ⟨9, [7]⟩), (⟨[1], ⟨2, 0⟩⟩, ⟨10, [8]⟩)]) := by
  decide

/-! ## The start-up reservation -/

/-- The minimum number of workers is `max(1, M/2)`. -/
theorem minRestoreWorkers_eq (M : Nat) : minRestoreWorkers M = max 1 (M / 2) := by
  unfold minRestoreWorkers
  split <;> omega

/-- The loop of `reserveRestoreWorkerMemory` over `k` granted increases. -/
theorem reserveLoop_granted (env : Env) (m : Nat) (k : Nat) :
    ∀ (r worker n : Nat) (w : World),
      (∀ j, j < k → env.IncreaseCapacity (w.increaseCalls + j) = none) →
      reserveLoop env m (k + r) worker n w =
        reserveLoop env m r (worker + k) (n + k) (w.increased k) := by
  induction k with
  | zero =>
      intro r worker n w _
      simp [World.increased]
  | succ k ih =>
      intro r worker n w h
      have h0 := h 0 (by omega)
      simp only [Nat.add_zero] at h0
      have hrest : ∀ j, j < k →
          env.IncreaseCapacity ((w.increased 1).increaseCalls + j) = none := by
        intro j hj
        have := h (j + 1) (by omega)
        simpa [World.increased, Nat.add_assoc, Nat.add_comm 1 j] using this
      have hstep : reserveLoop env m (k + 1 + r) worker n w =
          reserveLoop env m (k + r) (worker + 1) (n + 1) (w.increased 1) := by
        rw [show k + 1 + r = (k + r) + 1 by omega]
        simp [reserveLoop, World.IncreaseCapacity, h0, World.increased]
      have hw : (w.increased 1).increased k = w.increased (k + 1) := by
        simp only [World.increased, List.replicate_succ, List.replicate_zero, List.append_assoc,
          List.singleton_append, Nat.add_assoc, Nat.add_comm 1 k]
      rw [hstep, ih r (worker + 1) (n + 1) (w.increased 1) hrest, hw,
        Nat.add_assoc, Nat.add_assoc, Nat.add_comm 1 k]

/-- `reserveRestoreWorkerMemory` when every increase is granted. -/
theorem reserve_all_granted (env : Env) (M : Nat) (w : World)
    (h : ∀ j, j < M → env.IncreaseCapacity (w.increaseCalls + j) = none) :
    reserveRestoreWorkerMemory env M w = ((M, none), w.increased M) := by
  unfold reserveRestoreWorkerMemory
  have := reserveLoop_granted env (minRestoreWorkers M) M 0 0 0 w h
  simp only [Nat.add_zero, Nat.zero_add] at this
  rw [this]
  rfl

/-- `reserveRestoreWorkerMemory` when the first `k < M` increases are granted
and the next one is refused with `err`. -/
theorem reserve_refused (env : Env) (M k : Nat) (w : World) (err : Err) (hk : k < M)
    (h : ∀ j, j < k → env.IncreaseCapacity (w.increaseCalls + j) = none)
    (hfail : env.IncreaseCapacity (w.increaseCalls + k) = some err) :
    reserveRestoreWorkerMemory env M w =
      (if minRestoreWorkers M ≤ k then (k, none)
        else (0, some (insufficientMemory err (minRestoreWorkers M))),
       w.increasedThenRefused k) := by
  unfold reserveRestoreWorkerMemory
  have := reserveLoop_granted env (minRestoreWorkers M) k (M - k) 0 0 w h
  rw [show k + (M - k) = M by omega] at this
  rw [this]
  obtain ⟨r, hr⟩ : ∃ r, M - k = r + 1 := ⟨M - k - 1, by omega⟩
  rw [hr]
  simp only [Nat.zero_add]
  have hcall : env.IncreaseCapacity (w.increased k).increaseCalls = some err := by
    simpa [World.increased] using hfail
  by_cases hm : minRestoreWorkers M ≤ k
  · simp [reserveLoop, World.IncreaseCapacity, hcall, hfail, hm, World.increased,
      World.increasedThenRefused]
  · simp [reserveLoop, World.IncreaseCapacity, hcall, hfail, hm, World.increased,
      World.increasedThenRefused]

/-- What `reserveRestoreWorkerMemory` does, by the first increase the pool
refuses, if any. -/
theorem reserve_cases (env : Env) (M : Nat) (w : World) :
    ((∀ j, j < M → env.IncreaseCapacity (w.increaseCalls + j) = none) ∧
      reserveRestoreWorkerMemory env M w = ((M, none), w.increased M)) ∨
    (∃ k err, k < M ∧ (∀ j, j < k → env.IncreaseCapacity (w.increaseCalls + j) = none) ∧
      env.IncreaseCapacity (w.increaseCalls + k) = some err ∧
      reserveRestoreWorkerMemory env M w =
        (if minRestoreWorkers M ≤ k then (k, none)
          else (0, some (insufficientMemory err (minRestoreWorkers M))),
         w.increasedThenRefused k)) := by
  by_cases hall : ∀ j, j < M → env.IncreaseCapacity (w.increaseCalls + j) = none
  · exact Or.inl ⟨hall, reserve_all_granted env M w hall⟩
  · right
    have hex : ∃ j, j < M ∧ env.IncreaseCapacity (w.increaseCalls + j) ≠ none := by
      by_contra hno
      apply hall
      intro j hj
      by_contra hne
      exact hno ⟨j, hj, hne⟩
    have hspec := Nat.find_spec hex
    have hmin : ∀ j, j < Nat.find hex → env.IncreaseCapacity (w.increaseCalls + j) = none := by
      intro j hj
      by_contra hne
      exact Nat.find_min hex hj ⟨by omega, hne⟩
    obtain ⟨err, herr⟩ := Option.ne_none_iff_exists'.mp hspec.2
    exact ⟨Nat.find hex, err, hspec.1, hmin, herr,
      reserve_refused env M (Nat.find hex) w err hspec.1 hmin herr⟩

/-- C11: for a configured maximum `M >= 1` with `m = max(1, M/2)`, when the
first `k` attempts of `IncreaseCapacity(minWorkerMemReservation)` succeed, the
next one fails (or `k = M` and none fails) and `k >= m`,
`reserveRestoreWorkerMemory` returns `k` workers and no error, with
`m <= k <= M`. -/
theorem reserve_returns_workers (env : Env) (M k : Nat) (w : World) (hM : 1 ≤ M) (hk : k ≤ M)
    (hsucc : ∀ j, j < k → env.IncreaseCapacity (w.increaseCalls + j) = none)
    (hfail : k < M → env.IncreaseCapacity (w.increaseCalls + k) ≠ none)
    (hmin : max 1 (M / 2) ≤ k) :
    (reserveRestoreWorkerMemory env M w).1 = (k, none) ∧
    minRestoreWorkers M = max 1 (M / 2) ∧ max 1 (M / 2) ≤ k ∧ k ≤ M := by
  refine ⟨?_, minRestoreWorkers_eq M, hmin, hk⟩
  by_cases hkM : k < M
  · obtain ⟨err, herr⟩ := Option.ne_none_iff_exists'.mp (hfail hkM)
    rw [reserve_refused env M k w err hkM hsucc herr]
    simp [minRestoreWorkers_eq, hmin]
  · have hkM2 : k = M := by omega
    subst hkM2
    rw [reserve_all_granted env k w hsucc]

/-- C11 at a maximum of 4 workers with a pool that grants three increases. -/
theorem reserve_returns_workers_witness :
    (reserveRestoreWorkerMemory threeWorkerEnv 4 World.init).1 = (3, none) ∧
    minRestoreWorkers 4 = max 1 (4 / 2) ∧ max 1 (4 / 2) ≤ 3 ∧ 3 ≤ 4 :=
  reserve_returns_workers threeWorkerEnv 4 3 World.init (by decide) (by decide)
    (fun j hj => by
      have : j = 0 ∨ j = 1 ∨ j = 2 := by omega
      rcases this with rfl | rfl | rfl <;> rfl)
    (fun _ => by decide) (by decide)

/-- C12: for a configured maximum `M >= 1` with `m = max(1, M/2)`,
`reserveRestoreWorkerMemory` returns an error exactly when an attempt of
`IncreaseCapacity` fails after fewer than `m` attempts have succeeded; the error
wraps the error of the pool with a message that names `m`, and the worker count
returned with it is 0. -/
theorem reserve_error_iff (env : Env) (M : Nat) (w : World) (hM : 1 ≤ M) :
    ((reserveRestoreWorkerMemory env M w).1.2 ≠ none ↔
      ∃ k, k < max 1 (M / 2) ∧
        (∀ j, j < k → env.IncreaseCapacity (w.increaseCalls + j) = none) ∧
        env.IncreaseCapacity (w.increaseCalls + k) ≠ none) ∧
    (∀ k err, k < max 1 (M / 2) →
      (∀ j, j < k → env.IncreaseCapacity (w.increaseCalls + j) = none) →
      env.IncreaseCapacity (w.increaseCalls + k) = some err →
      (reserveRestoreWorkerMemory env M w).1 =
        (0, some (Err.Wrapf err ("insufficient memory available to run restore with min " ++
          toString (max 1 (M / 2)) ++ " workers")))) := by
  have hmM : max 1 (M / 2) ≤ M := by omega
  have key : ∀ k err, k < max 1 (M / 2) →
      (∀ j, j < k → env.IncreaseCapacity (w.increaseCalls + j) = none) →
      env.IncreaseCapacity (w.increaseCalls + k) = some err →
      (reserveRestoreWorkerMemory env M w).1 =
        (0, some (Err.Wrapf err ("insufficient memory available to run restore with min " ++
          toString (max 1 (M / 2)) ++ " workers"))) := by
    intro k err hk hsucc herr
    rw [reserve_refused env M k w err (by omega) hsucc herr]
    have hnot : ¬ max 1 (M / 2) ≤ k := by omega
    simp only [insufficientMemory, minRestoreWorkers_eq, hnot, if_false]
  refine ⟨⟨?_, ?_⟩, key⟩
  · intro herr
    rcases reserve_cases env M w with ⟨-, hres⟩ | ⟨k, err, hk, hsucc, hfail, hres⟩
    · rw [hres] at herr; simp at herr
    · rw [hres] at herr
      by_cases hm : minRestoreWorkers M ≤ k
      · simp [hm] at herr
      · refine ⟨k, ?_, hsucc, by simp [hfail]⟩
        rw [minRestoreWorkers_eq] at hm
        omega
  · rintro ⟨k, hk, hsucc, hfail⟩
    obtain ⟨err, herr⟩ := Option.ne_none_iff_exists'.mp hfail
    rw [key k err hk hsucc herr]
    simp

/-- C12 at a maximum of 4 workers with a pool that grants one increase only. -/
theorem reserve_error_iff_witness :
    ((reserveRestoreWorkerMemory oneWorkerEnv 4 World.init).1.2 ≠ none ↔
      ∃ k, k < max 1 (4 / 2) ∧
        (∀ j, j < k → oneWorkerEnv.IncreaseCapacity (World.init.increaseCalls + j) = none) ∧
        oneWorkerEnv.IncreaseCapacity (World.init.increaseCalls + k) ≠ none) ∧
    (∀ k err, k < max 1 (4 / 2) →
      (∀ j, j < k → oneWorkerEnv.IncreaseCapacity (World.init.increaseCalls + j) = none) →
      oneWorkerEnv.IncreaseCapacity (World.init.increaseCalls + k) = some err →
      (reserveRestoreWorkerMemory oneWorkerEnv 4 World.init).1 =
        (0, some (Err.Wrapf err ("insufficient memory available to run restore with min " ++
          toString (max 1 (4 / 2)) ++ " workers")))) :=
  reserve_error_iff oneWorkerEnv 4 World.init (by decide)

/-- C13, as amended: for a positive value `M` of the worker-concurrency setting
and a start-up reservation that succeeds, the number `N` of workers satisfies
`1 <= N`, `max(1, M/2) <= N <= M`, and so `N <= 32` when the setting is at most
`maxConcurrentRestoreWorkers`. -/
theorem reserve_worker_count (env : Env) (M : Nat) (w : World) (hM : 1 ≤ M)
    (hok : (reserveRestoreWorkerMemory env M w).1.2 = none) :
    1 ≤ (reserveRestoreWorkerMemory env M w).1.1 ∧
    max 1 (M / 2) ≤ (reserveRestoreWorkerMemory env M w).1.1 ∧
    (reserveRestoreWorkerMemory env M w).1.1 ≤ M ∧
    (M ≤ maxConcurrentRestoreWorkers →
      (reserveRestoreWorkerMemory env M w).1.1 ≤ maxConcurrentRestoreWorkers) := by
  have hn : max 1 (M / 2) ≤ (reserveRestoreWorkerMemory env M w).1.1 ∧
      (reserveRestoreWorkerMemory env M w).1.1 ≤ M := by
    rcases reserve_cases env M w with ⟨-, hres⟩ | ⟨k, err, hk, hsucc, hfail, hres⟩
    · rw [hres]; simp only; omega
    · rw [hres] at hok ⊢
      by_cases hm : minRestoreWorkers M ≤ k
      · simp only [hm, if_true]
        rw [minRestoreWorkers_eq] at hm
        omega
      · simp [hm] at hok
  refine ⟨by omega, hn.1, hn.2, fun h32 => by omega⟩

/-- C13 as amended, at a setting of 4 with a pool that grants three increases. -/
theorem reserve_worker_count_witness :
    1 ≤ (reserveRestoreWorkerMemory threeWorkerEnv 4 World.init).1.1 ∧
    max 1 (4 / 2) ≤ (reserveRestoreWorkerMemory threeWorkerEnv 4 World.init).1.1 ∧
    (reserveRestoreWorkerMemory threeWorkerEnv 4 World.init).1.1 ≤ 4 ∧
    (4 ≤ maxConcurrentRestoreWorkers →
      (reserveRestoreWorkerMemory threeWorkerEnv 4 World.init).1.1 ≤
        maxConcurrentRestoreWorkers) :=
  reserve_worker_count threeWorkerEnv 4 World.init (by decide) (by decide)

/-- C13 fails for a setting above 32: with the setting at 64 and a pool that
grants every increase, the start-up reservation succeeds with 64 workers. -/
theorem reserve_worker_count_counterexample :
    (reserveRestoreWorkerMemory demoEnv 64 World.init).1 = (64, none) ∧
    ¬ (reserveRestoreWorkerMemory demoEnv 64 World.init).1.1 ≤ maxConcurrentRestoreWorkers := by
  decide

/-! ## The bulk-writer and the summary -/

/-- The state of the batcher after the loop of `processRestoreSpanEntry` ended
without error: the expected submissions were added to it. -/
theorem ingestLoop_state {β : Type} (env : Env) (kr : KeyRewriter)
    (batcher : SSTBatcherExecutor β) (endKey : Bytes) (ps : List IterPos) :
    ∀ (b : β) (w : World),
      (ingestLoop env kr batcher { Key := endKey, Timestamp := { WallTime := 0, Logical := 0 } }
        ps b w).1 = none →
      (ingestLoop env kr batcher { Key := endKey, Timestamp := { WallTime := 0, Logical := 0 } }
        ps b w).2.1 = batcherAfter batcher b (expectedSubmissions env kr endKey ps) := by
  induction ps with
  | nil => intro b w _; simp [ingestLoop, expectedSubmissions, batcherAfter]
  | cons p ps ih =>
      intro b w
      unfold ingestLoop
      cases hv : p.validErr with
      | some err => simp
      | none =>
          simp only [MVCCKey.Less_noTimestamp]
          by_cases hless : Bytes.Compare p.key.Key endKey < 0
          · simp only [hless, decide_True, Bool.not_true, Bool.false_eq_true, if_false]
            cases hval : p.value with
            | error err => simp
            | ok v =>
                cases hrw : kr.RewriteKey p.key.Key p.key.Timestamp.WallTime with
                | error err => simp
                | ok r =>
                    obtain ⟨newKey, ok⟩ := r
                    cases ok with
                    | false =>
                        intro h
                        have := ih b w (by simpa using h)
                        simpa [expectedSubmissions, List.takeWhile_cons, hless, rewritten, hv,
                          hval, hrw] using this
                    | true =>
                        simp only [Bool.not_true, Bool.false_eq_true, if_false]
                        have hexp : expectedSubmissions env kr endKey (p :: ps) =
                            ({ Key := newKey, Timestamp := p.key.Timestamp },
                              (v.ClearChecksum).InitChecksum env newKey) ::
                              expectedSubmissions env kr endKey ps := by
                          simp [expectedSubmissions, List.takeWhile_cons, hless, rewritten, hv,
                            hval, hrw]
                        rcases hadd : batcher.AddMVCCKey b
                            { Key := newKey, Timestamp := p.key.Timestamp }
                            ((v.ClearChecksum).InitChecksum env newKey) with ⟨e, b1⟩
                        cases e with
                        | some err => simp
                        | none =>
                            intro h
                            rw [hexp]
                            simp only [batcherAfter, List.foldl_cons, hadd]
                            exact ih b1 _ h
          · intro _
            simp [hless, expectedSubmissions, List.takeWhile_cons, batcherAfter]

/-- The summary of the part of `processRestoreSpanEntry` behind the construction
of the batcher, when it returns no error: the summary of the batcher after the
expected submissions and the flush. -/
theorem ingest_summary {β : Type} (env : Env) (kr : KeyRewriter) (batcher : SSTBatcherExecutor β)
    (b : β) (entry : RestoreSpanEntry) (iter : ReadAsOfIterator) (w : World)
    (h : (ingest env kr batcher b entry iter w).1.2 = none) :
    (ingest env kr batcher b entry iter w).1.1 =
      batcher.GetSummary (batcher.Flush (batcherAfter batcher b
        (expectedSubmissions env kr entry.Span.EndKey
          (iter.SeekGE { Key := entry.Span.Key, Timestamp := { WallTime := 0, Logical := 0 } })))).2 := by
  have hst := ingestLoop_state env kr batcher entry.Span.EndKey
    (iter.SeekGE { Key := entry.Span.Key, Timestamp := { WallTime := 0, Logical := 0 } }) b w
  rcases hloop : ingestLoop env kr batcher
      { Key := entry.Span.EndKey, Timestamp := { WallTime := 0, Logical := 0 } }
      (iter.SeekGE { Key := entry.Span.Key, Timestamp := { WallTime := 0, Logical := 0 } }) b w
    with ⟨e, b1, w1⟩
  rw [hloop] at hst
  simp only [ingest, hloop] at h ⊢
  cases e with
  | some err => simp at h
  | none =>
      simp only at h ⊢
      have hb1 := hst rfl
      simp only at hb1
      rw [← hb1]
      rcases hflush : batcher.Flush b1 with ⟨e2, b2⟩
      rw [hflush] at h
      cases e2 with
      | some err => simp at h
      | none => rfl

/-- The state of the counting stub after submissions: its counter counted
their keys. -/
theorem batcherAfter_noop (env : Env) (subs : List (MVCCKey × Value)) :
    ∀ b : sstBatcherNoop,
      batcherAfter (sstBatcherNoop.executor env) b subs =
        { totalRows := countKeys env (subs.map fun kv => kv.1.Key) b.totalRows } := by
  induction subs with
  | nil => intro b; rfl
  | cons kv subs ih =>
      intro b
      simp only [batcherAfter, List.foldl_cons, List.map_cons, countKeys]
      exact ih _

/-- The state of the bulk-writer after submissions: they were added to it. -/
theorem batcherAfter_real (env : Env) (subs : List (MVCCKey × Value)) :
    ∀ st : List (MVCCKey × Value), batcherAfter (SSTBatcher env) st subs = st ++ subs := by
  induction subs with
  | nil => intro st; simp [batcherAfter]
  | cons kv subs ih =>
      intro st
      simp only [batcherAfter, List.foldl_cons]
      have := ih (st ++ [kv])
      simp only [batcherAfter] at this
      simpa [SSTBatcher] using this

/-- The summary `processRestoreSpanEntry` returns when it returns no error. -/
theorem processRestoreSpanEntry_summary (env : Env) (spec : RestoreDataSpec) (kr : KeyRewriter)
    (sst : mergedSST) (w : World)
    (h : (processRestoreSpanEntry env spec kr sst w).1.2 = none) :
    (processRestoreSpanEntry env spec kr sst w).1.1 = iterSummary env spec kr sst := by
  unfold processRestoreSpanEntry at h ⊢
  unfold iterSummary
  by_cases hv : spec.ValidateOnly = true
  · simp only [hv, if_true] at h ⊢
    rw [ingest_summary env kr _ _ _ _ _ h, batcherAfter_noop]
    rfl
  · simp only [hv, if_false, Bool.false_eq_true] at h ⊢
    cases hmk : env.MakeSSTBatcher w.batcherCalls with
    | some err => simp [MakeSSTBatcher, hmk] at h
    | none =>
        simp only [MakeSSTBatcher, hmk] at h ⊢
        rw [ingest_summary env kr _ _ _ _ _ h, batcherAfter_real]
        rfl

/-- C14: when the processor is not in validate-only mode, the first thing
`processRestoreSpanEntry` does is to construct the bulk-writer, with
`disallowShadowingBelow` empty and with `writeAtBatchTS = false` exactly when the
rewriter is from the system tenant and `span.Key` or `span.EndKey` begins with
the tenant prefix; in every other case `writeAtBatchTS = true`. -/
theorem writer_writeAtBatchTS (env : Env) (spec : RestoreDataSpec) (kr : KeyRewriter)
    (sst : mergedSST) (w : World) (hv : spec.ValidateOnly = false) :
    (∃ rest, (processRestoreSpanEntry env spec kr sst w).2.trace =
      w.trace ++ Event.makeSSTBatcher { WallTime := 0, Logical := 0 }
        (writeAtBatchTS env kr sst.entry) :: rest) ∧
    (writeAtBatchTS env kr sst.entry = false ↔
      (kr.fromSystemTenant = true ∧
        (Bytes.HasPrefix sst.entry.Span.Key env.TenantPrefix = true ∨
          Bytes.HasPrefix sst.entry.Span.EndKey env.TenantPrefix = true))) ∧
    (¬ (kr.fromSystemTenant = true ∧
        (Bytes.HasPrefix sst.entry.Span.Key env.TenantPrefix = true ∨
          Bytes.HasPrefix sst.entry.Span.EndKey env.TenantPrefix = true)) →
      writeAtBatchTS env kr sst.entry = true) := by
  obtain ⟨subs, closing, h1, -, -, -⟩ := processRestoreSpanEntry_trace env spec kr sst w
  refine ⟨⟨_, by rw [h1]; simp [batcherEvents, hv]; rfl⟩, ?_, ?_⟩
  · unfold writeAtBatchTS
    by_cases hc : (kr.fromSystemTenant &&
        (Bytes.HasPrefix sst.entry.Span.Key env.TenantPrefix ||
          Bytes.HasPrefix sst.entry.Span.EndKey env.TenantPrefix)) = true
    · simp only [hc, if_true, true_iff]
      simpa using hc
    · simp only [hc, if_false, Bool.false_eq_true]
      simpa using hc
  · intro hno
    unfold writeAtBatchTS
    have hc : ¬ (kr.fromSystemTenant &&
        (Bytes.HasPrefix sst.entry.Span.Key env.TenantPrefix ||
          Bytes.HasPrefix sst.entry.Span.EndKey env.TenantPrefix)) = true := by
      simpa using hno
    simp [hc]

/-- C14 at a span that starts in the tenant prefix, restored by the system
tenant: the writer is constructed with `writeAtBatchTS = false`. -/
theorem writer_writeAtBatchTS_witness :
    (∃ rest, (processRestoreSpanEntry demoEnv demoSpec systemKr tenantSST World.init).2.trace =
      World.init.trace ++ Event.makeSSTBatcher { WallTime := 0, Logical := 0 }
        (writeAtBatchTS demoEnv systemKr tenantSST.entry) :: rest) ∧
    (writeAtBatchTS demoEnv systemKr tenantSST.entry = false ↔
      (systemKr.fromSystemTenant = true ∧
        (Bytes.HasPrefix tenantSST.entry.Span.Key demoEnv.TenantPrefix = true ∨
          Bytes.HasPrefix tenantSST.entry.Span.EndKey demoEnv.TenantPrefix = true))) ∧
    (¬ (systemKr.fromSystemTenant = true ∧
        (Bytes.HasPrefix tenantSST.entry.Span.Key demoEnv.TenantPrefix = true ∨
          Bytes.HasPrefix tenantSST.entry.Span.EndKey demoEnv.TenantPrefix = true)) →
      writeAtBatchTS demoEnv systemKr tenantSST.entry = true) :=
  writer_writeAtBatchTS demoEnv demoSpec systemKr tenantSST World.init (by decide)

/-- C15: in validate-only mode `processRestoreSpanEntry` never constructs the
bulk-writer: the counting stub takes its place, whose `AddMVCCKey` only counts
the key in its row counter, whose `Flush` returns no error and whose `Flush`
and `Close` leave the counter as it is; when no step fails, the summary returned
is the summary of the counter after exactly the matched keys of the span were
counted, in the order of the iteration. -/
theorem validate_only_counts (env : Env) (spec : RestoreDataSpec) (kr : KeyRewriter)
    (sst : mergedSST) (w : World) (hv : spec.ValidateOnly = true) :
    (∀ d b, Event.makeSSTBatcher d b ∉ (processRestoreSpanEntry env spec kr sst w).2.since w) ∧
    (∀ (b : sstBatcherNoop) key value,
      sstBatcherNoop.AddMVCCKey env b key value =
        ((env.Count b.totalRows key.Key).1, { totalRows := (env.Count b.totalRows key.Key).2 })) ∧
    (∀ b : sstBatcherNoop, sstBatcherNoop.Flush b = (none, b) ∧ sstBatcherNoop.Close b = b) ∧
    ((processRestoreSpanEntry env spec kr sst w).1.2 = none →
      (processRestoreSpanEntry env spec kr sst w).1.1 =
        (countKeys env ((expectedSubmissions env kr sst.entry.Span.EndKey sst.positions).map
          fun kv => kv.1.Key) sstBatcherNoop.zero.totalRows).BulkOpSummary) := by
  refine ⟨?_, fun b key value => rfl, fun b => ⟨rfl, rfl⟩, ?_⟩
  · intro d b hmem
    obtain ⟨subs, closing, h1, -, h3, -⟩ := processRestoreSpanEntry_trace env spec kr sst w
    unfold World.since at hmem
    rw [h1, List.drop_left] at hmem
    simp only [batcherEvents, hv, if_true, List.nil_append, List.mem_append, addEvents,
      List.mem_map, cleanupEvents, List.mem_cons] at hmem
    rcases hmem with (⟨kv, -, hkv⟩ | hcl) | hcu
    · simp at hkv
    · rcases h3 with rfl | rfl | rfl <;> simp at hcl
    · rcases hcu with hcu | ⟨a, -, ha⟩ | ⟨x, -, hx⟩
      · simp at hcu
      · simp at ha
      · simp at hx
  · intro hn
    rw [processRestoreSpanEntry_summary env spec kr sst w hn]
    simp [iterSummary, hv]

/-- C15 at the sample iterator with a counter that counts one row for every
key: three keys are counted. -/
theorem validate_only_counts_witness :
    (∀ d b, Event.makeSSTBatcher d b ∉
      (processRestoreSpanEntry countEnv validateSpec oddKr demoSST World.init).2.since
        World.init) ∧
    (∀ (b : sstBatcherNoop) key value,
      sstBatcherNoop.AddMVCCKey countEnv b key value =
        ((countEnv.Count b.totalRows key.Key).1,
          { totalRows := (countEnv.Count b.totalRows key.Key).2 })) ∧
    (∀ b : sstBatcherNoop, sstBatcherNoop.Flush b = (none, b) ∧ sstBatcherNoop.Close b = b) ∧
    ((processRestoreSpanEntry countEnv validateSpec oddKr demoSST World.init).1.2 = none →
      (processRestoreSpanEntry countEnv validateSpec oddKr demoSST World.init).1.1 =
        (countKeys countEnv
          ((expectedSubmissions countEnv oddKr demoSST.entry.Span.EndKey demoSST.positions).map
            fun kv => kv.1.Key) sstBatcherNoop.zero.totalRows).BulkOpSummary) :=
  validate_only_counts countEnv validateSpec oddKr demoSST World.init rfl

/-! ## The progress update of each iterator -/

/-- The progress updates of any run of the inner loop of a worker: one for each
iterator opened, in order, except that the last iterator has none when the run
failed on it. -/
theorem workerLoop_updates (env : Env) (spec : RestoreDataSpec) (kr : KeyRewriter)
    (entry : RestoreSpanEntry) :
    ∀ (fuel : Nat) (resume : Option resumeEntry) (w : World),
      ∃ ups : List RestoreProgress,
        progressUpdates (workerLoop env spec kr entry fuel resume w).2.2.trace =
          progressUpdates w.trace ++ ups ∧
        ups = ((workerLoop env spec kr entry fuel resume w).2.1.take ups.length).map
          (iterProgress env spec kr entry) ∧
        ups.length ≤ (workerLoop env spec kr entry fuel resume w).2.1.length ∧
        (workerLoop env spec kr entry fuel resume w).2.1.length ≤ ups.length + 1 ∧
        ((workerLoop env spec kr entry fuel resume w).1 = WorkerResult.finished →
          ups.length = (workerLoop env spec kr entry fuel resume w).2.1.length) := by
  intro fuel
  induction fuel with
  | zero => intro resume w; exact ⟨[], by simp [workerLoop]⟩
  | succ fuel ih =>
      intro resume w
      unfold workerLoop
      have hfr1 := openSSTs_progress env spec entry resume w
      rcases hopen : openSSTs env spec entry resume w with ⟨r, w1⟩
      rw [hopen] at hfr1
      cases r with
      | error err => exact ⟨[], by simp [hfr1]⟩
      | ok p =>
          obtain ⟨sstIter, res1⟩ := p
          obtain ⟨hentry, -⟩ :=
            openSSTs_positions env spec entry resume w sstIter res1 (by rw [hopen])
          dsimp only
          have hfr2 := processRestoreSpanEntry_progress env spec kr sstIter w1
          have hsum := processRestoreSpanEntry_summary env spec kr sstIter w1
          rcases hproc : processRestoreSpanEntry env spec kr sstIter w1 with ⟨⟨summary, e⟩, w2⟩
          rw [hproc] at hfr2 hsum
          simp only at hfr1 hfr2 hsum
          cases e with
          | some err => exact ⟨[], by simp [hfr1, hfr2]⟩
          | none =>
              have hs := hsum rfl
              subst hs
              simp only
              by_cases hctx : env.ctxDone w2.selectCalls = true
              · exact ⟨[], by simp [hctx, hfr1, hfr2]⟩
              · by_cases hdone : res1.done = true
                · refine ⟨[iterProgress env spec kr entry (sstIter, res1)], ?_⟩
                  simp [hctx, hdone, World.emit, progressUpdates_append, progressUpdates, hfr2,
                    hfr1, iterProgress, hentry]
                · simp only [hctx, hdone, if_false, Bool.false_eq_true]
                  obtain ⟨ups, h1, h2, h3, h4, h5⟩ := ih (some res1)
                    ({ w2 with selectCalls := w2.selectCalls + 1 }.emit
                      (Event.progress (makeProgressUpdate env (iterSummary env spec kr sstIter)
                        sstIter.entry spec.PKIDs sstIter.completeUpTo)))
                  refine ⟨iterProgress env spec kr entry (sstIter, res1) :: ups, ?_, ?_, ?_, ?_, ?_⟩
                  · rw [h1]
                    simp [World.emit, progressUpdates_append, progressUpdates, hfr2, hfr1,
                      iterProgress, hentry]
                  · simp only [List.length_cons, List.take_succ_cons, List.map_cons, List.cons.injEq,
                      true_and]
                    exact h2
                  · simpa using h3
                  · simpa using h4
                  · intro hfin
                    simpa using h5 hfin

/-- The trace of a run of the inner loop of a worker that reaches its `break`,
iterator by iterator: the events of opening and ingesting the iterator, without
any progress update, then the cleanup of the iterator, then its progress
update. -/
theorem workerLoop_segments (env : Env) (spec : RestoreDataSpec) (kr : KeyRewriter)
    (entry : RestoreSpanEntry) :
    ∀ (fuel : Nat) (resume : Option resumeEntry) (w : World),
      (workerLoop env spec kr entry fuel resume w).1 = WorkerResult.finished →
      ∃ pres : List (List Event),
        pres.length = (workerLoop env spec kr entry fuel resume w).2.1.length ∧
        (∀ pre ∈ pres, progressUpdates pre = []) ∧
        (workerLoop env spec kr entry fuel resume w).2.2.trace =
          w.trace ++ workerTrace env spec kr entry pres
            (workerLoop env spec kr entry fuel resume w).2.1 := by
  intro fuel
  induction fuel with
  | zero => intro resume w h; simp [workerLoop] at h
  | succ fuel ih =>
      intro resume w
      unfold workerLoop
      obtain ⟨evs, ht1, hp1⟩ := openSSTs_trace (fun e => ∀ p, e ≠ Event.progress p)
        (by intro a p; simp) (by intro a p; simp) (by intro a p; simp) env spec entry resume w
      rcases hopen : openSSTs env spec entry resume w with ⟨r, w1⟩
      rw [hopen] at ht1
      cases r with
      | error err => simp
      | ok p =>
          obtain ⟨sstIter, res1⟩ := p
          obtain ⟨hentry, -⟩ :=
            openSSTs_positions env spec entry resume w sstIter res1 (by rw [hopen])
          dsimp only
          obtain ⟨subs, closing, ht2, -, hcl, -⟩ :=
            processRestoreSpanEntry_trace env spec kr sstIter w1
          have hsum := processRestoreSpanEntry_summary env spec kr sstIter w1
          rcases hproc : processRestoreSpanEntry env spec kr sstIter w1 with ⟨⟨summary, e⟩, w2⟩
          rw [hproc] at ht2 hsum
          simp only at ht1 ht2 hsum
          cases e with
          | some err => simp
          | none =>
              have hs := hsum rfl
              subst hs
              have hpre : progressUpdates (evs ++ (batcherEvents env spec kr sstIter.entry ++
                  (addEvents subs ++ closing))) = [] := by
                apply progressUpdates_eq_nil
                intro e he p
                simp only [List.mem_append, batcherEvents, addEvents, List.mem_map] at he
                rcases he with he | he | he | he
                · exact hp1 e he p
                · split at he <;> simp at he
                  subst he; simp
                · obtain ⟨kv, -, rfl⟩ := he; simp
                · rcases hcl with rfl | rfl | rfl <;> simp at he
                  · subst he; simp
                  · rcases he with rfl | rfl <;> simp
              simp only
              by_cases hctx : env.ctxDone w2.selectCalls = true
              · simp [hctx]
              · by_cases hdone : res1.done = true
                · simp only [hctx, hdone, if_true, if_false, Bool.false_eq_true]
                  intro _
                  refine ⟨[evs ++ (batcherEvents env spec kr sstIter.entry ++
                    (addEvents subs ++ closing))], by simp, ?_, ?_⟩
                  · intro pre hmem
                    rw [List.mem_singleton.mp hmem]; exact hpre
                  · simp [World.emit, ht2, ht1, workerTrace, iterProgress, hentry]
                · simp only [hctx, hdone, if_false, Bool.false_eq_true]
                  intro hfin
                  obtain ⟨pres, h1, h2, h3⟩ := ih (some res1) _ hfin
                  refine ⟨(evs ++ (batcherEvents env spec kr sstIter.entry ++
                    (addEvents subs ++ closing))) :: pres, by simp [h1], ?_, ?_⟩
                  · intro pre hmem
                    rcases List.mem_cons.mp hmem with rfl | hmem
                    · exact hpre
                    · exact h2 pre hmem
                  · rw [h3]
                    simp [World.emit, ht2, ht1, workerTrace, iterProgress, hentry]

/-- The progress updates in the trace of an error-free run. -/
theorem progressUpdates_workerTrace (env : Env) (spec : RestoreDataSpec) (kr : KeyRewriter)
    (entry : RestoreSpanEntry) (its : List (mergedSST × resumeEntry)) :
    ∀ pres : List (List Event), pres.length = its.length →
      (∀ pre ∈ pres, progressUpdates pre = []) →
      progressUpdates (workerTrace env spec kr entry pres its) =
        its.map (iterProgress env spec kr entry) := by
  induction its with
  | nil => intro pres _ _; simp [workerTrace, progressUpdates]
  | cons x its ih =>
      intro pres hlen hpre
      cases pres with
      | nil => simp at hlen
      | cons pre pres =>
          have hc : progressUpdates (cleanupEvents x.1.cleanup) = [] := by
            apply progressUpdates_eq_nil
            intro e he p
            simp only [cleanupEvents, List.mem_cons, List.mem_append, List.mem_map] at he
            rcases he with rfl | ⟨a, -, rfl⟩ | ⟨d, -, rfl⟩ <;> simp
          simp only [workerTrace, progressUpdates_append,
            hpre pre (List.mem_cons_self _ _), hc, List.nil_append, List.map_cons]
          rw [ih pres (by simpa using hlen) (fun q hq => hpre q (List.mem_cons_of_mem _ hq))]
          rfl

/-- C16, as amended: in every run of the inner loop of a worker on an entry,
the progress updates posted are, in order, the updates of the iterators opened:
`ProgressIdx = entry.ProgressIdx`, `DataSpan = entry.Span`, `CompleteUpTo` the
`completeUpTo` of the iterator, `Summary = countRows(summary of the writer,
PKIDs)`; only the last iterator has no update when the run fails on it (its
ingestion fails, or the context is done when its update is to be sent). In a run
that ends without error every iterator has exactly one update, posted right
after the cleanup that ends its ingestion and before anything of the next call
of `openSSTs`, so there are as many updates as iterators. -/
theorem worker_progress_updates (env : Env) (spec : RestoreDataSpec) (kr : KeyRewriter)
    (entry : RestoreSpanEntry) (fuel : Nat) (w : World) :
    (∃ ups : List RestoreProgress,
      progressUpdates (workerLoop env spec kr entry fuel none w).2.2.trace =
        progressUpdates w.trace ++ ups ∧
      ups = ((workerLoop env spec kr entry fuel none w).2.1.take ups.length).map
        (iterProgress env spec kr entry) ∧
      ups.length ≤ (workerLoop env spec kr entry fuel none w).2.1.length ∧
      (workerLoop env spec kr entry fuel none w).2.1.length ≤ ups.length + 1) ∧
    (∀ x : mergedSST × resumeEntry,
      (iterProgress env spec kr entry x).ProgressIdx = entry.ProgressIdx ∧
      (iterProgress env spec kr entry x).DataSpan = entry.Span ∧
      (iterProgress env spec kr entry x).CompleteUpTo = x.1.completeUpTo ∧
      (iterProgress env spec kr entry x).Summary =
        env.countRows (iterSummary env spec kr x.1) spec.PKIDs) ∧
    ((workerLoop env spec kr entry fuel none w).1 = WorkerResult.finished →
      ∃ pres : List (List Event),
        pres.length = (workerLoop env spec kr entry fuel none w).2.1.length ∧
        (∀ pre ∈ pres, progressUpdates pre = []) ∧
        (workerLoop env spec kr entry fuel none w).2.2.trace =
          w.trace ++ workerTrace env spec kr entry pres
            (workerLoop env spec kr entry fuel none w).2.1 ∧
        progressUpdates (workerLoop env spec kr entry fuel none w).2.2.trace =
          progressUpdates w.trace ++
            (workerLoop env spec kr entry fuel none w).2.1.map (iterProgress env spec kr entry)) := by
  refine ⟨?_, fun x => ⟨rfl, rfl, rfl, rfl⟩, ?_⟩
  · obtain ⟨ups, h1, h2, h3, h4, -⟩ := workerLoop_updates env spec kr entry fuel none w
    exact ⟨ups, h1, h2, h3, h4⟩
  · intro hfin
    obtain ⟨pres, h1, h2, h3⟩ := workerLoop_segments env spec kr entry fuel none w hfin
    refine ⟨pres, h1, h2, h3, ?_⟩
    rw [h3, progressUpdates_append, progressUpdates_workerTrace env spec kr entry _ pres h1 h2]

/-- C16 as amended, at the sample entry of three files that the quota pool
splits into three iterators: three updates. -/
theorem worker_progress_updates_witness :
    ∃ pres : List (List Event),
      pres.length = (workerLoop demoEnv demoSpec demoKr demoEntry 4 none World.init).2.1.length ∧
      (∀ pre ∈ pres, progressUpdates pre = []) ∧
      (workerLoop demoEnv demoSpec demoKr demoEntry 4 none World.init).2.2.trace =
        World.init.trace ++ workerTrace demoEnv demoSpec demoKr demoEntry pres
          (workerLoop demoEnv demoSpec demoKr demoEntry 4 none World.init).2.1 ∧
      progressUpdates (workerLoop demoEnv demoSpec demoKr demoEntry 4 none World.init).2.2.trace =
        progressUpdates World.init.trace ++
          (workerLoop demoEnv demoSpec demoKr demoEntry 4 none World.init).2.1.map
            (iterProgress demoEnv demoSpec demoKr demoEntry) :=
  (worker_progress_updates demoEnv demoSpec demoKr demoEntry 4 World.init).2.2 (by decide)

/-- C16 fails when the context is done at the `select` that posts the update:
on the sample entry, with every reservation granted, the one iterator is opened
and ingested up to the flush without error, the worker returns the error of the
context, and no update is posted. -/
theorem worker_progress_updates_counterexample :
    (workerLoop cancelEnv demoSpec demoKr demoEntry 4 none World.init).1 =
      WorkerResult.failed Err.Canceled ∧
    (workerLoop cancelEnv demoSpec demoKr demoEntry 4 none World.init).2.1.length = 1 ∧
    (∀ x ∈ (workerLoop cancelEnv demoSpec demoKr demoEntry 4 none World.init).2.1,
      (processRestoreSpanEntry cancelEnv demoSpec demoKr x.1 World.init).1.2 = none) ∧
    Event.flush ∈ (workerLoop cancelEnv demoSpec demoKr demoEntry 4 none World.init).2.2.trace ∧
    progressUpdates (workerLoop cancelEnv demoSpec demoKr demoEntry 4 none World.init).2.2.trace =
      [] := by
  decide

/-! ## Storage handles and the cleanup of an iterator -/

theorem openedHandles_append (es fs : List Event) :
    openedHandles (es ++ fs) = openedHandles es ++ openedHandles fs := by
  induction es with
  | nil => rfl
  | cons e es ih => cases e <;> simp [openedHandles, ih]

theorem closedHandles_append (es fs : List Event) :
    closedHandles (es ++ fs) = closedHandles es ++ closedHandles fs := by
  induction es with
  | nil => rfl
  | cons e es ih => cases e <;> simp [closedHandles, ih]

theorem closedHandles_closed (ds : List ExternalStorage) :
    closedHandles (ds.map Event.closed) = ds := by
  induction ds with
  | nil => rfl
  | cons d ds ih => simp [closedHandles, ih]

theorem openedHandles_closed (ds : List ExternalStorage) :
    openedHandles (ds.map Event.closed) = [] := by
  induction ds with
  | nil => rfl
  | cons d ds ih => simp [openedHandles, ih]

theorem closedHandles_released (as : List IntAlloc) :
    closedHandles (as.map Event.released) = [] := by
  induction as with
  | nil => rfl
  | cons d ds ih => simp [closedHandles, ih]

/-- The loop of `openSSTs` closes no handle; the handles it opens carry the
next unused identifiers, one after the other; on an error the variable `dirs`
holds the handles it started with and the ones opened, on success `dirs` is
empty and the cleanup of the iterator holds them. -/
theorem openSSTsLoop_handles (env : Env) (spec : RestoreDataSpec) (entry : RestoreSpanEntry)
    (n : Nat) (files : List RestoreFileSpec) :
    ∀ (idx : Nat) (storeFiles : List StoreFile) (iterAllocs : List IntAlloc)
      (dirs : List ExternalStorage) (w : World),
      ∃ evs,
        (openSSTsLoop env spec entry n files idx storeFiles iterAllocs dirs w).2.2.trace =
          w.trace ++ evs ∧
        closedHandles evs = [] ∧
        (openedHandles evs).map ExternalStorage.id =
          List.range' w.nextDir (openedHandles evs).length ∧
        match (openSSTsLoop env spec entry n files idx storeFiles iterAllocs dirs w).1 with
        | .error _ =>
            (openSSTsLoop env spec entry n files idx storeFiles iterAllocs dirs w).2.1 =
              dirs ++ openedHandles evs
        | .ok x =>
            (openSSTsLoop env spec entry n files idx storeFiles iterAllocs dirs w).2.1 = [] ∧
            x.1.cleanup.dirsToSend = dirs ++ openedHandles evs ∧
            x.1.cleanup.iterAllocs = iterAllocs ++ acquiredAllocs evs ∧
            x.1.cleanup.readAsOfIter = x.1.iter := by
  induction files with
  | nil =>
      intro idx storeFiles iterAllocs dirs w
      rcases openSSTsLoop_nil_cases env spec entry n idx storeFiles iterAllocs dirs w with
        ⟨err, w2, hrun, ht, -⟩ | ⟨w2, hrun, ht, -⟩ <;>
      exact ⟨[], by rw [hrun]; simp [ht], rfl, rfl, by rw [hrun]; simp [openedHandles, acquiredAllocs, getIter]⟩
  | cons f fs ih =>
      intro idx storeFiles iterAllocs dirs w
      rcases openSSTsLoop_cons_cases env spec entry n f fs idx storeFiles iterAllocs dirs w with
        ⟨err, w2, hrun, ht | ⟨a, ht, -⟩, -⟩ | ⟨w2, hrun, ht, -⟩ |
          ⟨a, d, w2, hrun, ht, -, hid, hnext, -⟩
      · exact ⟨[], by rw [hrun]; simp [ht], rfl, rfl, by rw [hrun]; simp [openedHandles]⟩
      · exact ⟨[Event.acquired a], by rw [hrun]; simp [ht], rfl, rfl,
          by rw [hrun]; simp [openedHandles]⟩
      · exact ⟨[], by rw [hrun]; simp [ht], rfl, rfl, by rw [hrun]; simp [openedHandles, acquiredAllocs, getIter]⟩
      · obtain ⟨evs, h1, h2, h3, h4⟩ := ih (idx + 1)
          (storeFiles ++ [{ Store := d, FilePath := f.Path }]) (iterAllocs ++ [a]) (dirs ++ [d]) w2
        have ho : openedHandles ([Event.acquired a, Event.opened d] ++ evs) =
            d :: openedHandles evs := by simp [openedHandles]
        refine ⟨[Event.acquired a, Event.opened d] ++ evs, by rw [hrun, h1, ht]; simp, ?_, ?_, ?_⟩
        · simpa [closedHandles] using h2
        · rw [ho]
          simp only [List.map_cons, List.length_cons, List.range'_succ, h3, hid, hnext]
        · rw [hrun, ho]
          simpa [acquiredAllocs] using h4

/-- A run of the closure `cleanup` adds its events to the trace. -/
theorem cleanupFn.run_trace (c : cleanupFn) (w : World) :
    (c.run w).trace = w.trace ++ cleanupEvents c := by
  simp [cleanupFn.run, World.closeDirs, World.Release, ReadAsOfIterator.Close, World.emit,
    cleanupEvents]

theorem closedHandles_cleanupEvents (c : cleanupFn) :
    closedHandles (cleanupEvents c) = c.dirsToSend := by
  simp [cleanupEvents, closedHandles, closedHandles_append, closedHandles_released,
    closedHandles_closed]

theorem World.since_of_trace (w1 w : World) (evs : List Event) (h : w1.trace = w.trace ++ evs) :
    w1.since w = evs := by
  simp [World.since, h]

/-- C17: for every run of `openSSTs`, the storage handles it opened during the
call are pairwise distinct, and: if it returns an error, the handles closed
during the call are exactly the handles opened during the call, each closed
once; if it returns an iterator, no handle was closed during the call and a run
of the cleanup of the iterator closes exactly the handles opened during the
call, each once. -/
theorem openSSTs_closes_handles (env : Env) (spec : RestoreDataSpec) (entry : RestoreSpanEntry)
    (resume : Option resumeEntry) (w : World) :
    (openedHandles ((openSSTs env spec entry resume w).2.since w)).Nodup ∧
    match (openSSTs env spec entry resume w).1 with
    | .error _ =>
        closedHandles ((openSSTs env spec entry resume w).2.since w) =
          openedHandles ((openSSTs env spec entry resume w).2.since w)
    | .ok x =>
        closedHandles ((openSSTs env spec entry resume w).2.since w) = [] ∧
        closedHandles ((x.1.cleanup.run (openSSTs env spec entry resume w).2).since
            (openSSTs env spec entry resume w).2) =
          openedHandles ((openSSTs env spec entry resume w).2.since w) := by
  obtain ⟨evs, h1, h2, h3, h4⟩ := openSSTsLoop_handles env spec entry
    (sstOverheadBytesPerFile spec) (entry.Files.drop (startIdx resume)) (startIdx resume) [] [] [] w
  have hnd : (openedHandles evs).Nodup := by
    have : ((openedHandles evs).map ExternalStorage.id).Nodup := by
      rw [h3]; exact List.nodup_range' _ _
    exact List.Nodup.of_map _ this
  unfold openSSTs
  rcases hrun : openSSTsLoop env spec entry (sstOverheadBytesPerFile spec)
      (entry.Files.drop (startIdx resume)) (startIdx resume) [] [] [] w with ⟨r, dirs1, w1⟩
  rw [hrun] at h1 h4
  simp only at h1 h4
  have hs : (w1.closeDirs dirs1).since w = evs ++ dirs1.map Event.closed :=
    World.since_of_trace _ _ _ (by simp [World.closeDirs, h1])
  simp only [hs, openedHandles_append, closedHandles_append, openedHandles_closed,
    closedHandles_closed, h2, List.append_nil, List.nil_append]
  refine ⟨hnd, ?_⟩
  cases r with
  | error err =>
      simp only at h4
      simpa using h4
  | ok x =>
      simp only at h4
      obtain ⟨hd, hc, -, -⟩ := h4
      refine ⟨hd, ?_⟩
      rw [World.since_of_trace _ _ _ (cleanupFn.run_trace _ _), closedHandles_cleanupEvents, hc]
      simp

/-- C17 at a sample entry of three files whose storages open and whose reader
fails: the three handles are closed by the time the error is returned. -/
theorem openSSTs_closes_handles_witness :
    (∃ err, (openSSTs readerFailEnv demoSpec demoEntry none World.init).1 = .error err) ∧
    closedHandles ((openSSTs readerFailEnv demoSpec demoEntry none World.init).2.since World.init) =
      [{ id := 0, dir := 0 }, { id := 1, dir := 1 }, { id := 2, dir := 2 }] ∧
    ((openedHandles
        ((openSSTs readerFailEnv demoSpec demoEntry none World.init).2.since World.init)).Nodup ∧
      match (openSSTs readerFailEnv demoSpec demoEntry none World.init).1 with
      | .error _ =>
          closedHandles
              ((openSSTs readerFailEnv demoSpec demoEntry none World.init).2.since World.init) =
            openedHandles
              ((openSSTs readerFailEnv demoSpec demoEntry none World.init).2.since World.init)
      | .ok x =>
          closedHandles
              ((openSSTs readerFailEnv demoSpec demoEntry none World.init).2.since World.init) =
            [] ∧
          closedHandles
              ((x.1.cleanup.run (openSSTs readerFailEnv demoSpec demoEntry none World.init).2).since
                (openSSTs readerFailEnv demoSpec demoEntry none World.init).2) =
            openedHandles
              ((openSSTs readerFailEnv demoSpec demoEntry none World.init).2.since World.init)) :=
  ⟨⟨Err.External 3, rfl⟩, by decide,
    openSSTs_closes_handles readerFailEnv demoSpec demoEntry none World.init⟩

theorem releasedAllocs_append (es fs : List Event) :
    releasedAllocs (es ++ fs) = releasedAllocs es ++ releasedAllocs fs := by
  induction es with
  | nil => rfl
  | cons e es ih => cases e <;> simp [releasedAllocs, ih]

theorem closedIters_append (es fs : List Event) :
    closedIters (es ++ fs) = closedIters es ++ closedIters fs := by
  induction es with
  | nil => rfl
  | cons e es ih => cases e <;> simp [closedIters, ih]

theorem acquiredAllocs_append (es fs : List Event) :
    acquiredAllocs (es ++ fs) = acquiredAllocs es ++ acquiredAllocs fs := by
  induction es with
  | nil => rfl
  | cons e es ih => cases e <;> simp [acquiredAllocs, ih]

theorem acquiredAllocs_closed (ds : List ExternalStorage) :
    acquiredAllocs (ds.map Event.closed) = [] := by
  induction ds with
  | nil => rfl
  | cons d ds ih => simp [acquiredAllocs, ih]

theorem releasedAllocs_cleanupEvents (c : cleanupFn) :
    releasedAllocs (cleanupEvents c) = c.iterAllocs := by
  have h1 : ∀ as : List IntAlloc, releasedAllocs (as.map Event.released) = as := by
    intro as
    induction as with
    | nil => rfl
    | cons a as ih => simp [releasedAllocs, ih]
  have h2 : ∀ ds : List ExternalStorage, releasedAllocs (ds.map Event.closed) = [] := by
    intro ds
    induction ds with
    | nil => rfl
    | cons d ds ih => simp [releasedAllocs, ih]
  simp [cleanupEvents, releasedAllocs, releasedAllocs_append, h1, h2]

theorem closedIters_cleanupEvents (c : cleanupFn) :
    closedIters (cleanupEvents c) = [c.readAsOfIter.files] := by
  have h1 : ∀ as : List IntAlloc, closedIters (as.map Event.released) = [] := by
    intro as
    induction as with
    | nil => rfl
    | cons a as ih => simp [closedIters, ih]
  have h2 : ∀ ds : List ExternalStorage, closedIters (ds.map Event.closed) = [] := by
    intro ds
    induction ds with
    | nil => rfl
    | cons d ds ih => simp [closedIters, ih]
  simp [cleanupEvents, closedIters, closedIters_append, h1, h2]

/-- What the cleanup of an iterator returned by `openSSTs` captured: the
iterator itself, the reservations acquired during the call and the handles
opened during the call. -/
theorem openSSTs_cleanup (env : Env) (spec : RestoreDataSpec) (entry : RestoreSpanEntry)
    (resume : Option resumeEntry) (w : World) (m : mergedSST) (res : resumeEntry)
    (h : (openSSTs env spec entry resume w).1 = .ok (m, res)) :
    m.cleanup.readAsOfIter = m.iter ∧
    m.cleanup.iterAllocs = acquiredAllocs ((openSSTs env spec entry resume w).2.since w) ∧
    m.cleanup.dirsToSend = openedHandles ((openSSTs env spec entry resume w).2.since w) := by
  obtain ⟨evs, h1, h2, h3, h4⟩ := openSSTsLoop_handles env spec entry
    (sstOverheadBytesPerFile spec) (entry.Files.drop (startIdx resume)) (startIdx resume) [] [] [] w
  unfold openSSTs at h ⊢
  rcases hrun : openSSTsLoop env spec entry (sstOverheadBytesPerFile spec)
      (entry.Files.drop (startIdx resume)) (startIdx resume) [] [] [] w with ⟨r, dirs1, w1⟩
  rw [hrun] at h1 h4 h
  simp only at h1 h4 h
  subst h
  simp only at h4
  obtain ⟨hd, hc, ha, hi⟩ := h4
  have hs : (w1.closeDirs dirs1).since w = evs ++ dirs1.map Event.closed :=
    World.since_of_trace _ _ _ (by simp [World.closeDirs, h1])
  simp only [hs, openedHandles_append, acquiredAllocs_append, openedHandles_closed,
    acquiredAllocs_closed, List.append_nil]
  exact ⟨hi, by simpa using ha, by simpa using hc⟩

/-- C18 (amended): the cleanup of an iterator returned by `openSSTs` has no
guard. One run, from any world, closes the iterator once, releases each
reservation acquired during the call of `openSSTs` once and closes each handle
opened during the call once; a second run does all of it again, so after two
runs the iterator was closed twice, each reservation released twice and each
handle closed twice. -/
theorem cleanup_runs (env : Env) (spec : RestoreDataSpec) (entry : RestoreSpanEntry)
    (resume : Option resumeEntry) (w : World) (m : mergedSST) (res : resumeEntry)
    (h : (openSSTs env spec entry resume w).1 = .ok (m, res)) (w1 : World) :
    (closedIters ((m.cleanup.run w1).since w1) = [m.iter.files] ∧
      releasedAllocs ((m.cleanup.run w1).since w1) =
        acquiredAllocs ((openSSTs env spec entry resume w).2.since w) ∧
      closedHandles ((m.cleanup.run w1).since w1) =
        openedHandles ((openSSTs env spec entry resume w).2.since w)) ∧
    (closedIters ((m.cleanup.run (m.cleanup.run w1)).since w1) = [m.iter.files, m.iter.files] ∧
      releasedAllocs ((m.cleanup.run (m.cleanup.run w1)).since w1) =
        acquiredAllocs ((openSSTs env spec entry resume w).2.since w) ++
          acquiredAllocs ((openSSTs env spec entry resume w).2.since w) ∧
      closedHandles ((m.cleanup.run (m.cleanup.run w1)).since w1) =
        openedHandles ((openSSTs env spec entry resume w).2.since w) ++
          openedHandles ((openSSTs env spec entry resume w).2.since w)) := by
  obtain ⟨hi, ha, hd⟩ := openSSTs_cleanup env spec entry resume w m res h
  have h1 : (m.cleanup.run w1).since w1 = cleanupEvents m.cleanup :=
    World.since_of_trace _ _ _ (cleanupFn.run_trace _ _)
  have h2 : (m.cleanup.run (m.cleanup.run w1)).since w1 =
      cleanupEvents m.cleanup ++ cleanupEvents m.cleanup :=
    World.since_of_trace _ _ _ (by
      rw [cleanupFn.run_trace, cleanupFn.run_trace, List.append_assoc])
  rw [h1, h2]
  simp only [closedIters_append, releasedAllocs_append, closedHandles_append,
    closedIters_cleanupEvents, releasedAllocs_cleanupEvents, closedHandles_cleanupEvents,
    hi, ← ha, ← hd]
  simp

/-- C18 (amended) at the iterator over the three files of a sample entry. -/
theorem cleanup_runs_witness :
    ∃ m res, (openSSTs grantEnv demoSpec demoEntry none World.init).1 = .ok (m, res) ∧
      releasedAllocs ((m.cleanup.run (m.cleanup.run World.init)).since World.init) =
        acquiredAllocs ((openSSTs grantEnv demoSpec demoEntry none World.init).2.since World.init) ++
          acquiredAllocs
            ((openSSTs grantEnv demoSpec demoEntry none World.init).2.since World.init) :=
  ⟨(getIter demoSpec demoEntry
      (externalSSTIter grantEnv
        [{ Store := { id := 0, dir := 0 }, FilePath := "a" },
         { Store := { id := 1, dir := 1 }, FilePath := "b" },
         { Store := { id := 2, dir := 2 }, FilePath := "c" }])
      [{ id := 0, dir := 0 }, { id := 1, dir := 1 }, { id := 2, dir := 2 }]
      [{ id := 0, bytes := 5 <<< 20 }, { id := 1, bytes := 5 <<< 20 }, { id := 2, bytes := 5 <<< 20 }]
      demoSpec.RestoreTime).1, { idx := 3, done := true }, rfl,
    (cleanup_runs grantEnv demoSpec demoEntry none World.init _ _ rfl World.init).2.2.1⟩

/-- C18 as stated fails: at the iterator over the three files of a sample
entry one run of the cleanup releases each of the three reservations once and
closes each of the three handles once, and two runs release each reservation
twice, close each handle twice and close the iterator twice, so the world
after two runs is not the world after one. -/
theorem cleanup_runs_counterexample :
    (∃ x, (openSSTs grantEnv demoSpec demoEntry none World.init).1 = .ok x) ∧
    releasedAllocs ((cleanupRuns 1 (openSSTs grantEnv demoSpec demoEntry none World.init)).since
        (openSSTs grantEnv demoSpec demoEntry none World.init).2) =
      [{ id := 0, bytes := 5 <<< 20 }, { id := 1, bytes := 5 <<< 20 },
       { id := 2, bytes := 5 <<< 20 }] ∧
    releasedAllocs ((cleanupRuns 2 (openSSTs grantEnv demoSpec demoEntry none World.init)).since
        (openSSTs grantEnv demoSpec demoEntry none World.init).2) =
      [{ id := 0, bytes := 5 <<< 20 }, { id := 1, bytes := 5 <<< 20 },
       { id := 2, bytes := 5 <<< 20 }, { id := 0, bytes := 5 <<< 20 },
       { id := 1, bytes := 5 <<< 20 }, { id := 2, bytes := 5 <<< 20 }] ∧
    closedHandles ((cleanupRuns 2 (openSSTs grantEnv demoSpec demoEntry none World.init)).since
        (openSSTs grantEnv demoSpec demoEntry none World.init).2) =
      [{ id := 0, dir := 0 }, { id := 1, dir := 1 }, { id := 2, dir := 2 },
       { id := 0, dir := 0 }, { id := 1, dir := 1 }, { id := 2, dir := 2 }] ∧
    (closedIters ((cleanupRuns 2 (openSSTs grantEnv demoSpec demoEntry none World.init)).since
        (openSSTs grantEnv demoSpec demoEntry none World.init).2)).length = 2 ∧
    cleanupRuns 2 (openSSTs grantEnv demoSpec demoEntry none World.init) ≠
      cleanupRuns 1 (openSSTs grantEnv demoSpec demoEntry none World.init) :=
  ⟨⟨_, rfl⟩, by decide, by decide, by decide, by decide, by decide⟩

/-! ## The input reader -/

theorem sentEntries_append (xs ys : List Sent) :
    sentEntries (xs ++ ys) = sentEntries xs ++ sentEntries ys := by
  induction xs with
  | nil => rfl
  | cons x xs ih => cases x <;> simp [sentEntries, ih]

theorem sentMetas_append (xs ys : List Sent) :
    sentMetas (xs ++ ys) = sentMetas xs ++ sentMetas ys := by
  induction xs with
  | nil => rfl
  | cons x xs ih => cases x <;> simp [sentMetas, ih]

/-- A row of two columns, as a list. -/
theorem length_eq_two_cases {α : Type} (r : List α) (h : r.length = 2) :
    ∃ a b, r = [a, b] := by
  match r, h with
  | [a, b], _ => exact ⟨a, b, rfl⟩

/-- One turn of the loop of `inputReader` at an item that is not bad, when the
context is not done at the `select`: the item is forwarded and the loop goes on. -/
theorem inputReader_good (renv : ReaderEnv) (x : InputItem) (rest : List InputItem)
    (s : ReaderState) (hc : renv.ctxDone s.selects = false) (hx : badItem renv x = false) :
    ∃ y, forwarded renv x = some y ∧
      inputReader renv (x :: rest) s =
        inputReader renv rest
          { reads := s.reads + 1, selects := s.selects + 1, sent := s.sent ++ [y] } := by
  cases x with
  | meta m =>
      have hm : m.Err = none := by
        cases hE : m.Err with
        | none => rfl
        | some e => simp [badItem, hE] at hx
      exact ⟨Sent.meta m, by simp [forwarded, hm],
        by simp [inputReader, ReaderState.send, hc, hm]⟩
  | row r =>
      simp only [badItem, Bool.or_eq_false_iff, decide_eq_false_iff_not, not_not] at hx
      obtain ⟨hlen, he⟩ := hx
      obtain ⟨a, b, rfl⟩ := length_eq_two_cases r hlen
      cases hd : b.EnsureDecoded with
      | error err => simp [entryOf, hd] at he
      | ok d =>
          cases d with
          | DOther t => simp [entryOf, hd] at he
          | DBytes bs =>
              cases hu : renv.Unmarshal bs with
              | error err => simp [entryOf, hd, hu, Except.toOption] at he
              | ok e =>
                  exact ⟨Sent.entry e, by simp [forwarded, entryOf, hd, hu, Except.toOption],
                    by simp [inputReader, ReaderState.send, hc, hd, hu]⟩

/-- One turn of the loop of `inputReader` at a bad item: the reader returns an
error, the error of the record for a metadata record, with nothing sent and
nothing read after the item. -/
theorem inputReader_bad (renv : ReaderEnv) (x : InputItem) (rest : List InputItem)
    (s : ReaderState) (hx : badItem renv x = true) :
    ∃ err, inputReader renv (x :: rest) s = (some err, { s with reads := s.reads + 1 }) ∧
      ∀ m, x = InputItem.meta m → m.Err = some err := by
  cases x with
  | meta m =>
      cases hE : m.Err with
      | none => simp [badItem, hE] at hx
      | some e =>
          refine ⟨e, by simp [inputReader, hE], ?_⟩
          intro m1 h1
          cases h1
          exact hE
  | row r =>
      by_cases hlen : r.length = 2
      · obtain ⟨a, b, rfl⟩ := length_eq_two_cases r hlen
        cases hd : b.EnsureDecoded with
        | error err => exact ⟨err, by simp [inputReader, hd], by intro m h; cases h⟩
        | ok d =>
            cases d with
            | DOther t =>
                exact ⟨Err.New "unexpected datum type", by simp [inputReader, hd],
                  by intro m h; cases h⟩
            | DBytes bs =>
                cases hu : renv.Unmarshal bs with
                | error err =>
                    exact ⟨Err.Wrapf err "un-marshaling restore span entry",
                      by simp [inputReader, hd, hu], by intro m h; cases h⟩
                | ok e => simp [badItem, entryOf, hd, hu, Except.toOption] at hx
      · exact ⟨Err.New "expected input rows to have exactly 2 columns",
          by simp [inputReader, hlen], by intro m h; cases h⟩

/-- The loop of `inputReader` over a run of items that are not bad, when the
context is never done: each is forwarded, in order, and the loop goes on with
what follows. -/
theorem inputReader_prefix (renv : ReaderEnv) (hc : ∀ n, renv.ctxDone n = false)
    (pre rest : List InputItem) :
    ∀ (s : ReaderState), (∀ x ∈ pre, badItem renv x = false) →
      (pre.filterMap (forwarded renv)).length = pre.length ∧
      inputReader renv (pre ++ rest) s =
        inputReader renv rest
          { reads := s.reads + pre.length
            selects := s.selects + pre.length
            sent := s.sent ++ pre.filterMap (forwarded renv) } := by
  induction pre with
  | nil => intro s _; exact ⟨rfl, by simp⟩
  | cons x pre ih =>
      intro s h
      obtain ⟨y, hy, hrun⟩ := inputReader_good renv x (pre ++ rest) s (hc _)
        (h x (List.mem_cons_self _ _))
      obtain ⟨hl, hrec⟩ :=
        ih { reads := s.reads + 1, selects := s.selects + 1, sent := s.sent ++ [y] }
          (fun z hz => h z (List.mem_cons_of_mem _ hz))
      refine ⟨by simp [List.filterMap_cons, hy, hl], ?_⟩
      rw [List.cons_append, hrun, hrec]
      simp [List.filterMap_cons, hy, Nat.add_assoc, Nat.add_comm 1]

/-- The entries among what the specification has the reader forward are the
span entries of the rows, in input order. -/
theorem sentEntries_forwarded (renv : ReaderEnv) (items : List InputItem) :
    sentEntries (items.filterMap (forwarded renv)) = inputEntries renv items := by
  induction items with
  | nil => rfl
  | cons x xs ih =>
      unfold inputEntries at ih ⊢
      cases x with
      | meta m =>
          cases hE : m.Err <;>
            simp [List.filterMap_cons, forwarded, entryOf, sentEntries, hE, ih]
      | row r =>
          cases he : entryOf renv (InputItem.row r) <;>
            simp [List.filterMap_cons, forwarded, sentEntries, he, ih]

/-- The metadata records among what the specification has the reader forward
are the metadata records of an input without bad items, in input order. -/
theorem sentMetas_forwarded (renv : ReaderEnv) (items : List InputItem)
    (h : ∀ x ∈ items, badItem renv x = false) :
    sentMetas (items.filterMap (forwarded renv)) = inputMetas items := by
  induction items with
  | nil => rfl
  | cons x xs ih =>
      have ih1 := ih (fun z hz => h z (List.mem_cons_of_mem _ hz))
      have hx := h x (List.mem_cons_self _ _)
      cases x with
      | meta m =>
          cases hE : m.Err with
          | some e => simp [badItem, hE] at hx
          | none => simp [List.filterMap_cons, forwarded, sentMetas, inputMetas, hE, ih1]
      | row r =>
          cases he : entryOf renv (InputItem.row r) <;>
            simp [List.filterMap_cons, forwarded, sentMetas, inputMetas, he, ih1]

/-- An input with a bad item splits at its first bad item. -/
theorem exists_first_bad (renv : ReaderEnv) (items : List InputItem)
    (h : ∃ x ∈ items, badItem renv x = true) :
    ∃ pre bad post, items = pre ++ bad :: post ∧ (∀ x ∈ pre, badItem renv x = false) ∧
      badItem renv bad = true := by
  induction items with
  | nil => simp at h
  | cons x xs ih =>
      cases hx : badItem renv x with
      | true => exact ⟨[], x, xs, rfl, by simp, hx⟩
      | false =>
          obtain ⟨y, hy, hby⟩ := h
          rcases List.mem_cons.1 hy with rfl | hy
          · rw [hx] at hby; cases hby
          · obtain ⟨pre, bad, post, he, hpre, hbad⟩ := ih ⟨y, hy, hby⟩
            refine ⟨x :: pre, bad, post, by rw [he]; rfl, ?_, hbad⟩
            intro z hz
            rcases List.mem_cons.1 hz with rfl | hz
            · exact hx
            · exact hpre z hz

/-- C19: on an input whose items are rows of two columns whose second column
decodes to a span entry and metadata records without error, with a context
that is never done, `inputReader` returns no error once the input is consumed;
what it sent is one item for each item of the input, in input order: the span
entries of the rows on the channel of the entries, the metadata records on the
channel of the metadata; it read each item once and the end of the input. -/
theorem inputReader_forwards (renv : ReaderEnv) (items : List InputItem) (s : ReaderState)
    (hc : ∀ n, renv.ctxDone n = false) (hgood : ∀ x ∈ items, badItem renv x = false) :
    (inputReader renv items s).1 = none ∧
    (inputReader renv items s).2.sent = s.sent ++ items.filterMap (forwarded renv) ∧
    (items.filterMap (forwarded renv)).length = items.length ∧
    sentEntries (inputReader renv items s).2.sent = sentEntries s.sent ++ inputEntries renv items ∧
    sentMetas (inputReader renv items s).2.sent = sentMetas s.sent ++ inputMetas items ∧
    (inputReader renv items s).2.reads = s.reads + items.length + 1 := by
  obtain ⟨hl, hrun⟩ := inputReader_prefix renv hc items [] s hgood
  rw [List.append_nil] at hrun
  rw [hrun]
  simp [inputReader, hl, sentEntries_append, sentMetas_append, sentEntries_forwarded,
    sentMetas_forwarded renv items hgood]

/-- C19 at a sample input of two rows with a metadata record between them. -/
theorem inputReader_forwards_witness :
    (∀ n, demoReaderEnv.ctxDone n = false) ∧
    (∀ x ∈ demoInput, badItem demoReaderEnv x = false) ∧
    inputReader demoReaderEnv demoInput ReaderState.init =
      (none, { reads := 4, selects := 3,
               sent := [Sent.entry { Span := ⟨[0], [9]⟩, Files := [], ProgressIdx := 1 },
                        Sent.meta { Err := none, payload := 4 },
                        Sent.entry { Span := ⟨[0], [9]⟩, Files := [], ProgressIdx := 2 }] }) ∧
    ((inputReader demoReaderEnv demoInput ReaderState.init).1 = none ∧
      (inputReader demoReaderEnv demoInput ReaderState.init).2.sent =
        ReaderState.init.sent ++ demoInput.filterMap (forwarded demoReaderEnv) ∧
      (demoInput.filterMap (forwarded demoReaderEnv)).length = demoInput.length ∧
      sentEntries (inputReader demoReaderEnv demoInput ReaderState.init).2.sent =
        sentEntries ReaderState.init.sent ++ inputEntries demoReaderEnv demoInput ∧
      sentMetas (inputReader demoReaderEnv demoInput ReaderState.init).2.sent =
        sentMetas ReaderState.init.sent ++ inputMetas demoInput ∧
      (inputReader demoReaderEnv demoInput ReaderState.init).2.reads =
        ReaderState.init.reads + demoInput.length + 1) :=
  ⟨fun _ => rfl, by decide, by decide,
    inputReader_forwards demoReaderEnv demoInput ReaderState.init (fun _ => rfl) (by decide)⟩

/-- C20 (amended): with a context that is never done, `inputReader` returns an
error exactly when the input holds a bad item: a metadata record that carries
an error, a row whose number of columns is not 2, or a row whose second column
does not decode to a span entry. It then stops at the first bad item: it
returns the error of the record when the item is a metadata record, it has
read the items up to the bad one and none after it, and it has forwarded the
items before the bad one and nothing else. -/
theorem inputReader_error_iff (renv : ReaderEnv) (items : List InputItem) (s : ReaderState)
    (hc : ∀ n, renv.ctxDone n = false) :
    ((inputReader renv items s).1.isSome ↔ ∃ x ∈ items, badItem renv x = true) ∧
    ∀ pre bad post, items = pre ++ bad :: post → (∀ x ∈ pre, badItem renv x = false) →
      badItem renv bad = true →
      (∃ err, (inputReader renv items s).1 = some err ∧
        ∀ m, bad = InputItem.meta m → m.Err = some err) ∧
      (inputReader renv items s).2.reads = s.reads + pre.length + 1 ∧
      (inputReader renv items s).2.sent = s.sent ++ pre.filterMap (forwarded renv) := by
  have hstop : ∀ pre bad post, items = pre ++ bad :: post →
      (∀ x ∈ pre, badItem renv x = false) → badItem renv bad = true →
      (∃ err, (inputReader renv items s).1 = some err ∧
        ∀ m, bad = InputItem.meta m → m.Err = some err) ∧
      (inputReader renv items s).2.reads = s.reads + pre.length + 1 ∧
      (inputReader renv items s).2.sent = s.sent ++ pre.filterMap (forwarded renv) := by
    intro pre bad post he hpre hbad
    obtain ⟨-, hrun⟩ := inputReader_prefix renv hc pre (bad :: post) s hpre
    obtain ⟨err, hb, hm⟩ := inputReader_bad renv bad post
      { reads := s.reads + pre.length, selects := s.selects + pre.length,
        sent := s.sent ++ pre.filterMap (forwarded renv) } hbad
    rw [he, hrun, hb]
    exact ⟨⟨err, rfl, hm⟩, rfl, rfl⟩
  refine ⟨⟨?_, ?_⟩, hstop⟩
  · intro herr
    by_contra hno
    have hgood : ∀ x ∈ items, badItem renv x = false := by
      intro x hx
      cases hb : badItem renv x with
      | false => rfl
      | true => exact absurd ⟨x, hx, hb⟩ hno
    obtain ⟨-, hrun⟩ := inputReader_prefix renv hc items [] s hgood
    rw [List.append_nil] at hrun
    rw [hrun] at herr
    simp [inputReader] at herr
  · intro hex
    obtain ⟨pre, bad, post, he, hpre, hbad⟩ := exists_first_bad renv items hex
    obtain ⟨⟨err, herr, -⟩, -⟩ := hstop pre bad post he hpre hbad
    rw [herr]
    rfl

/-- C20 (amended) at a sample input whose third item is a metadata record that
carries an error: the reader returns that error after three reads, with the
two items before it forwarded. -/
theorem inputReader_error_iff_witness :
    (∀ n, demoReaderEnv.ctxDone n = false) ∧
    inputReader demoReaderEnv failingInput ReaderState.init =
      (some (Err.External 9),
        { reads := 3, selects := 2,
          sent := [Sent.entry { Span := ⟨[0], [9]⟩, Files := [], ProgressIdx := 1 },
                   Sent.meta { Err := none, payload := 4 }] }) ∧
    ((inputReader demoReaderEnv failingInput ReaderState.init).1.isSome ↔
      ∃ x ∈ failingInput, badItem demoReaderEnv x = true) ∧
    ((∃ err, (inputReader demoReaderEnv failingInput ReaderState.init).1 = some err ∧
        ∀ m, InputItem.meta { Err := some (Err.External 9), payload := 5 } = InputItem.meta m →
          m.Err = some err) ∧
      (inputReader demoReaderEnv failingInput ReaderState.init).2.reads =
        ReaderState.init.reads + [rowOf [1], InputItem.meta { Err := none, payload := 4 }].length
          + 1 ∧
      (inputReader demoReaderEnv failingInput ReaderState.init).2.sent =
        ReaderState.init.sent ++
          [rowOf [1], InputItem.meta { Err := none, payload := 4 }].filterMap
            (forwarded demoReaderEnv)) :=
  ⟨fun _ => rfl, by decide,
    (inputReader_error_iff demoReaderEnv failingInput ReaderState.init (fun _ => rfl)).1,
    (inputReader_error_iff demoReaderEnv failingInput ReaderState.init (fun _ => rfl)).2
      [rowOf [1], InputItem.meta { Err := none, payload := 4 }]
      (InputItem.meta { Err := some (Err.External 9), payload := 5 }) [rowOf [2]] rfl
      (by decide) (by decide)⟩

/-- C20 as stated fails: with a context that is done at the first `select`,
the reader returns an error on an input without any bad item, and on an input
with a bad item it returns the error of the context instead of the error of
the item, having read the first item only. -/
theorem inputReader_error_iff_counterexample :
    (∀ x ∈ demoInput, badItem cancelReaderEnv x = false) ∧
    inputReader cancelReaderEnv demoInput ReaderState.init =
      (some Err.Canceled, { reads := 1, selects := 1, sent := [] }) ∧
    inputReader cancelReaderEnv failingInput ReaderState.init =
      (some Err.Canceled, { reads := 1, selects := 1, sent := [] }) :=
  ⟨by decide, by decide, by decide⟩

/-! ## The life cycle of the processor and its constants -/

/-- C21: once `Start` has set `cancelWorkersAndWait`, and with an
`InternalClose` of the embedded `ProcessorBase` that sets the flag `Closed`, a
call of `ConsumerClosed` returns, and a second call after it changes nothing:
the processor and the calls made on its parts are those after the first call;
a first call on a processor that is not closed makes each call once. -/
theorem ConsumerClosed_idempotent (InternalClose : restoreDataProcessor → restoreDataProcessor)
    (rd : restoreDataProcessor) (hclose : ∀ p, (InternalClose p).Closed = true)
    (hstart : rd.cancelWorkersAndWait = true) :
    ∃ rd1, ConsumerClosed InternalClose rd = some rd1 ∧
      ConsumerClosed InternalClose rd1 = some rd1 ∧
      (rd.Closed = false →
        rd1 = InternalClose { rd with calls := rd.calls ++
          [CloseCall.cancel, CloseCall.phaseGroupWait, CloseCall.qpClose, CloseCall.aggTimerStop,
           CloseCall.InternalClose] }) := by
  by_cases hc : rd.Closed = true
  · exact ⟨rd, by simp [ConsumerClosed, hc], by simp [ConsumerClosed, hc], by simp [hc]⟩
  · refine ⟨InternalClose { rd with calls := rd.calls ++
      [CloseCall.cancel, CloseCall.phaseGroupWait, CloseCall.qpClose, CloseCall.aggTimerStop,
       CloseCall.InternalClose] }, ?_, ?_, fun _ => rfl⟩
    · simp [ConsumerClosed, hc, hstart]
    · simp [ConsumerClosed, hclose]

/-- C21 at a started processor: the second call leaves the five calls of the
first. -/
theorem ConsumerClosed_idempotent_witness :
    (∀ p, (demoInternalClose p).Closed = true) ∧
    ConsumerClosed demoInternalClose startedProcessor =
      some { Closed := true, cancelWorkersAndWait := true,
             calls := [CloseCall.cancel, CloseCall.phaseGroupWait, CloseCall.qpClose,
                       CloseCall.aggTimerStop, CloseCall.InternalClose] } ∧
    ∃ rd1, ConsumerClosed demoInternalClose startedProcessor = some rd1 ∧
      ConsumerClosed demoInternalClose rd1 = some rd1 ∧
      (startedProcessor.Closed = false →
        rd1 = demoInternalClose { startedProcessor with calls := startedProcessor.calls ++
          [CloseCall.cancel, CloseCall.phaseGroupWait, CloseCall.qpClose, CloseCall.aggTimerStop,
           CloseCall.InternalClose] }) :=
  ⟨fun _ => rfl, by decide,
    ConsumerClosed_idempotent demoInternalClose startedProcessor (fun _ => rfl) rfl⟩

/-- C22, as amended: for `c >= 1` cores the default of the worker concurrency
is `min(4, max(1, c - 1))`: at least 1, and `min(4, c - 1)` from two cores on. -/
theorem defaultNumWorkers_eq (c : Int) (hc : 1 ≤ c) :
    defaultNumWorkers c = Min.min 4 (Max.max 1 (c - 1)) ∧
    1 ≤ defaultNumWorkers c ∧
    (2 ≤ c → defaultNumWorkers c = Min.min 4 (c - 1)) := by
  unfold defaultNumWorkers Restore.min
  refine ⟨?_, ?_, ?_⟩
  · by_cases h1 : c - 1 < 1
    · have : Max.max 1 (c - 1) = 1 := by omega
      simp [h1, this]
    · have : Max.max 1 (c - 1) = c - 1 := by omega
      simp only [h1, if_false, this]
      by_cases h2 : (4 : Int) < c - 1
      · simp [h2]; omega
      · simp [h2]; omega
  · by_cases h1 : c - 1 < 1
    · simp [h1]
    · simp only [h1, if_false]
      by_cases h2 : (4 : Int) < c - 1
      · simp [h2]
      · simp only [h2, if_false]; omega
  · intro h2c
    have h1 : ¬ c - 1 < 1 := by omega
    simp only [h1, if_false]
    by_cases h2 : (4 : Int) < c - 1
    · simp [h2]; omega
    · simp [h2]; omega

/-- C22 as amended, at 8 cores: 4 workers. -/
theorem defaultNumWorkers_eq_witness :
    defaultNumWorkers 8 = Min.min 4 (Max.max 1 (8 - 1)) ∧
    1 ≤ defaultNumWorkers 8 ∧
    (2 ≤ (8 : Int) → defaultNumWorkers 8 = Min.min 4 (8 - 1)) :=
  defaultNumWorkers_eq 8 (by decide)

/-- C22 fails at one core: the default is 1, and `min(4, c - 1)` is 0. -/
theorem defaultNumWorkers_eq_counterexample :
    defaultNumWorkers 1 = 1 ∧ Min.min (4 : Int) (1 - 1) = 0 ∧
    defaultNumWorkers 1 ≠ Min.min 4 (1 - 1) := by
  decide

/-! ## Reservation sizes, the counting stub and the status of the clusters -/

/-- The reservations the loop of `openSSTs` acquires are all of the size it
was given for one file. -/
theorem openSSTsLoop_bytes (env : Env) (spec : RestoreDataSpec) (entry : RestoreSpanEntry)
    (n : Nat) (files : List RestoreFileSpec) :
    ∀ (idx : Nat) (storeFiles : List StoreFile) (iterAllocs : List IntAlloc)
      (dirs : List ExternalStorage) (w : World),
      ∃ evs,
        (openSSTsLoop env spec entry n files idx storeFiles iterAllocs dirs w).2.2.trace =
          w.trace ++ evs ∧
        ∀ a ∈ acquiredAllocs evs, a.bytes = n := by
  induction files with
  | nil =>
      intro idx storeFiles iterAllocs dirs w
      rcases openSSTsLoop_nil_cases env spec entry n idx storeFiles iterAllocs dirs w with
        ⟨err, w2, hrun, ht, -⟩ | ⟨w2, hrun, ht, -⟩ <;>
      exact ⟨[], by rw [hrun]; simp [ht], by simp [acquiredAllocs]⟩
  | cons f fs ih =>
      intro idx storeFiles iterAllocs dirs w
      rcases openSSTsLoop_cons_cases env spec entry n f fs idx storeFiles iterAllocs dirs w with
        ⟨err, w2, hrun, ht | ⟨a, ht, hb⟩, -⟩ | ⟨w2, hrun, ht, -⟩ |
          ⟨a, d, w2, hrun, ht, -, -, -, hb⟩
      · exact ⟨[], by rw [hrun]; simp [ht], by simp [acquiredAllocs]⟩
      · exact ⟨[Event.acquired a], by rw [hrun]; simp [ht], by simp [acquiredAllocs, hb]⟩
      · exact ⟨[], by rw [hrun]; simp [ht], by simp [acquiredAllocs]⟩
      · obtain ⟨evs, h1, h2⟩ := ih (idx + 1)
          (storeFiles ++ [{ Store := d, FilePath := f.Path }]) (iterAllocs ++ [a]) (dirs ++ [d]) w2
        refine ⟨[Event.acquired a, Event.opened d] ++ evs, by rw [hrun, h1, ht]; simp, ?_⟩
        intro x hx
        simp only [List.cons_append, List.nil_append, acquiredAllocs, List.mem_cons] at hx
        rcases hx with rfl | hx
        · exact hb
        · exact h2 x hx

/-- C23: every reservation a call of `openSSTs` acquires is of 8 MiB when the
restore has encryption configured and of 5 MiB otherwise, and the minimum
reservation of a worker, 15 MiB, is greater than both. -/
theorem openSSTs_reserves_per_file (env : Env) (spec : RestoreDataSpec)
    (entry : RestoreSpanEntry) (resume : Option resumeEntry) (w : World) :
    (∀ a ∈ acquiredAllocs ((openSSTs env spec entry resume w).2.since w),
      a.bytes = if spec.Encryption.isSome then 8 * 2 ^ 20 else 5 * 2 ^ 20) ∧
    minWorkerMemReservation = 15 * 2 ^ 20 ∧
    sstReaderOverheadBytesPerFile < minWorkerMemReservation ∧
    sstReaderEncryptedOverheadBytesPerFile < minWorkerMemReservation := by
  refine ⟨?_, by decide, by decide, by decide⟩
  obtain ⟨evs, h1, h2⟩ := openSSTsLoop_bytes env spec entry
    (sstOverheadBytesPerFile spec) (entry.Files.drop (startIdx resume)) (startIdx resume) [] [] [] w
  unfold openSSTs
  rcases hrun : openSSTsLoop env spec entry (sstOverheadBytesPerFile spec)
      (entry.Files.drop (startIdx resume)) (startIdx resume) [] [] [] w with ⟨r, dirs1, w1⟩
  rw [hrun] at h1
  simp only at h1
  have hs : (w1.closeDirs dirs1).since w = evs ++ dirs1.map Event.closed :=
    World.since_of_trace _ _ _ (by simp [World.closeDirs, h1])
  intro a ha
  simp only [hs, acquiredAllocs_append, acquiredAllocs_closed, List.append_nil] at ha
  rw [h2 a ha]
  unfold sstOverheadBytesPerFile
  by_cases he : spec.Encryption.isSome = true
  · simp only [he, if_true]; decide
  · simp only [he, if_false, Bool.false_eq_true]; decide

/-- The ingestion loop uses nothing of its writer but `AddMVCCKey`. -/
theorem ingestLoop_writer {β : Type} (env : Env) (kr : KeyRewriter)
    (b1 b2 : SSTBatcherExecutor β) (h : b1.AddMVCCKey = b2.AddMVCCKey) (endKeyMVCC : MVCCKey)
    (ps : List IterPos) :
    ∀ (b : β) (w : World),
      ingestLoop env kr b1 endKeyMVCC ps b w = ingestLoop env kr b2 endKeyMVCC ps b w := by
  induction ps with
  | nil => intro b w; rfl
  | cons p ps ih =>
      intro b w
      simp only [ingestLoop, h, ih]

/-- The part `ingest` of `processRestoreSpanEntry` uses nothing of its writer
but `AddMVCCKey`, `Flush` and `GetSummary`: it never calls `Reset`. -/
theorem ingest_writer {β : Type} (env : Env) (kr : KeyRewriter)
    (b1 b2 : SSTBatcherExecutor β) (hadd : b1.AddMVCCKey = b2.AddMVCCKey)
    (hflush : b1.Flush = b2.Flush) (hsum : b1.GetSummary = b2.GetSummary) (b : β)
    (entry : RestoreSpanEntry) (iter : ReadAsOfIterator) (w : World) :
    ingest env kr b1 b entry iter w = ingest env kr b2 b entry iter w := by
  simp only [ingest, ingestLoop_writer env kr b1 b2 hadd, hflush, hsum]

/-- C24 fails: the body of `sstBatcherNoop.Reset` is empty, so `Reset` leaves
the stub as it is; on the stub after one key was added, with a counter that
counts one row for every key, the summary read right after `Reset` still holds
the row and is not the empty summary. -/
theorem sstBatcherNoop_Reset_counterexample :
    (∀ b : sstBatcherNoop, sstBatcherNoop.Reset b = b) ∧
    sstBatcherNoop.GetSummary (sstBatcherNoop.Reset
      (sstBatcherNoop.AddMVCCKey countEnv sstBatcherNoop.zero
        { Key := [1], Timestamp := { WallTime := 7, Logical := 0 } }
        { checksum := 0, payload := [1] }).2) =
      { DataSize := 0, Rows := 1, IndexEntries := 0 } ∧
    sstBatcherNoop.GetSummary (sstBatcherNoop.Reset
      (sstBatcherNoop.AddMVCCKey countEnv sstBatcherNoop.zero
        { Key := [1], Timestamp := { WallTime := 7, Logical := 0 } }
        { checksum := 0, payload := [1] }).2) ≠ BulkOpSummary.zero :=
  ⟨fun _ => rfl, by decide, by decide⟩

/-- C24, as amended: `sstBatcherNoop.Reset` does nothing. For every sequence
of `AddMVCCKey` calls made before it, on any stub, `Reset` leaves the stub as
it is, so `GetSummary` right after `Reset` returns what it returns right before
it: the summary of the counter after the keys of the calls were counted. And
the ingestion of `processRestoreSpanEntry` never calls `Reset`: with any other
`Reset` in the place of the one of the stub its result is the same. -/
theorem sstBatcherNoop_Reset_noop (env : Env) (kr : KeyRewriter) (b : sstBatcherNoop)
    (subs : List (MVCCKey × Value)) (entry : RestoreSpanEntry) (iter : ReadAsOfIterator)
    (w : World) (f : sstBatcherNoop → sstBatcherNoop) :
    sstBatcherNoop.Reset (batcherAfter (sstBatcherNoop.executor env) b subs) =
      batcherAfter (sstBatcherNoop.executor env) b subs ∧
    sstBatcherNoop.GetSummary
        (sstBatcherNoop.Reset (batcherAfter (sstBatcherNoop.executor env) b subs)) =
      sstBatcherNoop.GetSummary (batcherAfter (sstBatcherNoop.executor env) b subs) ∧
    sstBatcherNoop.GetSummary
        (sstBatcherNoop.Reset (batcherAfter (sstBatcherNoop.executor env) b subs)) =
      (countKeys env (subs.map fun kv => kv.1.Key) b.totalRows).BulkOpSummary ∧
    ingest env kr { sstBatcherNoop.executor env with Reset := f } b entry iter w =
      ingest env kr (sstBatcherNoop.executor env) b entry iter w := by
  refine ⟨rfl, rfl, ?_,
    ingest_writer env kr { sstBatcherNoop.executor env with Reset := f }
      (sstBatcherNoop.executor env) rfl rfl rfl b entry iter w⟩
  rw [batcherAfter_noop]
  rfl

/-- C24 as amended, at the stub after two keys were added, with a counter
that counts one row for every key: the summary right after `Reset` holds the
two rows. -/
theorem sstBatcherNoop_Reset_noop_witness :
    sstBatcherNoop.GetSummary
        (sstBatcherNoop.Reset (batcherAfter (sstBatcherNoop.executor countEnv) sstBatcherNoop.zero
          [({ Key := [1], Timestamp := { WallTime := 7, Logical := 0 } },
              { checksum := 0, payload := [1] }),
           ({ Key := [2], Timestamp := { WallTime := 7, Logical := 0 } },
              { checksum := 0, payload := [2] })])) =
      { DataSize := 0, Rows := 2, IndexEntries := 0 } ∧
    sstBatcherNoop.GetSummary
        (sstBatcherNoop.Reset (batcherAfter (sstBatcherNoop.executor countEnv) sstBatcherNoop.zero
          [({ Key := [1], Timestamp := { WallTime := 7, Logical := 0 } },
              { checksum := 0, payload := [1] }),
           ({ Key := [2], Timestamp := { WallTime := 7, Logical := 0 } },
              { checksum := 0, payload := [2] })])) =
      sstBatcherNoop.GetSummary
        (batcherAfter (sstBatcherNoop.executor countEnv) sstBatcherNoop.zero
          [({ Key := [1], Timestamp := { WallTime := 7, Logical := 0 } },
              { checksum := 0, payload := [1] }),
           ({ Key := [2], Timestamp := { WallTime := 7, Logical := 0 } },
              { checksum := 0, payload := [2] })]) :=
  ⟨by decide,
    (sstBatcherNoop_Reset_noop countEnv demoKr sstBatcherNoop.zero
      [({ Key := [1], Timestamp := { WallTime := 7, Logical := 0 } },
          { checksum := 0, payload := [1] }),
       ({ Key := [2], Timestamp := { WallTime := 7, Logical := 0 } },
          { checksum := 0, payload := [2] })]
      demoEntry demoIter World.init id).2.1⟩

/-- C25: `status.add` appends the cluster to one of the three lists and
leaves the other two as they are: a cluster without VMs goes to `destroy` when
`now` is after its creation time plus one hour and to `good` otherwise; a
cluster with VMs goes to `destroy` when its expiry is not after `now`, to
`warn` when its expiry is after `now` and before `now` plus two hours, and to
`good` otherwise. -/
theorem status_add_cases (s : status) (c : Cluster) (now : Int) :
    (c.IsEmptyCluster = true →
      (now > c.CreatedAt + Hour → s.add c now = { s with destroy := s.destroy ++ [c] }) ∧
      (¬ now > c.CreatedAt + Hour → s.add c now = { s with good := s.good ++ [c] })) ∧
    (c.IsEmptyCluster = false →
      (¬ c.ExpiresAt > now → s.add c now = { s with destroy := s.destroy ++ [c] }) ∧
      (c.ExpiresAt > now → c.ExpiresAt < now + 2 * Hour →
        s.add c now = { s with warn := s.warn ++ [c] }) ∧
      (c.ExpiresAt > now → ¬ c.ExpiresAt < now + 2 * Hour →
        s.add c now = { s with good := s.good ++ [c] })) := by
  refine ⟨fun he => ⟨fun h => ?_, fun h => ?_⟩, fun he => ⟨fun h => ?_, fun h1 h2 => ?_,
    fun h1 h2 => ?_⟩⟩
  · simp [status.add, he, h]
  · simp only [status.add, he, if_true, h, if_false]
  · simp only [status.add, he, h, if_false, Bool.false_eq_true]
  · simp [status.add, he, h1, h2]
  · simp only [status.add, he, h1, h2, if_false, if_true, Bool.false_eq_true]

/-- C25 at a cluster with VMs that expires in three hours, seen at the
instant 0, one and a half hours later and four hours later. -/
theorem status_add_cases_witness :
    emptyStatus.add demoCluster 0 = { emptyStatus with good := [demoCluster] } ∧
    emptyStatus.add demoCluster (3 * Hour / 2) = { emptyStatus with warn := [demoCluster] } ∧
    emptyStatus.add demoCluster (4 * Hour) = { emptyStatus with destroy := [demoCluster] } ∧
    (demoCluster.ExpiresAt > 3 * Hour / 2 → demoCluster.ExpiresAt < 3 * Hour / 2 + 2 * Hour →
      emptyStatus.add demoCluster (3 * Hour / 2) =
        { emptyStatus with warn := emptyStatus.warn ++ [demoCluster] }) :=
  ⟨by decide, by decide, by decide,
    ((status_add_cases emptyStatus demoCluster (3 * Hour / 2)).2 rfl).2.1⟩

/-- The order of Go strings is total. -/
theorem bytesLE_total (a b : Bytes) : bytesLE a b ∨ bytesLE b a := by
  unfold bytesLE
  have := Bytes.Compare_swap a b
  omega

/-- The order of Go strings is transitive. -/
theorem bytesLE_trans (a b c : Bytes) (h1 : bytesLE a b) (h2 : bytesLE b c) : bytesLE a c := by
  unfold bytesLE at *
  rcases Bytes.Compare_range b c with h | h | h
  · exact le_of_lt (Bytes.Compare_le_lt_trans a b c h1 (by omega))
  · rw [← Bytes.Compare_eq_zero b c h]; exact h1
  · omega

/-- The order of Go strings is antisymmetric. -/
theorem bytesLE_antisymm (a b : Bytes) (h1 : bytesLE a b) (h2 : bytesLE b a) : a = b := by
  unfold bytesLE at *
  have := Bytes.Compare_swap a b
  exact Bytes.Compare_eq_zero a b (by omega)

/-- Sorting forgets the order the strings came in. -/
theorem sortStrings_perm (l1 l2 : List Bytes) (h : l1.Perm l2) :
    sortStrings l1 = sortStrings l2 := by
  unfold sortStrings
  have s1 := @List.sorted_insertionSort _ bytesLE _ ⟨bytesLE_total⟩ ⟨bytesLE_trans⟩ l1
  have s2 := @List.sorted_insertionSort _ bytesLE _ ⟨bytesLE_total⟩ ⟨bytesLE_trans⟩ l2
  have hp : (l1.insertionSort bytesLE).Perm (l2.insertionSort bytesLE) :=
    ((List.perm_insertionSort bytesLE l1).trans h).trans (List.perm_insertionSort bytesLE l2).symm
  exact @List.eq_of_perm_of_sorted _ bytesLE ⟨bytesLE_antisymm⟩ _ _ hp s1 s2

/-- One turn of the loop of `notificationHash` only depends on the names and
expiry times of the list, whatever their order. -/
theorem hashList_perm (formatTime : Int → Bytes) (hash i : Nat) (l1 l2 : List Cluster)
    (h : (l1.map Cluster.key).Perm (l2.map Cluster.key)) :
    hashList formatTime hash i l1 = hashList formatTime hash i l2 := by
  have hd : ∀ l : List Cluster,
      (l.map fun c => c.Name ++ [32] ++ formatTime c.ExpiresAt) =
        (l.map Cluster.key).map fun k => k.1 ++ [32] ++ formatTime k.2 := by
    intro l
    simp [List.map_map, Function.comp_def, Cluster.key]
  unfold hashList
  simp only [hd]
  rw [sortStrings_perm _ _ (h.map _)]

/-- C26: two status values whose lists `good`, `warn` and `destroy` are, list
by list, permutations of each other as to the pairs of the name and the
expiry time of their clusters have the same `notificationHash`. -/
theorem notificationHash_perm (formatTime : Int → Bytes) (s t : status)
    (hgood : (s.good.map Cluster.key).Perm (t.good.map Cluster.key))
    (hwarn : (s.warn.map Cluster.key).Perm (t.warn.map Cluster.key))
    (hdestroy : (s.destroy.map Cluster.key).Perm (t.destroy.map Cluster.key)) :
    s.notificationHash formatTime = t.notificationHash formatTime := by
  unfold status.notificationHash
  simp only [hashList_perm formatTime _ _ _ _ hgood, hashList_perm formatTime _ _ _ _ hwarn,
    hashList_perm formatTime _ _ _ _ hdestroy]

/-- C26 at two status values that list the same two clusters as good, in the
two orders. -/
theorem notificationHash_perm_witness :
    ({ good := [demoCluster, otherCluster], warn := [], destroy := [] } : status) ≠
      { good := [otherCluster, demoCluster], warn := [], destroy := [] } ∧
    status.notificationHash demoFormatTime
        { good := [demoCluster, otherCluster], warn := [], destroy := [] } =
      status.notificationHash demoFormatTime
        { good := [otherCluster, demoCluster], warn := [], destroy := [] } :=
  ⟨by decide,
    notificationHash_perm demoFormatTime
      { good := [demoCluster, otherCluster], warn := [], destroy := [] }
      { good := [otherCluster, demoCluster], warn := [], destroy := [] }
      (List.Perm.swap _ _ _) (List.Perm.refl _) (List.Perm.refl _)⟩

/-! ## The number of calls of the opener -/

/-- The inner loop of a worker leaves `running` within `max(1, n)` turns, `n`
the number of files behind the cursor, and opens at most as many iterators. -/
theorem workerLoop_ends (env : Env) (spec : RestoreDataSpec) (kr : KeyRewriter)
    (entry : RestoreSpanEntry) :
    ∀ (fuel : Nat) (resume : Option resumeEntry) (w : World),
      max 1 (entry.Files.length - startIdx resume) ≤ fuel →
      (workerLoop env spec kr entry fuel resume w).1 ≠ WorkerResult.running ∧
      (workerLoop env spec kr entry fuel resume w).2.1.length ≤
        max 1 (entry.Files.length - startIdx resume) := by
  intro fuel
  induction fuel with
  | zero => intro resume w h; omega
  | succ fuel ih =>
      intro resume w hfuel
      unfold workerLoop
      rcases hopen : openSSTs env spec entry resume w with ⟨r, w1⟩
      cases r with
      | error err => simp
      | ok p =>
          obtain ⟨sstIter, res1⟩ := p
          dsimp only
          rcases hproc : processRestoreSpanEntry env spec kr sstIter w1 with ⟨⟨summary, e⟩, w2⟩
          cases e with
          | some err => simp
          | none =>
              simp only
              by_cases hctx : env.ctxDone w2.selectCalls = true
              · simp [hctx]
              · by_cases hdone : res1.done = true
                · simp [hctx, hdone]
                · simp only [hctx, hdone, if_false, Bool.false_eq_true]
                  obtain ⟨k, -, hidx, -, -, -, -, hnot⟩ :=
                    openSSTs_ok env spec entry resume w sstIter res1 (by rw [hopen])
                  obtain ⟨h1, h2, -⟩ := hnot (by simpa using hdone)
                  have hrec := ih (some res1)
                    ({ w2 with selectCalls := w2.selectCalls + 1 }.emit
                      (Event.progress (makeProgressUpdate env summary sstIter.entry spec.PKIDs
                        sstIter.completeUpTo)))
                    (by simp only [startIdx]; omega)
                  refine ⟨hrec.1, ?_⟩
                  have hlen := hrec.2
                  simp only [List.length_cons]
                  refine Nat.succ_le_of_lt (Nat.lt_of_le_of_lt hlen ?_)
                  have hs : startIdx (some res1) = res1.idx := rfl
                  rw [hs]
                  omega

/-- A run of the inner loop of a worker that has left `running` is the same
with one more turn of fuel. -/
theorem workerLoop_fuel_succ (env : Env) (spec : RestoreDataSpec) (kr : KeyRewriter)
    (entry : RestoreSpanEntry) :
    ∀ (fuel : Nat) (resume : Option resumeEntry) (w : World),
      (workerLoop env spec kr entry fuel resume w).1 ≠ WorkerResult.running →
      workerLoop env spec kr entry (fuel + 1) resume w =
        workerLoop env spec kr entry fuel resume w := by
  intro fuel
  induction fuel with
  | zero => intro resume w h; simp [workerLoop] at h
  | succ fuel ih =>
      intro resume w h
      rw [workerLoop.eq_2 env spec kr entry resume w (fuel + 1),
        workerLoop.eq_2 env spec kr entry resume w fuel]
      rw [workerLoop.eq_2 env spec kr entry resume w fuel] at h
      rcases hopen : openSSTs env spec entry resume w with ⟨r, w1⟩
      rw [hopen] at h
      cases r with
      | error err => rfl
      | ok p =>
          obtain ⟨sstIter, res1⟩ := p
          dsimp only at h ⊢
          rcases hproc : processRestoreSpanEntry env spec kr sstIter w1 with ⟨⟨summary, e⟩, w2⟩
          rw [hproc] at h
          cases e with
          | some err => rfl
          | none =>
              simp only at h ⊢
              by_cases hctx : env.ctxDone w2.selectCalls = true
              · simp [hctx]
              · by_cases hdone : res1.done = true
                · simp [hctx, hdone]
                · simp only [hctx, hdone, if_false, Bool.false_eq_true] at h ⊢
                  rw [ih (some res1) _ h]

/-- A run of the inner loop of a worker that has left `running` is the same
with any more fuel. -/
theorem workerLoop_fuel_le (env : Env) (spec : RestoreDataSpec) (kr : KeyRewriter)
    (entry : RestoreSpanEntry) (resume : Option resumeEntry) (w : World) (n : Nat)
    (h : (workerLoop env spec kr entry n resume w).1 ≠ WorkerResult.running) :
    ∀ fuel, n ≤ fuel →
      workerLoop env spec kr entry fuel resume w = workerLoop env spec kr entry n resume w := by
  intro fuel hle
  induction fuel, hle using Nat.le_induction with
  | base => rfl
  | succ m _ ih =>
      rw [workerLoop_fuel_succ env spec kr entry m resume w (by rw [ih]; exact h), ih]

/-- C27: whatever the collaborators answer, a call of `openSSTs` that returns
`done = false` covers at least one file, so its cursor stands behind the index
the call started from; when the quota is refused at the first file of a call,
`Acquire` decides: its error is the error of the call; hence the inner loop of
a worker on an entry of `n` files ends within `max(1, n)` calls of `openSSTs`,
with at most as many iterators, and more turns change nothing. -/
theorem worker_loop_bound (env : Env) (spec : RestoreDataSpec) (kr : KeyRewriter)
    (entry : RestoreSpanEntry) (w : World) :
    (∀ (resume : Option resumeEntry) (w0 : World) (m : mergedSST) (res : resumeEntry),
      (openSSTs env spec entry resume w0).1 = .ok (m, res) → res.done = false →
      0 < m.iter.files.length ∧ startIdx resume < res.idx ∧ res.idx < entry.Files.length) ∧
    (∀ (resume : Option resumeEntry) (w0 : World) (err : Err) (f : RestoreFileSpec)
      (fs : List RestoreFileSpec),
      entry.Files.drop (startIdx resume) = f :: fs →
      env.TryAcquireMaybeIncreaseCapacity w0.tryCalls = some Err.ErrNotEnoughQuota →
      env.Acquire w0.acquireCalls = some err →
      (openSSTs env spec entry resume w0).1 = .error err) ∧
    (workerLoop env spec kr entry (max 1 entry.Files.length) none w).1 ≠ WorkerResult.running ∧
    (workerLoop env spec kr entry (max 1 entry.Files.length) none w).2.1.length ≤
      max 1 entry.Files.length ∧
    ∀ fuel, max 1 entry.Files.length ≤ fuel →
      workerLoop env spec kr entry fuel none w =
        workerLoop env spec kr entry (max 1 entry.Files.length) none w := by
  have hend := workerLoop_ends env spec kr entry (max 1 entry.Files.length) none w
    (by simp [startIdx])
  simp only [startIdx, Nat.sub_zero] at hend
  refine ⟨?_, ?_, hend.1, hend.2, workerLoop_fuel_le env spec kr entry none w _ hend.1⟩
  · intro resume w0 m res h hdone
    obtain ⟨k, hk, hidx, hfiles, -, -, -, hnot⟩ := openSSTs_ok env spec entry resume w0 m res h
    obtain ⟨h1, h2, -⟩ := hnot hdone
    have hlen := congrArg List.length hfiles
    simp only [List.length_map, List.length_take, List.length_drop] at hlen
    omega
  · intro resume w0 err f fs hdrop htry hacq
    unfold openSSTs
    rw [hdrop]
    simp [openSSTsLoop, World.TryAcquireMaybeIncreaseCapacity, htry, Err.Is, World.Acquire, hacq]

/-- C27 at the sample entry of three files with a pool that refuses every
second attempt: the loop finishes in three turns with three iterators. -/
theorem worker_loop_bound_witness :
    (workerLoop demoEnv demoSpec demoKr demoEntry 3 none World.init).1 = WorkerResult.finished ∧
    (workerLoop demoEnv demoSpec demoKr demoEntry 3 none World.init).2.1.length = 3 ∧
    ((workerLoop demoEnv demoSpec demoKr demoEntry (max 1 demoEntry.Files.length) none
        World.init).1 ≠ WorkerResult.running ∧
      (workerLoop demoEnv demoSpec demoKr demoEntry (max 1 demoEntry.Files.length) none
        World.init).2.1.length ≤ max 1 demoEntry.Files.length ∧
      ∀ fuel, max 1 demoEntry.Files.length ≤ fuel →
        workerLoop demoEnv demoSpec demoKr demoEntry fuel none World.init =
          workerLoop demoEnv demoSpec demoKr demoEntry (max 1 demoEntry.Files.length) none
            World.init) :=
  ⟨by decide, by decide,
    (worker_loop_bound demoEnv demoSpec demoKr demoEntry World.init).2.2⟩

/-! ## The cleanup of every iterator -/

/-- Events that close no iterator add nothing to the iterators closed. -/
theorem closedIters_eq_nil (es : List Event) (h : ∀ e ∈ es, ∀ fs, e ≠ Event.iterClosed fs) :
    closedIters es = [] := by
  induction es with
  | nil => rfl
  | cons e es ih =>
      have := h e (by simp)
      cases e <;> simp_all [closedIters]

/-- Events that release no reservation add nothing to the reservations released. -/
theorem releasedAllocs_eq_nil (es : List Event) (h : ∀ e ∈ es, ∀ a, e ≠ Event.released a) :
    releasedAllocs es = [] := by
  induction es with
  | nil => rfl
  | cons e es ih =>
      have := h e (by simp)
      cases e <;> simp_all [releasedAllocs]

/-- Events that close no handle add nothing to the handles closed. -/
theorem closedHandles_eq_nil (es : List Event) (h : ∀ e ∈ es, ∀ d, e ≠ Event.closed d) :
    closedHandles es = [] := by
  induction es with
  | nil => rfl
  | cons e es ih =>
      have := h e (by simp)
      cases e <;> simp_all [closedHandles]

/-- Whatever happens in `processRestoreSpanEntry`, the events of the cleanup of
the iterator are the last it records, and nothing before them closes an
iterator, releases a reservation or closes a handle. -/
theorem processRestoreSpanEntry_cleanup (env : Env) (spec : RestoreDataSpec) (kr : KeyRewriter)
    (sst : mergedSST) (w : World) :
    ∃ pre, (processRestoreSpanEntry env spec kr sst w).2.trace =
        w.trace ++ (pre ++ cleanupEvents sst.cleanup) ∧
      closedIters pre = [] ∧ releasedAllocs pre = [] ∧ closedHandles pre = [] := by
  obtain ⟨subs, closing, h1, -, h3, -⟩ := processRestoreSpanEntry_trace env spec kr sst w
  have hmem : ∀ e ∈ batcherEvents env spec kr sst.entry ++ (addEvents subs ++ closing),
      (∀ fs, e ≠ Event.iterClosed fs) ∧ (∀ a, e ≠ Event.released a) ∧
        (∀ d, e ≠ Event.closed d) := by
    intro e he
    simp only [List.mem_append, addEvents, List.mem_map] at he
    rcases he with he | ⟨kv, -, rfl⟩ | he
    · unfold batcherEvents at he
      split at he
      · simp at he
      · simp only [List.mem_singleton] at he
        subst he
        simp
    · simp
    · rcases h3 with rfl | rfl | rfl
      · simp at he
      · simp only [List.mem_singleton] at he
        subst he
        simp
      · simp only [List.mem_cons, List.mem_singleton, List.not_mem_nil, or_false] at he
        rcases he with rfl | rfl <;> simp
  exact ⟨_, h1, closedIters_eq_nil _ (fun e he => (hmem e he).1),
    releasedAllocs_eq_nil _ (fun e he => (hmem e he).2.1),
    closedHandles_eq_nil _ (fun e he => (hmem e he).2.2)⟩

/-- In any run of the inner loop of a worker, the iterators closed are those of
the iterators opened, each once and in order, and the reservations released
are those the cleanups of the opened iterators hold. -/
theorem workerLoop_cleanups (env : Env) (spec : RestoreDataSpec) (kr : KeyRewriter)
    (entry : RestoreSpanEntry) :
    ∀ (fuel : Nat) (resume : Option resumeEntry) (w : World),
      ∃ evs, (workerLoop env spec kr entry fuel resume w).2.2.trace = w.trace ++ evs ∧
        closedIters evs = (workerLoop env spec kr entry fuel resume w).2.1.map
          (fun x => x.1.cleanup.readAsOfIter.files) ∧
        releasedAllocs evs = (workerLoop env spec kr entry fuel resume w).2.1.flatMap
          (fun x => x.1.cleanup.iterAllocs) := by
  intro fuel
  induction fuel with
  | zero => intro resume w; exact ⟨[], by simp [workerLoop], rfl, rfl⟩
  | succ fuel ih =>
      intro resume w
      unfold workerLoop
      obtain ⟨e1, ho, hP⟩ := openSSTs_trace
        (fun e => (∀ fs, e ≠ Event.iterClosed fs) ∧ (∀ a, e ≠ Event.released a))
        (fun a => by simp) (fun d => by simp) (fun d => by simp) env spec entry resume w
      have hc1 : closedIters e1 = [] := closedIters_eq_nil _ (fun e he => (hP e he).1)
      have hr1 : releasedAllocs e1 = [] := releasedAllocs_eq_nil _ (fun e he => (hP e he).2)
      rcases hopen : openSSTs env spec entry resume w with ⟨r, w1⟩
      rw [hopen] at ho
      simp only at ho
      cases r with
      | error err => exact ⟨e1, ho, by simp [hc1], by simp [hr1]⟩
      | ok p =>
          obtain ⟨sstIter, res1⟩ := p
          dsimp only
          obtain ⟨pre, hp, hc2, hr2, -⟩ := processRestoreSpanEntry_cleanup env spec kr sstIter w1
          rcases hproc : processRestoreSpanEntry env spec kr sstIter w1 with ⟨⟨summary, e⟩, w2⟩
          rw [hproc] at hp
          simp only at hp
          have hc3 : closedIters (e1 ++ (pre ++ cleanupEvents sstIter.cleanup)) =
              [sstIter.cleanup.readAsOfIter.files] := by
            simp [closedIters_append, hc1, hc2, closedIters_cleanupEvents]
          have hr3 : releasedAllocs (e1 ++ (pre ++ cleanupEvents sstIter.cleanup)) =
              sstIter.cleanup.iterAllocs := by
            simp [releasedAllocs_append, hr1, hr2, releasedAllocs_cleanupEvents]
          cases e with
          | some err =>
              exact ⟨e1 ++ (pre ++ cleanupEvents sstIter.cleanup), by simp [hp, ho],
                by simp [hc3], by simp [hr3]⟩
          | none =>
              simp only
              by_cases hctx : env.ctxDone w2.selectCalls = true
              · exact ⟨e1 ++ (pre ++ cleanupEvents sstIter.cleanup), by simp [hctx, hp, ho],
                  by simp [hctx, hc3], by simp [hctx, hr3]⟩
              · by_cases hdone : res1.done = true
                · refine ⟨e1 ++ (pre ++ cleanupEvents sstIter.cleanup) ++
                    [Event.progress (makeProgressUpdate env summary sstIter.entry spec.PKIDs
                      sstIter.completeUpTo)], by simp [hctx, hdone, World.emit, hp, ho], ?_, ?_⟩
                  · rw [closedIters_append, hc3]
                    simp [hctx, hdone, closedIters]
                  · rw [releasedAllocs_append, hr3]
                    simp [hctx, hdone, releasedAllocs]
                · simp only [hctx, hdone, if_false, Bool.false_eq_true]
                  obtain ⟨evs, h1, h2, h3⟩ := ih (some res1)
                    ({ w2 with selectCalls := w2.selectCalls + 1 }.emit
                      (Event.progress (makeProgressUpdate env summary sstIter.entry spec.PKIDs
                        sstIter.completeUpTo)))
                  refine ⟨e1 ++ (pre ++ cleanupEvents sstIter.cleanup) ++
                    [Event.progress (makeProgressUpdate env summary sstIter.entry spec.PKIDs
                      sstIter.completeUpTo)] ++ evs, ?_, ?_, ?_⟩
                  · rw [h1]
                    simp [World.emit, hp, ho]
                  · rw [closedIters_append, closedIters_append, hc3, h2]
                    simp [closedIters]
                  · rw [releasedAllocs_append, releasedAllocs_append, hr3, h3]
                    simp [releasedAllocs]

/-- C28: whatever happens in `processRestoreSpanEntry` (the construction of
the bulk-writer fails, the iterator, a value read, a rewrite, an add or the
flush fails, or all succeed), the cleanup of the iterator runs exactly once,
as the last thing before the return: the iterator is closed once, its
reservations are released once, its handles are closed once. So in every run
of the inner loop of a worker, however it ends, the iterators closed are those
of the iterators opened, each once and in order, and the reservations released
are those of the opened iterators. -/
theorem cleanup_exactly_once (env : Env) (spec : RestoreDataSpec) (kr : KeyRewriter)
    (entry : RestoreSpanEntry) (sst : mergedSST) (fuel : Nat) (w : World) :
    (∃ pre, (processRestoreSpanEntry env spec kr sst w).2.trace =
        w.trace ++ (pre ++ cleanupEvents sst.cleanup) ∧
      closedIters pre = [] ∧ releasedAllocs pre = [] ∧ closedHandles pre = []) ∧
    (closedIters ((processRestoreSpanEntry env spec kr sst w).2.since w) =
        [sst.cleanup.readAsOfIter.files] ∧
      releasedAllocs ((processRestoreSpanEntry env spec kr sst w).2.since w) =
        sst.cleanup.iterAllocs ∧
      closedHandles ((processRestoreSpanEntry env spec kr sst w).2.since w) =
        sst.cleanup.dirsToSend) ∧
    (closedIters ((workerLoop env spec kr entry fuel none w).2.2.since w) =
        (workerLoop env spec kr entry fuel none w).2.1.map
          (fun x => x.1.cleanup.readAsOfIter.files) ∧
      releasedAllocs ((workerLoop env spec kr entry fuel none w).2.2.since w) =
        (workerLoop env spec kr entry fuel none w).2.1.flatMap
          (fun x => x.1.cleanup.iterAllocs)) := by
  obtain ⟨pre, hp, hc, hr, hh⟩ := processRestoreSpanEntry_cleanup env spec kr sst w
  obtain ⟨evs, h1, h2, h3⟩ := workerLoop_cleanups env spec kr entry fuel none w
  refine ⟨⟨pre, hp, hc, hr, hh⟩, ?_, ?_⟩
  · rw [World.since_of_trace _ _ _ hp]
    simp [closedIters_append, releasedAllocs_append, closedHandles_append, hc, hr, hh,
      closedIters_cleanupEvents, releasedAllocs_cleanupEvents, closedHandles_cleanupEvents]
  · rw [World.since_of_trace _ _ _ h1]
    exact ⟨h2, h3⟩

/-- C28 at a worker whose context is done when it posts the update of its
one iterator: the worker returns the error of the context and the iterator was
closed once, its three reservations released once. -/
theorem cleanup_exactly_once_witness :
    (workerLoop cancelEnv demoSpec demoKr demoEntry 4 none World.init).1 =
      WorkerResult.failed Err.Canceled ∧
    (closedIters ((workerLoop cancelEnv demoSpec demoKr demoEntry 4 none World.init).2.2.since
      World.init)).length = 1 ∧
    releasedAllocs ((workerLoop cancelEnv demoSpec demoKr demoEntry 4 none World.init).2.2.since
      World.init) =
      [{ id := 0, bytes := 5 <<< 20 }, { id := 1, bytes := 5 <<< 20 },
       { id := 2, bytes := 5 <<< 20 }] ∧
    (closedIters ((workerLoop cancelEnv demoSpec demoKr demoEntry 4 none World.init).2.2.since
        World.init) =
        (workerLoop cancelEnv demoSpec demoKr demoEntry 4 none World.init).2.1.map
          (fun x => x.1.cleanup.readAsOfIter.files) ∧
      releasedAllocs ((workerLoop cancelEnv demoSpec demoKr demoEntry 4 none World.init).2.2.since
        World.init) =
        (workerLoop cancelEnv demoSpec demoKr demoEntry 4 none World.init).2.1.flatMap
          (fun x => x.1.cleanup.iterAllocs)) :=
  ⟨by decide, by decide, by decide,
    (cleanup_exactly_once cancelEnv demoSpec demoKr demoEntry demoSST 4 World.init).2.2⟩

/-! ## The capacity of the start-up reservation -/

/-- The capacity that `k` granted increases of `n` bytes add. -/
theorem reservedCapacity_replicate (k n : Nat) :
    reservedCapacity (List.replicate k (Event.increasedCapacity n)) = k * n := by
  induction k with
  | zero => simp [reservedCapacity]
  | succ k ih =>
      simp only [List.replicate_succ, reservedCapacity, ih]
      rw [Nat.succ_mul, Nat.add_comm]

/-- C30: `reserveRestoreWorkerMemory` records nothing but the increases of
`minWorkerMemReservation` that the pool granted, `k` of them, the attempts
before the first one the pool refuses; it makes no attempt after a refused
one; the capacity it added is `k * 15 MiB`, with `k` the number of workers it
returns when it returns no error, and with `k < max(1, M/2)` increases left in
place when it returns an error. -/
theorem reserve_capacity (env : Env) (M : Nat) (w : World) :
    ∃ k, k ≤ M ∧
      (reserveRestoreWorkerMemory env M w).2.since w =
        List.replicate k (Event.increasedCapacity minWorkerMemReservation) ∧
      reservedCapacity ((reserveRestoreWorkerMemory env M w).2.since w) = k * (15 * 2 ^ 20) ∧
      (∀ j, j < k → env.IncreaseCapacity (w.increaseCalls + j) = none) ∧
      ((reserveRestoreWorkerMemory env M w).2.increaseCalls = w.increaseCalls + k ∨
        ((reserveRestoreWorkerMemory env M w).2.increaseCalls = w.increaseCalls + k + 1 ∧
          env.IncreaseCapacity (w.increaseCalls + k) ≠ none)) ∧
      ((reserveRestoreWorkerMemory env M w).1.2 = none →
        (reserveRestoreWorkerMemory env M w).1.1 = k) ∧
      ((reserveRestoreWorkerMemory env M w).1.2 ≠ none →
        k < max 1 (M / 2) ∧
        (reserveRestoreWorkerMemory env M w).2.increaseCalls = w.increaseCalls + k + 1 ∧
        env.IncreaseCapacity (w.increaseCalls + k) ≠ none) := by
  have hmin : minWorkerMemReservation = 15 * 2 ^ 20 := by decide
  rcases reserve_cases env M w with ⟨hall, hres⟩ | ⟨k, err, hk, hsucc, hfail, hres⟩
  · have hs : (w.increased M).since w =
        List.replicate M (Event.increasedCapacity minWorkerMemReservation) :=
      World.since_of_trace _ _ _ rfl
    refine ⟨M, le_refl _, by rw [hres]; exact hs, ?_, hall, Or.inl (by rw [hres]; rfl),
      fun _ => by rw [hres], fun h => by rw [hres] at h; simp at h⟩
    rw [hres]
    simp only [hs, reservedCapacity_replicate, hmin]
  · have hs : (w.increasedThenRefused k).since w =
        List.replicate k (Event.increasedCapacity minWorkerMemReservation) :=
      World.since_of_trace _ _ _ rfl
    refine ⟨k, le_of_lt hk, by rw [hres]; exact hs, ?_, hsucc,
      Or.inr ⟨by rw [hres]; rfl, by simp [hfail]⟩, ?_, ?_⟩
    · rw [hres]
      simp only [hs, reservedCapacity_replicate, hmin]
    · intro hnone
      rw [hres] at hnone ⊢
      by_cases hm : minRestoreWorkers M ≤ k
      · simp [hm]
      · simp [hm] at hnone
    · intro herr
      rw [hres] at herr ⊢
      by_cases hm : minRestoreWorkers M ≤ k
      · simp [hm] at herr
      · refine ⟨?_, rfl, by simp [hfail]⟩
        rw [minRestoreWorkers_eq] at hm
        omega

/-- C30 at a maximum of 4 workers with a pool that grants one increase only:
the reservation fails, after two attempts, and the 15 MiB of the granted
increase stay in the pool. -/
theorem reserve_capacity_witness :
    (reserveRestoreWorkerMemory oneWorkerEnv 4 World.init).1.2 ≠ none ∧
    (reserveRestoreWorkerMemory oneWorkerEnv 4 World.init).2.increaseCalls = 2 ∧
    reservedCapacity ((reserveRestoreWorkerMemory oneWorkerEnv 4 World.init).2.since World.init) =
      15 * 2 ^ 20 ∧
    ∃ k, k ≤ 4 ∧
      (reserveRestoreWorkerMemory oneWorkerEnv 4 World.init).2.since World.init =
        List.replicate k (Event.increasedCapacity minWorkerMemReservation) ∧
      reservedCapacity ((reserveRestoreWorkerMemory oneWorkerEnv 4 World.init).2.since World.init) =
        k * (15 * 2 ^ 20) ∧
      (∀ j, j < k → oneWorkerEnv.IncreaseCapacity (World.init.increaseCalls + j) = none) ∧
      ((reserveRestoreWorkerMemory oneWorkerEnv 4 World.init).2.increaseCalls =
          World.init.increaseCalls + k ∨
        ((reserveRestoreWorkerMemory oneWorkerEnv 4 World.init).2.increaseCalls =
            World.init.increaseCalls + k + 1 ∧
          oneWorkerEnv.IncreaseCapacity (World.init.increaseCalls + k) ≠ none)) ∧
      ((reserveRestoreWorkerMemory oneWorkerEnv 4 World.init).1.2 = none →
        (reserveRestoreWorkerMemory oneWorkerEnv 4 World.init).1.1 = k) ∧
      ((reserveRestoreWorkerMemory oneWorkerEnv 4 World.init).1.2 ≠ none →
        k < max 1 (4 / 2) ∧
        (reserveRestoreWorkerMemory oneWorkerEnv 4 World.init).2.increaseCalls =
          World.init.increaseCalls + k + 1 ∧
        oneWorkerEnv.IncreaseCapacity (World.init.increaseCalls + k) ≠ none) :=
  ⟨by decide, by decide, by decide, reserve_capacity oneWorkerEnv 4 World.init⟩

/-! ## The first failing step of the ingestion -/

/-- The ingestion loop over a run of positions before the end key that it
passes without error goes on with what follows, from the state and the world it
has reached. -/
theorem ingestLoop_append {β : Type} (env : Env) (kr : KeyRewriter)
    (batcher : SSTBatcherExecutor β) (endKeyMVCC : MVCCKey) (pre rest : List IterPos) :
    ∀ (b : β) (w : World) (b1 : β) (w1 : World),
      ingestLoop env kr batcher endKeyMVCC pre b w = (none, b1, w1) →
      (∀ q ∈ pre, q.key.Less endKeyMVCC = true) →
      ingestLoop env kr batcher endKeyMVCC (pre ++ rest) b w =
        ingestLoop env kr batcher endKeyMVCC rest b1 w1 := by
  induction pre with
  | nil =>
      intro b w b1 w1 h _
      simp only [ingestLoop, Prod.mk.injEq, true_and] at h
      obtain ⟨rfl, rfl⟩ := h
      rfl
  | cons p ps ih =>
      intro b w b1 w1 h hspan
      have hp := hspan p (List.mem_cons_self _ _)
      have hps : ∀ q ∈ ps, q.key.Less endKeyMVCC = true :=
        fun q hq => hspan q (List.mem_cons_of_mem _ hq)
      rw [List.cons_append]
      generalize hR : ingestLoop env kr batcher endKeyMVCC rest b1 w1 = R
      unfold ingestLoop at h ⊢
      cases hv : p.validErr with
      | some err => simp [hv] at h
      | none =>
          simp only [hv, hp, Bool.not_true, Bool.false_eq_true, if_false] at h ⊢
          cases hval : p.value with
          | error err => simp [hval] at h
          | ok v =>
              simp only [hval] at h ⊢
              cases hrw : kr.RewriteKey p.key.Key p.key.Timestamp.WallTime with
              | error err => simp [hrw] at h
              | ok r =>
                  obtain ⟨newKey, ok⟩ := r
                  simp only [hrw] at h ⊢
                  cases ok with
                  | false =>
                      simp only [Bool.not_false, if_true] at h ⊢
                      rw [← hR]
                      exact ih b w b1 w1 h hps
                  | true =>
                      simp only [Bool.not_true, Bool.false_eq_true, if_false] at h ⊢
                      rcases hadd : batcher.AddMVCCKey b { p.key with Key := newKey }
                          ((v.ClearChecksum).InitChecksum env newKey) with ⟨e, b2⟩
                      rw [hadd] at h
                      cases e with
                      | some err => simp at h
                      | none =>
                          simp only at h ⊢
                          rw [← hR]
                          exact ih b2 _ b1 w1 h hps

/-- What `ingest` answers by the outcome of its loop and of the flush: the
error of the loop with the empty summary and no flush, the error of the flush
with the empty summary, or the summary of the writer. -/
theorem ingest_cases {β : Type} (env : Env) (kr : KeyRewriter) (batcher : SSTBatcherExecutor β)
    (b : β) (entry : RestoreSpanEntry) (iter : ReadAsOfIterator) (w : World) (e : Option Err)
    (b1 : β) (w1 : World)
    (hloop : ingestLoop env kr batcher
      { Key := entry.Span.EndKey, Timestamp := { WallTime := 0, Logical := 0 } }
      (iter.SeekGE { Key := entry.Span.Key, Timestamp := { WallTime := 0, Logical := 0 } }) b w =
        (e, b1, w1)) :
    (∀ err, e = some err →
      ingest env kr batcher b entry iter w =
        ((BulkOpSummary.zero, some err), w1.emit Event.batcherClose)) ∧
    (∀ err b2, e = none → batcher.Flush b1 = (some err, b2) →
      ingest env kr batcher b entry iter w =
        ((BulkOpSummary.zero, some err), (w1.emit Event.flush).emit Event.batcherClose)) ∧
    (∀ b2, e = none → batcher.Flush b1 = (none, b2) →
      ingest env kr batcher b entry iter w =
        ((batcher.GetSummary b2, none), (w1.emit Event.flush).emit Event.batcherClose)) := by
  refine ⟨?_, ?_, ?_⟩
  · rintro err rfl
    simp only [ingest, hloop]
  · rintro err b2 rfl hflush
    simp only [ingest, hloop, hflush]
  · rintro b2 rfl hflush
    simp only [ingest, hloop, hflush]

/-- An error of `ingest` comes with the empty summary. -/
theorem ingest_error_summary {β : Type} (env : Env) (kr : KeyRewriter)
    (batcher : SSTBatcherExecutor β) (b : β) (entry : RestoreSpanEntry) (iter : ReadAsOfIterator)
    (w : World) (h : (ingest env kr batcher b entry iter w).1.2 ≠ none) :
    (ingest env kr batcher b entry iter w).1.1 = BulkOpSummary.zero := by
  rcases hloop : ingestLoop env kr batcher
      { Key := entry.Span.EndKey, Timestamp := { WallTime := 0, Logical := 0 } }
      (iter.SeekGE { Key := entry.Span.Key, Timestamp := { WallTime := 0, Logical := 0 } }) b w
    with ⟨e, b1, w1⟩
  obtain ⟨h1, h2, h3⟩ := ingest_cases env kr batcher b entry iter w e b1 w1 hloop
  cases e with
  | some err => rw [h1 err rfl]
  | none =>
      rcases hflush : batcher.Flush b1 with ⟨e2, b2⟩
      cases e2 with
      | some err => rw [h2 err b2 rfl hflush]
      | none =>
          rw [h3 b2 rfl hflush] at h
          simp at h

/-- C29: an error of `processRestoreSpanEntry` comes with the empty summary.
The call is its part `ingest` (the loop, the flush, the close of the writer)
on the writer of the mode, followed by the cleanup of the iterator. For every
writer: when the loop ends with an error `ingest` returns that error without a
flush; when the flush fails `ingest` returns its error; and the loop stops at
the first failing step: behind positions before the end key that it passed
without error, an invalid position, a failed value read or a failed rewrite
ends it with that error, in the state and the world reached before the
position, and a failed add ends it with the error of the writer wrapped by
`adding to batch`, right after that add; no position behind is visited. -/
theorem processRestoreSpanEntry_stops (env : Env) (spec : RestoreDataSpec) (kr : KeyRewriter)
    (sst : mergedSST) (w : World) :
    ((processRestoreSpanEntry env spec kr sst w).1.2 ≠ none →
      (processRestoreSpanEntry env spec kr sst w).1.1 = BulkOpSummary.zero) ∧
    (spec.ValidateOnly = true →
      processRestoreSpanEntry env spec kr sst w =
        ((ingest env kr (sstBatcherNoop.executor env) sstBatcherNoop.zero sst.entry sst.iter w).1,
          sst.cleanup.run
            (ingest env kr (sstBatcherNoop.executor env) sstBatcherNoop.zero sst.entry sst.iter
              w).2)) ∧
    (spec.ValidateOnly = false → env.MakeSSTBatcher w.batcherCalls = none →
      processRestoreSpanEntry env spec kr sst w =
        ((ingest env kr (SSTBatcher env) [] sst.entry sst.iter
            (MakeSSTBatcher env { WallTime := 0, Logical := 0 } (writeAtBatchTS env kr sst.entry)
              w).2).1,
          sst.cleanup.run
            (ingest env kr (SSTBatcher env) [] sst.entry sst.iter
              (MakeSSTBatcher env { WallTime := 0, Logical := 0 }
                (writeAtBatchTS env kr sst.entry) w).2).2)) ∧
    (∀ (β : Type) (batcher : SSTBatcherExecutor β) (b : β) (entry : RestoreSpanEntry)
      (iter : ReadAsOfIterator) (w0 : World) (b1 : β) (w1 : World),
      (∀ err, ingestLoop env kr batcher
          { Key := entry.Span.EndKey, Timestamp := { WallTime := 0, Logical := 0 } }
          (iter.SeekGE { Key := entry.Span.Key, Timestamp := { WallTime := 0, Logical := 0 } })
          b w0 = (some err, b1, w1) →
        ingest env kr batcher b entry iter w0 =
          ((BulkOpSummary.zero, some err), w1.emit Event.batcherClose)) ∧
      (∀ err b2, ingestLoop env kr batcher
          { Key := entry.Span.EndKey, Timestamp := { WallTime := 0, Logical := 0 } }
          (iter.SeekGE { Key := entry.Span.Key, Timestamp := { WallTime := 0, Logical := 0 } })
          b w0 = (none, b1, w1) →
        batcher.Flush b1 = (some err, b2) →
        ingest env kr batcher b entry iter w0 =
          ((BulkOpSummary.zero, some err), (w1.emit Event.flush).emit Event.batcherClose))) ∧
    (∀ (β : Type) (batcher : SSTBatcherExecutor β) (endKeyMVCC : MVCCKey)
      (pre post : List IterPos) (p : IterPos) (b : β) (w0 : World) (b1 : β) (w1 : World),
      (∀ q ∈ pre, q.key.Less endKeyMVCC = true) →
      ingestLoop env kr batcher endKeyMVCC pre b w0 = (none, b1, w1) →
      (∀ err, p.validErr = some err →
        ingestLoop env kr batcher endKeyMVCC (pre ++ p :: post) b w0 = (some err, b1, w1)) ∧
      (∀ err, p.validErr = none → p.key.Less endKeyMVCC = true → p.value = .error err →
        ingestLoop env kr batcher endKeyMVCC (pre ++ p :: post) b w0 = (some err, b1, w1)) ∧
      (∀ err v, p.validErr = none → p.key.Less endKeyMVCC = true → p.value = .ok v →
        kr.RewriteKey p.key.Key p.key.Timestamp.WallTime = .error err →
        ingestLoop env kr batcher endKeyMVCC (pre ++ p :: post) b w0 = (some err, b1, w1)) ∧
      (∀ err v newKey b2, p.validErr = none → p.key.Less endKeyMVCC = true → p.value = .ok v →
        kr.RewriteKey p.key.Key p.key.Timestamp.WallTime = .ok (newKey, true) →
        batcher.AddMVCCKey b1 { Key := newKey, Timestamp := p.key.Timestamp }
          ((v.ClearChecksum).InitChecksum env newKey) = (some err, b2) →
        ingestLoop env kr batcher endKeyMVCC (pre ++ p :: post) b w0 =
          (some (Err.Wrapf err "adding to batch"), b2,
            w1.emit (Event.addMVCCKey { Key := newKey, Timestamp := p.key.Timestamp }
              ((v.ClearChecksum).InitChecksum env newKey))))) := by
  refine ⟨?_, ?_, ?_, ?_, ?_⟩
  · intro h
    unfold processRestoreSpanEntry at h ⊢
    by_cases hv : spec.ValidateOnly = true
    · simp only [hv, if_true] at h ⊢
      exact ingest_error_summary env kr _ _ _ _ _ h
    · simp only [hv, if_false, Bool.false_eq_true] at h ⊢
      cases hmk : env.MakeSSTBatcher w.batcherCalls with
      | some err => simp [MakeSSTBatcher, hmk]
      | none =>
          simp only [MakeSSTBatcher, hmk] at h ⊢
          exact ingest_error_summary env kr _ _ _ _ _ h
  · intro hv
    simp [processRestoreSpanEntry, hv]
  · intro hv hmk
    simp [processRestoreSpanEntry, hv, MakeSSTBatcher, hmk]
  · intro β batcher b entry iter w0 b1 w1
    refine ⟨fun err hloop => ?_, fun err b2 hloop hflush => ?_⟩
    · exact (ingest_cases env kr batcher b entry iter w0 _ b1 w1 hloop).1 err rfl
    · exact (ingest_cases env kr batcher b entry iter w0 _ b1 w1 hloop).2.1 err b2 rfl hflush
  · intro β batcher endKeyMVCC pre post p b w0 b1 w1 hspan hpre
    have happ := ingestLoop_append env kr batcher endKeyMVCC pre (p :: post) b w0 b1 w1 hpre hspan
    refine ⟨?_, ?_, ?_, ?_⟩
    · intro err hv
      rw [happ]
      simp [ingestLoop, hv]
    · intro err hv hless hval
      rw [happ]
      simp [ingestLoop, hv, hless, hval]
    · intro err v hv hless hval hrw
      rw [happ]
      simp [ingestLoop, hv, hless, hval, hrw]
    · intro err v newKey b2 hv hless hval hrw hadd
      rw [happ]
      simp [ingestLoop, hv, hless, hval, hrw, hadd]

/-- C29 at the sample iterator with a rewriter that fails at its third key:
the call returns that error with the empty summary, after the two adds before
it, without a flush, and with the cleanup of the iterator. -/
theorem processRestoreSpanEntry_stops_witness :
    processRestoreSpanEntry demoEnv demoSpec failKr demoSST World.init =
      ((BulkOpSummary.zero, some (Err.External 4)),
        { World.init with
          batcherCalls := 1
          trace := [Event.makeSSTBatcher { WallTime := 0, Logical := 0 } true,
            Event.addMVCCKey { Key := [1], Timestamp := { WallTime := 7, Logical := 0 } }
              { checksum := 3, payload := [1] },
            Event.addMVCCKey { Key := [2], Timestamp := { WallTime := 7, Logical := 0 } }
              { checksum := 5, payload := [2] },
            Event.batcherClose, Event.iterClosed []] }) ∧
    ((processRestoreSpanEntry demoEnv demoSpec failKr demoSST World.init).1.2 ≠ none →
      (processRestoreSpanEntry demoEnv demoSpec failKr demoSST World.init).1.1 =
        BulkOpSummary.zero) :=
  ⟨by decide, (processRestoreSpanEntry_stops demoEnv demoSpec failKr demoSST World.init).1⟩

end Restore
